import Mathlib

/-!
# toml-test: the JSON comparator (`json.go`, `results.go`)

A shallow embedding of the structural comparator of `toml-test` and a
development of its properties.

## Modelling conventions

* `JSON` is what `encoding/json` decodes into an `interface{}`: `nil`, `bool`,
  `float64`, `string`, `[]interface{}` and `map[string]interface{}`.
* A Go map is represented by the list of its bindings, in the order in which a
  `range` statement enumerates them.  Go leaves that order unspecified, so a
  statement that holds for every list holds for every enumeration order.  A
  list represents a map when its keys are pairwise distinct.  `cmpJsonMaps`
  ranges over `e` twice; the second loop is reached only when the first has
  found no missing key, which does not depend on its order, so that one list
  for both loops loses no behaviour.
* A `float64` is represented by its IEEE 754 binary64 bit pattern, a natural
  number taken modulo `2 ^ 64`.
* A call that can end in a Go run-time panic returns `Option result`, `none`
  standing for the panic.
* `fmt.Sprintf` is rendered by string concatenation.  `%s` applied to a string
  is the string, `%d` is the decimal numeral, `%T` is `typeName`.  What the Go
  standard library computes outside of that (`strconv.ParseFloat`, `%v` of a
  `float64`, `%s` of an operand that is not a string) is a parameter, `GoLib`.
-/

namespace TomlTest

/-! ## Data model -/

/-- A decoded JSON value, as stored in an `interface{}` by `encoding/json`. -/
inductive JSON where
  | null
  | bool (b : Bool)
  | num (bits : Nat)
  | str (s : String)
  | arr (xs : List JSON)
  | obj (kvs : List (String × JSON))

/-- The Go type `map[string]interface{}`: the bindings in enumeration order. -/
abbrev Table := List (String × JSON)

/-- The struct `result` of `results.go`, lines 14-20.  `Err` is `none` for a
nil `error`, otherwise the error text. -/
structure result where
  TestName : String
  Err : Option String
  Valid : Bool
  Failure : String
  Key : String
  deriving DecidableEq

/-- The functions of the Go standard library that the comparator calls and
whose results are not fixed by this repository. -/
structure GoLib where
  /-- The call `strconv.ParseFloat(s, 64)`: `some bits` when `err == nil`. -/
  ParseFloat : String → Option Nat
  /-- The verb `%v` applied to a `float64`. -/
  FormatFloat : Nat → String
  /-- The verb `%s` applied to an operand that is not a string. -/
  BadVerb : JSON → String

/-! ## Go primitives -/

/-- The binary64 bit pattern is a NaN: exponent all ones, fraction not zero. -/
def float64IsNaN (b : Nat) : Bool :=
  (b / 2 ^ 52) % 2 ^ 11 == 2047 && b % 2 ^ 52 != 0

/-- The Go operator `==` on two `float64`: a NaN equals nothing, the two zeros
are equal, any other two values are equal when their bits are. -/
def float64Eq (a b : Nat) : Bool :=
  !float64IsNaN a && !float64IsNaN b &&
    (a % 2 ^ 64 == b % 2 ^ 64 || (a % 2 ^ 63 == 0 && b % 2 ^ 63 == 0))

/-- The verb `%T`: the dynamic type of an `interface{}` holding a decoded value. -/
def typeName : JSON → String
  | .null => "<nil>"
  | .bool _ => "bool"
  | .num _ => "float64"
  | .str _ => "string"
  | .arr _ => "[]interface {}"
  | .obj _ => "map[string]interface {}"

/-- The verb `%s` applied to an `interface{}`. -/
def sprintS (lib : GoLib) : JSON → String
  | .str s => s
  | v => lib.BadVerb v

/-- The map index expression `m[k]`: the zero value `nil` for an absent key. -/
def index (m : Table) (k : String) : JSON :=
  (m.lookup k).getD .null

/-- The comma-ok index `_, ok := m[k]`. -/
def hasKey (m : Table) (k : String) : Bool :=
  (m.lookup k).isSome

/-- The Go operator `==` on two `interface{}` holding decoded values.  Values of
different dynamic types are unequal; two slices, or two maps, make the
comparison panic (`none`). -/
def ifaceEq : JSON → JSON → Option Bool
  | .null, .null => some true
  | .bool a, .bool b => some (a == b)
  | .num a, .num b => some (float64Eq a b)
  | .str a, .str b => some (a == b)
  | .arr _, .arr _ => none
  | .obj _, .obj _ => none
  | _, _ => some false

/-! ## `results.go` -/

/-- The method `failedf`, lines 27-30; the argument is the text that
`fmt.Sprintf` produced. -/
def result.failedf (r : result) (msg : String) : result :=
  { r with Failure := msg }

/-- The method `mismatch`, lines 32-35. -/
def result.mismatch (r : result) (expected : String) (got : JSON) : result :=
  r.failedf ("Type mismatch for key '" ++ r.Key ++ "'. Expected " ++ expected
    ++ " but got " ++ typeName got ++ ".")

/-- The method `valMismatch`, lines 37-40. -/
def result.valMismatch (r : result) (expected got : String) : result :=
  r.failedf ("Type mismatch for key '" ++ r.Key ++ "'. Expected " ++ expected
    ++ " but got " ++ got ++ ".")

/-- The method `kjoin`, lines 42-49. -/
def result.kjoin (r : result) (key : String) : result :=
  if r.Key.length == 0 then { r with Key := key }
  else { r with Key := r.Key ++ ("." ++ key) }

/-- The method `failed`, lines 51-53. -/
def result.failed (r : result) : Bool :=
  r.Err.isSome || decide (r.Failure.length > 0)

/-! ## `json.go` -/

/-- The function `isValue`, lines 163-174. -/
def isValue (m : Table) : Bool :=
  if m.length != 2 then false
  else if !hasKey m "type" then false
  else if !hasKey m "value" then false
  else true

/-- The method `cmpFloats`, lines 144-161. -/
def cmpFloats (lib : GoLib) (r : result) (e t : String) : result :=
  match lib.ParseFloat e with
  | none =>
    r.failedf ("BUG in test case. Could not read '" ++ e
      ++ "' as a float value for key '" ++ r.Key ++ "'.")
  | some ef =>
    match lib.ParseFloat t with
    | none =>
      r.failedf ("Malformed parser output. Could not read '" ++ t
        ++ "' as a float value for key '" ++ r.Key ++ "'.")
    | some tf =>
      if !float64Eq ef tf then
        r.failedf ("Values for key '" ++ r.Key
          ++ "' don't match. Expected a value of '" ++ lib.FormatFloat ef
          ++ "' but got '" ++ lib.FormatFloat tf ++ "'.")
      else r

/-- The body of `cmpJsonArrays` from line 79 on, once `e` is known to be the
slice `ea`.  `each ta` is the loop of lines 88-92. -/
def cmpJsonArraysFrom (each : List JSON → Option result) (r : result)
    (ea : List JSON) (t : JSON) : Option result :=
  match t with
  | .arr ta =>
    if ea.length != ta.length then
      some (r.failedf ("Array lengths differ for key '" ++ r.Key
        ++ "'. Expected a length of " ++ toString ea.length ++ " but got "
        ++ toString ta.length ++ "."))
    else each ta
  | _ =>
    some (r.failedf ("Malformed parser output. 'value' should be a "
      ++ "JSON array when 'type' indicates 'array', but it is a "
      ++ typeName t ++ "."))

/-- The body of `cmpJsonValues`, lines 96-142.  `arrays tv` is the call
`r.cmpJsonArrays(e["value"], tv)` of line 116. -/
def cmpJsonValuesWith (lib : GoLib) (arrays : JSON → Option result) (r : result)
    (e t : Table) : Option result :=
  match index e "type" with
  | .str etype =>
    match index t "type" with
    | .str ttype =>
      if etype != ttype then some (r.valMismatch etype ttype)
      else if etype == "array" then arrays (index t "value")
      else if etype == "float" then
        match index e "value" with
        | .str enum =>
          match index t "value" with
          | .str tnum => some (cmpFloats lib r enum tnum)
          | tv =>
            some (r.failedf ("Malformed parser output. 'value' should be a "
              ++ "string but it is a " ++ typeName tv ++ "."))
        | ev =>
          some (r.failedf ("BUG in test case. 'value' should be a string, "
            ++ "but it is a " ++ typeName ev ++ "."))
      else
        match ifaceEq (index e "value") (index t "value") with
        | none => none
        | some true => some r
        | some false =>
          some (r.failedf ("Values for key '" ++ r.Key
            ++ "' don't match. Expected a value of '"
            ++ sprintS lib (index e "value") ++ "' but got '"
            ++ sprintS lib (index t "value") ++ "'."))
    | ty =>
      some (r.failedf ("Malformed parser output. 'type' should be a "
        ++ "string, but it is a " ++ typeName ty ++ "."))
  | ty =>
    some (r.failedf ("BUG in test case. 'type' should be a string, "
      ++ "but it is a " ++ typeName ty ++ "."))

/-- The first key that `range e` meets for which `t[k]` is absent: the loops of
lines 48-54 and 55-61. -/
def missingKey (e t : Table) : Option String :=
  (e.find? fun kv => !hasKey t kv.1).map Prod.fst

/-- The body of `cmpJsonMaps`, lines 26-70.  `arrays` is handed on to
`cmpJsonValuesWith`; `each t` is the loop of lines 64-68. -/
def cmpJsonMapsWith (lib : GoLib) (arrays : JSON → Option result)
    (each : Table → Option result) (r : result) (e : Table) (test : JSON) :
    Option result :=
  match test with
  | .obj t =>
    if isValue e && !isValue t then
      some (r.failedf ("Key '" ++ r.Key ++ "' is supposed to be a value, but the "
        ++ "parser reports it as a table."))
    else if !isValue e && isValue t then
      some (r.failedf ("Key '" ++ r.Key ++ "' is supposed to be a table, but the "
        ++ "parser reports it as a value."))
    else if isValue e && isValue t then cmpJsonValuesWith lib arrays r e t
    else
      match missingKey e t with
      | some k =>
        let bunk := r.kjoin k
        some (bunk.failedf ("Could not find key '" ++ bunk.Key
          ++ "' in parser output."))
      | none =>
        match missingKey t e with
        | some k =>
          let bunk := r.kjoin k
          some (bunk.failedf ("Could not find key '" ++ bunk.Key
            ++ "' in expected output."))
        | none => each t
  | _ => some (r.mismatch "table" (.obj []))

mutual
/-- The method `cmpJson`, lines 13-24.  The two delegations are unfolded so
that the recursion is structural in the expected tree; `cmpJson_obj` and
`cmpJson_arr` below restate them as the calls of the source. -/
def cmpJson (lib : GoLib) (r : result) : JSON → JSON → Option result
  | .obj e, test =>
    cmpJsonMapsWith lib (cmpJsonArraysAt lib r e) (cmpJsonMapsEach lib r e) r e test
  | .arr ea, test => cmpJsonArraysFrom (cmpJsonArraysEach lib r ea) r ea test
  | expected, _ =>
    some (r.failedf ("Key '" ++ r.Key ++ "' in expected output should be a map or a "
      ++ "list of maps, but it's a " ++ typeName expected ++ "."))
termination_by structural e => e
/-- The method `cmpJsonArrays`, lines 72-94. -/
def cmpJsonArrays (lib : GoLib) (r : result) : JSON → JSON → Option result
  | .arr ea, t => cmpJsonArraysFrom (cmpJsonArraysEach lib r ea) r ea t
  | e, _ =>
    some (r.failedf ("BUG in test case. 'value' should be a JSON array "
      ++ "when 'type' indicates 'array', but it is a " ++ typeName e ++ "."))
termination_by structural e => e
/-- The loop of `cmpJsonArrays`, lines 88-92, over the remaining elements.
An index past the end of `ta` would be a run-time panic. -/
def cmpJsonArraysEach (lib : GoLib) (r : result) : List JSON → List JSON → Option result
  | [], _ => some r
  | _ :: _, [] => none
  | x :: ea, y :: ta =>
    match cmpJson lib r x y with
    | none => none
    | some sub => if sub.failed then some sub else cmpJsonArraysEach lib r ea ta
termination_by structural e => e
/-- The call `r.cmpJsonArrays(e["value"], tv)` of line 116: `e` is searched for
the key `value`, which yields `nil` when absent. -/
def cmpJsonArraysAt (lib : GoLib) (r : result) : Table → JSON → Option result
  | [], _ =>
    some (r.failedf ("BUG in test case. 'value' should be a JSON array "
      ++ "when 'type' indicates 'array', but it is a " ++ typeName .null ++ "."))
  | (k, v) :: rest, tv =>
    if k == "value" then cmpJsonArrays lib r v tv else cmpJsonArraysAt lib r rest tv
termination_by structural e => e
/-- The loop of `cmpJsonMaps`, lines 64-68, over the remaining bindings of `e`.
The binding `(k, v)` stands for the key `k` that `range e` yields together with
`e[k]`, which is `v` since a map binds each key once. -/
def cmpJsonMapsEach (lib : GoLib) (r : result) : Table → Table → Option result
  | [], _ => some r
  | (k, v) :: rest, t =>
    match cmpJson lib (r.kjoin k) v (index t k) with
    | none => none
    | some sub => if sub.failed then some sub else cmpJsonMapsEach lib r rest t
termination_by structural e => e
end

/-- The method `cmpJsonValues`, lines 96-142. -/
def cmpJsonValues (lib : GoLib) (r : result) (e t : Table) : Option result :=
  cmpJsonValuesWith lib (cmpJsonArrays lib r (index e "value")) r e t

/-- The method `cmpJsonMaps`, lines 26-70. -/
def cmpJsonMaps (lib : GoLib) (r : result) (e : Table) (test : JSON) : Option result :=
  cmpJsonMapsWith lib (cmpJsonArrays lib r (index e "value")) (cmpJsonMapsEach lib r e)
    r e test

/-! ## Reference model of `strconv.ParseFloat`

The comparator is verified for an arbitrary `GoLib`.  To evaluate it on
concrete trees, `refLib` supplies a reference model of `strconv.ParseFloat(s, 64)`
for the decimal grammar `[+-] digits [. digits] [(e|E) [+-] digits]` and the
special values `inf`, `infinity` and `nan`, with the exact decimal value rounded
to the nearest binary64, ties to even, and an out-of-range magnitude reported as
an error.  Hexadecimal literals and digit separators, which later releases of
Go accept as well, are read as syntax errors. -/

/-- The number of binary digits of `n`, found by halving at most `fuel` times. -/
def bitLength : Nat → Nat → Nat
  | 0, _ => 0
  | fuel + 1, n => if n = 0 then 0 else bitLength fuel (n / 2) + 1

/-- The quotient `num / den` rounded to the nearest integer, ties to even. -/
def roundHalfEven (num den : Nat) : Nat :=
  let q := num / den
  let rem := num % den
  if 2 * rem > den || (2 * rem == den && q % 2 == 1) then q + 1 else q

/-- The bits of the binary64 nearest to `n / d`, for `0 < d`; `none` when the
result is out of range.  With `k = bitLength n - bitLength d` the quotient lies
strictly between `2 ^ (k - 1)` and `2 ^ (k + 1)`; `e` is the exponent of the
unit in the last place, at least that of the subnormals. -/
def float64OfRat (n d : Nat) : Option Nat :=
  if n = 0 then some 0 else
  let k : Int := (bitLength n n : Int) - (bitLength d d : Int)
  let fl : Int := if n * 2 ^ (-k).toNat ≥ d * 2 ^ k.toNat then k else k - 1
  let e : Int := max (fl - 52) (-1074)
  let m := roundHalfEven (n * 2 ^ (-e).toNat) (d * 2 ^ e.toNat)
  let bits := (e + 1074).toNat * 2 ^ 52 + m
  if bits ≥ 2047 * 2 ^ 52 then none else some bits

/-- An ASCII decimal digit. -/
def isDigit (c : Char) : Bool := '0' ≤ c && c ≤ '9'

/-- The digits of the mantissa with at most one point: the digits read as an
integer, the number of digits after the point, and the unread text. -/
def readDigits : List Char → Nat → Nat → Bool → Bool → Option (Nat × Nat × List Char)
  | [], m, frac, _, sawdigits => if sawdigits then some (m, frac, []) else none
  | c :: cs, m, frac, sawdot, sawdigits =>
    if c == '.' then
      if sawdot then none else readDigits cs m frac true sawdigits
    else if isDigit c then
      readDigits cs (m * 10 + (c.toNat - 48)) (if sawdot then frac + 1 else frac) sawdot true
    else if sawdigits then some (m, frac, c :: cs) else none

/-- The digits of the exponent, to the end of the text; like the library, the
value stops growing at `10000`. -/
def readExp : List Char → Nat → Option Nat
  | [], e => some e
  | c :: cs, e =>
    if isDigit c then readExp cs (if e < 10000 then e * 10 + (c.toNat - 48) else e)
    else none

/-- The optional exponent part: nothing, or `e`, an optional sign and digits. -/
def readExponent : List Char → Option Int
  | [] => some 0
  | c :: cs =>
    if c == 'e' || c == 'E' then
      match cs with
      | [] => none
      | '+' :: d :: ds => if isDigit d then (readExp (d :: ds) 0).map Int.ofNat else none
      | '-' :: d :: ds =>
        if isDigit d then (readExp (d :: ds) 0).map fun e => - Int.ofNat e else none
      | d :: ds => if isDigit d then (readExp (d :: ds) 0).map Int.ofNat else none
    else none

/-- An unsigned decimal literal, converted to binary64 bits. -/
def parseUnsigned (cs : List Char) : Option Nat :=
  match readDigits cs 0 0 false false with
  | none => none
  | some (m, frac, rest) =>
    match readExponent rest with
    | none => none
    | some e =>
      let e10 : Int := e - frac
      float64OfRat (m * 10 ^ e10.toNat) (10 ^ (-e10).toNat)

/-- An ASCII letter in lower case. -/
def lowerAscii (c : Char) : Char :=
  if 'A' ≤ c && c ≤ 'Z' then Char.ofNat (c.toNat + 32) else c

/-- The special values, matched without regard to case: `nan` is the quiet NaN
`0x7FF8000000000001`, `inf` and `infinity` the infinities. -/
def special (s : String) : Option Nat :=
  let l := s.toList.map lowerAscii
  if l == "nan".toList then some 0x7FF8000000000001
  else if l == "inf".toList || l == "+inf".toList || l == "infinity".toList
      || l == "+infinity".toList then some 0x7FF0000000000000
  else if l == "-inf".toList || l == "-infinity".toList then some 0xFFF0000000000000
  else none

/-- Reference model of `strconv.ParseFloat(s, 64)`: `some bits` when the call
returns a nil error. -/
def parseFloat64 (s : String) : Option Nat :=
  match special s with
  | some b => some b
  | none =>
    match s.toList with
    | '+' :: cs => parseUnsigned cs
    | '-' :: cs => (parseUnsigned cs).map (· + 2 ^ 63)
    | cs => parseUnsigned cs

/-- A library instance for evaluating the comparator on concrete trees.
`ParseFloat` is the reference model; the two renderings of `fmt` are not
modelled and are fixed stand-ins, on which no statement below depends. -/
def refLib : GoLib where
  ParseFloat := parseFloat64
  FormatFloat := fun _ => "float64"
  BadVerb := fun v => "%!s(" ++ typeName v ++ ")"

/-- A result as `runValidTest` creates it, lines 99-102: no error, no failure,
the empty key path. -/
def freshResult (name : String) : result :=
  { TestName := name, Err := none, Valid := true, Failure := "", Key := "" }

/-! ## The relations of the specification

The definitions of this section follow the wording of the specification, not
the code; the theorems compare them with the comparator. -/

/-- The keys of a table, in enumeration order. -/
def keys (m : Table) : List String := m.map Prod.fst

/-- The two tables have the same key set. -/
def sameKeys (e t : Table) : Bool :=
  (keys e).all (hasKey t) && (keys t).all (hasKey e)

/-- The value is a scalar: `nil`, a boolean, a number or a string. -/
def isScalar : JSON → Bool
  | .arr _ => false
  | .obj _ => false
  | _ => true

/-- The value is a Sequence. -/
def isArr : JSON → Bool
  | .arr _ => true
  | _ => false

/-- The value is a Table. -/
def isTable : JSON → Bool
  | .obj _ => true
  | _ => false

mutual
/-- Equality of two decoded values: the same shape and the same content, where
two numbers are the same when `==` holds, two sequences when they agree index
by index, two tables when they bind the same keys to the same values. -/
def JSON.same : JSON → JSON → Bool
  | .null, .null => true
  | .bool a, .bool b => a == b
  | .num a, .num b => float64Eq a b
  | .str a, .str b => a == b
  | .arr xs, .arr ys => sameElems xs ys
  | .obj e, .obj t => (keys t).all (hasKey e) && sameMembers e t
  | _, _ => false
termination_by structural e => e
/-- Index by index equality of two sequences of the same length. -/
def sameElems : List JSON → List JSON → Bool
  | [], [] => true
  | x :: xs, y :: ys => x.same y && sameElems xs ys
  | _, _ => false
termination_by structural e => e
/-- Every binding of the first table is bound to the same value in the second. -/
def sameMembers : Table → Table → Bool
  | [], _ => true
  | (k, v) :: rest, t => hasKey t k && v.same (index t k) && sameMembers rest t
termination_by structural e => e
end

/-- Two `value` fields are strings that both parse as 64-bit floats, to equal
numbers. -/
def floatsEqual (lib : GoLib) : JSON → JSON → Bool
  | .str x, .str y =>
    match lib.ParseFloat x, lib.ParseFloat y with
    | some a, some b => float64Eq a b
    | _, _ => false
  | _, _ => false

mutual
/-- Structural equivalence of an expected and a test node: two Untagged Tables
with the same key set and equivalent values under every key; two Sequences of
the same length, equivalent index by index; two Tagged Leaves whose `type`
fields are the same string and whose `value` fields are equivalent Sequences
(type `array`), strings parsing to equal floats (type `float`) or equal (any
other type); no other pair. -/
def specEquiv (lib : GoLib) : JSON → JSON → Bool
  | .obj e, .obj t =>
    if isValue e && isValue t then
      match index e "type", index t "type" with
      | .str etype, .str ttype =>
        etype == ttype &&
          (if etype == "array" then specEquivAt lib e (index t "value")
           else if etype == "float" then floatsEqual lib (index e "value") (index t "value")
           else (index e "value").same (index t "value"))
      | _, _ => false
    else if !isValue e && !isValue t then sameKeys e t && specEquivMembers lib e t
    else false
  | .arr ea, .arr ta => specEquivElems lib ea ta
  | _, _ => false
termination_by structural e => e
/-- Two sequences have the same length and are equivalent index by index. -/
def specEquivElems (lib : GoLib) : List JSON → List JSON → Bool
  | [], [] => true
  | x :: ea, y :: ta => specEquiv lib x y && specEquivElems lib ea ta
  | _, _ => false
termination_by structural e => e
/-- The value of every binding of `e` is equivalent to the value that `t` holds
under the same key. -/
def specEquivMembers (lib : GoLib) : Table → Table → Bool
  | [], _ => true
  | (k, v) :: rest, t => specEquiv lib v (index t k) && specEquivMembers lib rest t
termination_by structural e => e
/-- The `value` field of the leaf `e` is a Sequence equivalent to `tv`. -/
def specEquivAt (lib : GoLib) : Table → JSON → Bool
  | [], _ => false
  | (k, v) :: rest, tv =>
    if k == "value" then isArr v && specEquiv lib v tv else specEquivAt lib rest tv
termination_by structural e => e
end

/-- No tagged leaf of the expected tree with a scalar type tag holds a
sequence or a table as its `value`: the operands of line 137 are comparable. -/
def leafComparable (m : Table) : Bool :=
  match index m "type" with
  | .str ty => ty == "array" || ty == "float" || isScalar (index m "value")
  | _ => true

mutual
/-- Every tagged leaf inside the tree satisfies `leafComparable`. -/
def comparableTree : JSON → Bool
  | .obj m => (!isValue m || leafComparable m) && comparableMembers m
  | .arr xs => comparableElems xs
  | _ => true
termination_by structural e => e
/-- The elements of a sequence satisfy `comparableTree`. -/
def comparableElems : List JSON → Bool
  | [] => true
  | x :: xs => comparableTree x && comparableElems xs
termination_by structural e => e
/-- The values of a table satisfy `comparableTree`. -/
def comparableMembers : Table → Bool
  | [] => true
  | (_, v) :: rest => comparableTree v && comparableMembers rest
termination_by structural e => e
end

/-- The outcome is `r` or a failed result, when it is a result at all. -/
def Returns (r : result) (o : Option result) : Prop :=
  ∀ r', o = some r' → r' = r ∨ r'.failed = true

/-- The comparison passes: it returns a result that has not failed. -/
def passes (o : Option result) : Bool :=
  match o with
  | some r' => !r'.failed
  | none => false

/-- The value is a string. -/
def isStr : JSON → Bool
  | .str _ => true
  | _ => false

/-- The node is a Tagged Leaf. -/
def isLeaf : JSON → Bool
  | .obj m => isValue m
  | _ => false

/-- The value is a string that parses as a 64-bit float, to a number that `ok`
accepts. -/
def floatString (lib : GoLib) (ok : Nat → Bool) : JSON → Bool
  | .str s =>
    match lib.ParseFloat s with
    | some x => ok x
    | none => false
  | _ => false

mutual
/-- A well-formed tree: a Table or a Sequence built from Untagged Tables,
Sequences and Tagged Leaves whose `type` is a string and whose `value` is a
Sequence of Tagged Leaves when the type is `array`, a float-parsable string
when it is `float`, and a string otherwise.  The keys of every table are
pairwise distinct, as those of a Go map are; `ok` restricts the floats that a
`float` leaf may hold. -/
def wellFormedBy (lib : GoLib) (ok : Nat → Bool) : JSON → Bool
  | .obj m =>
    decide (keys m).Nodup &&
      (if isValue m then
        match index m "type" with
        | .str ty =>
          if ty == "array" then wellFormedArrayAt lib ok m
          else if ty == "float" then floatString lib ok (index m "value")
          else isStr (index m "value")
        | _ => false
      else wellFormedMembers lib ok m)
  | .arr xs => wellFormedElems lib ok xs
  | _ => false
termination_by structural e => e
/-- A Sequence of well-formed Tagged Leaves. -/
def wellFormedLeafArray (lib : GoLib) (ok : Nat → Bool) : JSON → Bool
  | .arr xs => wellFormedLeaves lib ok xs
  | _ => false
termination_by structural e => e
/-- Every element is a well-formed tree. -/
def wellFormedElems (lib : GoLib) (ok : Nat → Bool) : List JSON → Bool
  | [] => true
  | x :: xs => wellFormedBy lib ok x && wellFormedElems lib ok xs
termination_by structural e => e
/-- Every element is a well-formed Tagged Leaf. -/
def wellFormedLeaves (lib : GoLib) (ok : Nat → Bool) : List JSON → Bool
  | [] => true
  | x :: xs => isLeaf x && wellFormedBy lib ok x && wellFormedLeaves lib ok xs
termination_by structural e => e
/-- Every value of the table is a well-formed tree. -/
def wellFormedMembers (lib : GoLib) (ok : Nat → Bool) : Table → Bool
  | [] => true
  | (_, v) :: rest => wellFormedBy lib ok v && wellFormedMembers lib ok rest
termination_by structural e => e
/-- The `value` field of the leaf is a Sequence of well-formed Tagged Leaves. -/
def wellFormedArrayAt (lib : GoLib) (ok : Nat → Bool) : Table → Bool
  | [] => false
  | (k, v) :: rest =>
    if k == "value" then wellFormedLeafArray lib ok v else wellFormedArrayAt lib ok rest
termination_by structural e => e
end

/-- A well-formed tree, any float-parsable string being admitted. -/
def wellFormed (lib : GoLib) (v : JSON) : Bool :=
  wellFormedBy lib (fun _ => true) v

/-! ## The report

`String` writes with `fmt.Fprintf`.  What `Fprintf` writes for a format without
operands is a parameter of the model; `fprintfRef` is a reference model of it
for the formats in which every `%` is followed by flags, a decimal width, a
decimal precision and then a verb, or by flags and a decimal width and then the
end of the text: text outside verbs is copied, `%%` is a percent sign, any
other verb has no operand and is written as `%!v(MISSING)`, and a `%` with no
verb as `%!(NOVERB)`.  A format that ends inside a precision, which the
releases of Go do not render alike, and the argument indexes `[n]` are outside
the model. -/

/-- The characters that `Fprintf` writes for a verb without operand. -/
def fprintfVerb (c : Char) : List Char :=
  if c == '%' then ['%'] else "%!".toList ++ c :: "(MISSING)".toList

/-- The scanner of the reference model.  Mode 0 is plain text, mode 1 the flags
after a `%`, mode 2 the width, mode 3 the precision. -/
def fprintfScan : Nat → List Char → List Char
  | 0, [] => []
  | _ + 1, [] => "%!(NOVERB)".toList
  | 0, c :: cs => if c == '%' then fprintfScan 1 cs else c :: fprintfScan 0 cs
  | 1, c :: cs =>
    if c == '#' || c == '0' || c == '+' || c == '-' || c == ' ' then fprintfScan 1 cs
    else if isDigit c then fprintfScan 2 cs
    else if c == '.' then fprintfScan 3 cs
    else fprintfVerb c ++ fprintfScan 0 cs
  | 2, c :: cs =>
    if isDigit c then fprintfScan 2 cs
    else if c == '.' then fprintfScan 3 cs
    else fprintfVerb c ++ fprintfScan 0 cs
  | _ + 3, c :: cs =>
    if isDigit c then fprintfScan 3 cs
    else fprintfVerb c ++ fprintfScan 0 cs

/-- Reference model of what `fmt.Fprintf(buf, format)` writes. -/
def fprintfRef (format : String) : String :=
  String.mk (fprintfScan 0 format.toList)

/-- The method `String`, lines 191-212.  `fprintf format` is what
`fmt.Fprintf(buf, format)` writes for a format without operands; the verb `%s`
writes the test name and the error text as they are. -/
def result.String (fprintf : String → String) (r : result) : String :=
  let validStr := if r.Valid then "valid" else "invalid"
  let head := "Test: " ++ r.TestName ++ " (" ++ validStr ++ ")\n\n"
  match r.Err with
  | some err => head ++ ("Error running test: " ++ err)
  | none =>
    if r.Failure.length > 0 then head ++ fprintf r.Failure
    else head ++ fprintf "PASSED."

/-! ## Key paths -/

/-- The result after descending through the table keys `ks`: `kjoin` applied to
each key in turn. -/
def descend (r : result) (ks : List String) : result :=
  ks.foldl result.kjoin r

/-- The key holds no dot. -/
def dotFree (k : String) : Prop := '.' ∉ k.toList

/-- The characters that joining with dots appends after the first key: a dot
and the key, for every further key. -/
def dotTail : List String → List Char
  | [] => []
  | k :: ks => '.' :: k.data ++ dotTail ks

/-! ## Attribution of diagnostics -/

/-- The text `s` begins with the text `p`. -/
def beginsWith (p s : String) : Prop := p.data <+: s.data

/-- A fixture-defect diagnostic: the text begins with `BUG in test case`, or it
is the message of `cmpJson` for an expected node of another shape than a map
or a list. -/
def fixtureDefect (s : String) : Prop :=
  beginsWith "BUG in test case" s
    ∨ ∃ (p : String) (v : JSON), s = "Key '" ++ p
        ++ "' in expected output should be a map or a "
        ++ "list of maps, but it's a " ++ typeName v ++ "."

/-- A parser-output-defect diagnostic: the text begins with
`Malformed parser output`. -/
def parserDefect (s : String) : Prop :=
  beginsWith "Malformed parser output" s

/-- The message of `cmpJsonArrays`, lines 81-82, for a test node that is a
table. -/
def arraysTableMsg : String :=
  "Malformed parser output. 'value' should be a "
    ++ "JSON array when 'type' indicates 'array', but it is a "
    ++ typeName (.obj []) ++ "."

mutual
/-- The Generic Value contract: a Table or a Sequence built from Untagged
Tables, Sequences and Tagged Leaves whose `type` is a string, an `array` leaf
wrapping a Sequence of leaves and a `float` leaf holding a float-parsable
string. -/
def genericValue (lib : GoLib) : JSON → Bool
  | .obj m =>
    if isValue m then
      match index m "type" with
      | .str ty =>
        if ty == "array" then genericArrayAt lib m
        else if ty == "float" then floatString lib (fun _ => true) (index m "value")
        else true
      | _ => false
    else genericMembers lib m
  | .arr xs => genericElems lib xs
  | _ => false
termination_by structural e => e
/-- A Sequence of leaves that satisfy the contract. -/
def genericLeafArray (lib : GoLib) : JSON → Bool
  | .arr xs => genericLeaves lib xs
  | _ => false
termination_by structural e => e
/-- Every element satisfies the contract. -/
def genericElems (lib : GoLib) : List JSON → Bool
  | [] => true
  | x :: xs => genericValue lib x && genericElems lib xs
termination_by structural e => e
/-- Every element is a Tagged Leaf that satisfies the contract. -/
def genericLeaves (lib : GoLib) : List JSON → Bool
  | [] => true
  | x :: xs => isLeaf x && genericValue lib x && genericLeaves lib xs
termination_by structural e => e
/-- Every value of the table satisfies the contract. -/
def genericMembers (lib : GoLib) : Table → Bool
  | [] => true
  | (_, v) :: rest => genericValue lib v && genericMembers lib rest
termination_by structural e => e
/-- The `value` field of the leaf is a Sequence of leaves that satisfy the
contract. -/
def genericArrayAt (lib : GoLib) : Table → Bool
  | [] => false
  | (k, v) :: rest =>
    if k == "value" then genericLeafArray lib v else genericArrayAt lib rest
termination_by structural e => e
end

/-- The diagnostic `s` is attributed as the contract demands: it is no fixture
defect when the expected side satisfies `ge`, and when the test side satisfies
`gt` it is a parser-output defect only as the message of `cmpJsonArrays` for a
table. -/
def Attributed (ge gt : Prop) (s : String) : Prop :=
  (ge → ¬ fixtureDefect s) ∧ (gt → parserDefect s → s = arraysTableMsg)

/-! ## The node of a divergence -/

/-- Two Tagged Leaves differ in themselves: a `type` field is no string, the two
types differ, the expected `value` of an `array` leaf is no Sequence, the two
`value` fields of `float` leaves are not strings parsing to equal numbers, or
the two `value` fields of leaves of another type are not equal. -/
def leafDiverges (lib : GoLib) (m tt : Table) : Bool :=
  match index m "type", index tt "type" with
  | .str etype, .str ttype =>
    etype != ttype ||
      (if etype == "array" then !isArr (index m "value")
       else if etype == "float" then !floatsEqual lib (index m "value") (index tt "value")
       else !(index m "value").same (index tt "value"))
  | _, _ => true

/-- The two nodes diverge in themselves, whatever they hold below: the expected
node is neither a Table nor a Sequence, the test node has not the shape of the
expected one, one of two tables is a Tagged Leaf and the other is not, two
Tagged Leaves differ in themselves, or two Sequences differ in length. -/
def nodeDiverges (lib : GoLib) : JSON → JSON → Bool
  | .obj m, .obj tt =>
    if isValue m && isValue tt then leafDiverges lib m tt
    else isValue m != isValue tt
  | .arr ea, .arr ta => ea.length != ta.length
  | _, _ => true

/-- The expected and the test tree diverge at the node reached from the two
roots through the table keys `ks`: the two nodes reached diverge in themselves
(`here`), or the last key is bound in one of two Untagged Tables only (`key`).
The way down leads through a binding of the expected one of two Untagged Tables
with the same key set, to the value that the test table holds under the same
key (`member`); through the elements at the same index of two Sequences of the
same length (`elem`); and from two `array` leaves to their `value` fields
(`value`), the last two adding no key. -/
inductive DivergesAt (lib : GoLib) : JSON → JSON → List String → Prop where
  | here (e t : JSON) (h : nodeDiverges lib e t = true) : DivergesAt lib e t []
  | key (m tt : Table) (k : String) (hm : isValue m = false) (ht : isValue tt = false)
      (h : (k ∈ keys m ∧ hasKey tt k = false) ∨ (k ∈ keys tt ∧ hasKey m k = false)) :
      DivergesAt lib (.obj m) (.obj tt) [k]
  | member (m tt : Table) (k : String) (v : JSON) (ks : List String)
      (hm : isValue m = false) (ht : isValue tt = false) (hs : sameKeys m tt = true)
      (h : (k, v) ∈ m) (c : DivergesAt lib v (index tt k) ks) :
      DivergesAt lib (.obj m) (.obj tt) (k :: ks)
  | elem (xs ys : List JSON) (i : Nat) (x y : JSON) (ks : List String)
      (hl : xs.length = ys.length) (hx : xs[i]? = some x) (hy : ys[i]? = some y)
      (c : DivergesAt lib x y ks) : DivergesAt lib (.arr xs) (.arr ys) ks
  | value (m tt : Table) (xs : List JSON) (ks : List String)
      (hm : isValue m = true) (ht : isValue tt = true)
      (hte : index m "type" = .str "array") (htt : index tt "type" = .str "array")
      (hv : index m "value" = .arr xs)
      (c : DivergesAt lib (.arr xs) (index tt "value") ks) :
      DivergesAt lib (.obj m) (.obj tt) ks

/-! # Theorems -/

/-! ## Unfolding the recursion -/

theorem cmpJsonArraysAt_eq (lib : GoLib) (r : result) (e : Table) (tv : JSON) :
    cmpJsonArraysAt lib r e tv = cmpJsonArrays lib r (index e "value") tv := by
  induction e with
  | nil => simp [cmpJsonArraysAt, index, cmpJsonArrays]
  | cons kv rest ih =>
    obtain ⟨k, v⟩ := kv
    by_cases h : k = "value"
    · subst h; simp [cmpJsonArraysAt, index, List.lookup]
    · have h' : ("value" == k) = false := by simpa using fun h' => h h'.symm
      simp [cmpJsonArraysAt, index, List.lookup, h, h'] at ih ⊢
      exact ih

/-- Line 16: on a map, `cmpJson` is the call `r.cmpJsonMaps(e, test)`. -/
theorem cmpJson_obj (lib : GoLib) (r : result) (e : Table) (test : JSON) :
    cmpJson lib r (.obj e) test = cmpJsonMaps lib r e test := by
  have h : cmpJsonArraysAt lib r e = cmpJsonArrays lib r (index e "value") :=
    funext fun tv => cmpJsonArraysAt_eq lib r e tv
  simp [cmpJson, cmpJsonMaps, h]

/-- Line 18: on a slice, `cmpJson` is the call `r.cmpJsonArrays(e, test)`. -/
theorem cmpJson_arr (lib : GoLib) (r : result) (ea : List JSON) (test : JSON) :
    cmpJson lib r (.arr ea) test = cmpJsonArrays lib r (.arr ea) test := by
  simp [cmpJson, cmpJsonArrays]

/-- Line 44: on two tagged leaves, `cmpJsonMaps` is `r.cmpJsonValues(e, t)`. -/
theorem cmpJsonMaps_values (lib : GoLib) (r : result) (e t : Table)
    (he : isValue e = true) (ht : isValue t = true) :
    cmpJsonMaps lib r e (.obj t) = cmpJsonValues lib r e t := by
  simp [cmpJsonMaps, cmpJsonMapsWith, cmpJsonValues, he, ht]

/-! ## Failures -/

theorem failed_failedf (r : result) (a b : String) (h : 0 < b.length) :
    (r.failedf (a ++ b)).failed = true := by
  simp [result.failed, result.failedf, String.length_append]
  exact Or.inr (Or.inr h)

theorem failed_of_fresh (r : result) (h1 : r.Err = none) (h2 : r.Failure = "") :
    r.failed = false := by
  simp [result.failed, h1, h2]

theorem kjoin_Err (r : result) (k : String) : (r.kjoin k).Err = r.Err := by
  unfold result.kjoin; split <;> rfl

theorem kjoin_Failure (r : result) (k : String) : (r.kjoin k).Failure = r.Failure := by
  unfold result.kjoin; split <;> rfl

theorem kjoin_failed (r : result) (k : String) : (r.kjoin k).failed = r.failed := by
  simp [result.failed, kjoin_Err, kjoin_Failure]

/-! ## Claims on single steps -/

/-- C6.  Length before content: two sequences of different lengths fail with
the message that reports both lengths, whatever their elements are, so that no
comparison of elements contributes to the result. -/
theorem cmpJsonArrays_length_differs (lib : GoLib) (r : result) (ea ta : List JSON)
    (h : ea.length ≠ ta.length) :
    cmpJsonArrays lib r (.arr ea) (.arr ta)
        = some (r.failedf ("Array lengths differ for key '" ++ r.Key
            ++ "'. Expected a length of " ++ toString ea.length ++ " but got "
            ++ toString ta.length ++ "."))
      ∧ ∀ r', cmpJsonArrays lib r (.arr ea) (.arr ta) = some r' → r'.failed = true := by
  have h1 : cmpJsonArrays lib r (.arr ea) (.arr ta)
        = some (r.failedf ("Array lengths differ for key '" ++ r.Key
            ++ "'. Expected a length of " ++ toString ea.length ++ " but got "
            ++ toString ta.length ++ ".")) := by
    simp [cmpJsonArrays, cmpJsonArraysFrom, h]
  refine ⟨h1, fun r' hr => ?_⟩
  rw [h1] at hr
  cases hr
  exact failed_failedf _ _ _ (by decide)

theorem cmpJsonArrays_length_differs_witness :
    cmpJsonArrays refLib (freshResult "t") (.arr [.str "x"]) (.arr [])
        = some ((freshResult "t").failedf
            "Array lengths differ for key ''. Expected a length of 1 but got 0.") :=
  (cmpJsonArrays_length_differs refLib (freshResult "t") [.str "x"] [] (by decide)).1

/-- C7.  Type-tag precedence: two leaves whose `type` fields are different
strings fail with the type mismatch that names both types, whatever the two
`value` fields are; the failure is not a value mismatch. -/
theorem cmpJsonValues_type_differs (lib : GoLib) (r : result) (e t : Table)
    (etype ttype : String) (he : index e "type" = .str etype)
    (ht : index t "type" = .str ttype) (hne : etype ≠ ttype) :
    cmpJsonValues lib r e t = some (r.valMismatch etype ttype)
      ∧ (r.valMismatch etype ttype).Failure
          = "Type mismatch for key '" ++ r.Key ++ "'. Expected " ++ etype
            ++ " but got " ++ ttype ++ "."
      ∧ (r.valMismatch etype ttype).failed = true
      ∧ ∀ rest : String, (r.valMismatch etype ttype).Failure ≠ "Values for key '" ++ rest := by
  refine ⟨?_, rfl, failed_failedf _ _ _ (by decide), ?_⟩
  · simp [cmpJsonValues, cmpJsonValuesWith, he, ht, hne]
  · intro rest
    simp [result.valMismatch, result.failedf, String.ext_iff]

theorem cmpJsonValues_type_differs_witness :
    cmpJsonValues refLib (freshResult "t")
        [("type", .str "integer"), ("value", .str "1")]
        [("type", .str "string"), ("value", .str "1")]
      = some ((freshResult "t").failedf
          "Type mismatch for key ''. Expected integer but got string.") :=
  (cmpJsonValues_type_differs refLib (freshResult "t")
    [("type", .str "integer"), ("value", .str "1")]
    [("type", .str "string"), ("value", .str "1")] "integer" "string"
    rfl rfl (by decide)).1

/-- Lines 35-38: the expected side is a tagged leaf, the test side is not. -/
theorem cmpJsonMaps_value_table (lib : GoLib) (r : result) (e t : Table)
    (he : isValue e = true) (ht : isValue t = false) :
    cmpJsonMaps lib r e (.obj t)
      = some (r.failedf ("Key '" ++ r.Key ++ "' is supposed to be a value, but the "
          ++ "parser reports it as a table.")) := by
  simp [cmpJsonMaps, cmpJsonMapsWith, he, ht]

/-- Lines 39-42: the test side is a tagged leaf, the expected side is not. -/
theorem cmpJsonMaps_table_value (lib : GoLib) (r : result) (e t : Table)
    (he : isValue e = false) (ht : isValue t = true) :
    cmpJsonMaps lib r e (.obj t)
      = some (r.failedf ("Key '" ++ r.Key ++ "' is supposed to be a table, but the "
          ++ "parser reports it as a value.")) := by
  simp [cmpJsonMaps, cmpJsonMapsWith, he, ht]

/-- C8.  Leaf against table: when exactly one of the two tables is a tagged
leaf, `cmpJsonMaps` fails with the message that says which side is the value;
the failure is not a missing key, since the classification is decided before
the key sets are looked at. -/
theorem cmpJsonMaps_leaf_against_table (lib : GoLib) (r : result) (e t : Table) :
    (isValue e = true → isValue t = false →
      cmpJsonMaps lib r e (.obj t)
        = some (r.failedf ("Key '" ++ r.Key ++ "' is supposed to be a value, but the "
            ++ "parser reports it as a table.")))
    ∧ (isValue e = false → isValue t = true →
      cmpJsonMaps lib r e (.obj t)
        = some (r.failedf ("Key '" ++ r.Key ++ "' is supposed to be a table, but the "
            ++ "parser reports it as a value.")))
    ∧ (isValue e ≠ isValue t → ∀ r', cmpJsonMaps lib r e (.obj t) = some r' →
        r'.failed = true ∧ ∀ rest : String, r'.Failure ≠ "Could not find key '" ++ rest) := by
  have h1 := cmpJsonMaps_value_table lib r e t
  have h2 := cmpJsonMaps_table_value lib r e t
  refine ⟨h1, h2, ?_⟩
  intro hne r' hr
  cases he : isValue e <;> cases ht : isValue t
  · simp [he, ht] at hne
  · rw [h2 he ht] at hr
    cases hr
    exact ⟨failed_failedf _ _ _ (by decide), fun rest => by
      simp [result.failedf, String.ext_iff]⟩
  · rw [h1 he ht] at hr
    cases hr
    exact ⟨failed_failedf _ _ _ (by decide), fun rest => by
      simp [result.failedf, String.ext_iff]⟩
  · simp [he, ht] at hne

theorem cmpJsonMaps_leaf_against_table_witness :
    cmpJsonMaps refLib (freshResult "t") [("a", .obj [])]
        (.obj [("type", .str "string"), ("value", .str "x")])
      = some ((freshResult "t").failedf
          "Key '' is supposed to be a table, but the parser reports it as a value.")
    ∧ cmpJsonMaps refLib (freshResult "t")
        [("type", .str "string"), ("value", .str "x")] (.obj [("a", .obj [])])
      = some ((freshResult "t").failedf
          "Key '' is supposed to be a value, but the parser reports it as a table.")
    ∧ ((freshResult "t").failedf
          "Key '' is supposed to be a value, but the parser reports it as a table.").failed
        = true :=
  ⟨(cmpJsonMaps_leaf_against_table refLib (freshResult "t") [("a", .obj [])]
      [("type", .str "string"), ("value", .str "x")]).2.1 (by decide) (by decide),
   (cmpJsonMaps_leaf_against_table refLib (freshResult "t")
      [("type", .str "string"), ("value", .str "x")] [("a", .obj [])]).1
      (by decide) (by decide),
   ((cmpJsonMaps_leaf_against_table refLib (freshResult "t")
      [("type", .str "string"), ("value", .str "x")] [("a", .obj [])]).2.2
      (by decide) _ (by decide)).1⟩

/-- C10.  Float comparison: `cmpFloats` returns `r` unchanged when both strings
parse and the parsed numbers are equal under `==`; an expected string that does
not parse yields the `BUG in test case` failure quoting it, whatever the test
string is; a test string that does not parse yields the `Malformed parser output`
failure quoting it; on a result without error or failure, passing is equivalent
to both strings parsing to equal numbers.  With the reference model of
`ParseFloat`, `1.0` against `1.00` passes and `1.0` against `1.0000001` fails. -/
theorem cmpFloats_spec (lib : GoLib) (r : result) (e t : String) :
    (∀ ef tf, lib.ParseFloat e = some ef → lib.ParseFloat t = some tf →
        float64Eq ef tf = true → cmpFloats lib r e t = r)
    ∧ (lib.ParseFloat e = none →
        cmpFloats lib r e t = r.failedf ("BUG in test case. Could not read '" ++ e
          ++ "' as a float value for key '" ++ r.Key ++ "'."))
    ∧ (∀ ef, lib.ParseFloat e = some ef → lib.ParseFloat t = none →
        cmpFloats lib r e t = r.failedf ("Malformed parser output. Could not read '" ++ t
          ++ "' as a float value for key '" ++ r.Key ++ "'."))
    ∧ (∀ ef tf, lib.ParseFloat e = some ef → lib.ParseFloat t = some tf →
        float64Eq ef tf = false →
        cmpFloats lib r e t = r.failedf ("Values for key '" ++ r.Key
          ++ "' don't match. Expected a value of '" ++ lib.FormatFloat ef
          ++ "' but got '" ++ lib.FormatFloat tf ++ "'."))
    ∧ (r.Err = none → r.Failure = "" →
        ((cmpFloats lib r e t).failed = false ↔
          ∃ ef tf, lib.ParseFloat e = some ef ∧ lib.ParseFloat t = some tf
            ∧ float64Eq ef tf = true))
    ∧ (cmpFloats refLib (freshResult "t") "1.0" "1.00").failed = false
    ∧ (cmpFloats refLib (freshResult "t") "1.0" "1.0000001").failed = true := by
  refine ⟨?_, ?_, ?_, ?_, ?_, by decide, by decide⟩
  · intro ef tf he ht h
    simp [cmpFloats, he, ht, h]
  · intro he
    simp [cmpFloats, he]
  · intro ef he ht
    simp [cmpFloats, he, ht]
  · intro ef tf he ht h
    simp [cmpFloats, he, ht, h]
  · intro h1 h2
    have hr : r.failed = false := failed_of_fresh r h1 h2
    unfold cmpFloats
    cases he : lib.ParseFloat e with
    | none => simp [failed_failedf _ _ _ (show 0 < "'.".length by decide)]
    | some ef =>
      cases ht : lib.ParseFloat t with
      | none => simp [failed_failedf _ _ _ (show 0 < "'.".length by decide)]
      | some tf =>
        cases h : float64Eq ef tf
        · simp [h, failed_failedf _ _ _ (show 0 < "'.".length by decide)]
        · simp [h, hr]

theorem cmpFloats_spec_witness :
    (cmpFloats refLib (freshResult "t") "x" "1.0"
        = (freshResult "t").failedf
            "BUG in test case. Could not read 'x' as a float value for key ''.")
    ∧ (cmpFloats refLib (freshResult "t") "1.0" "y"
        = (freshResult "t").failedf
            "Malformed parser output. Could not read 'y' as a float value for key ''.")
    ∧ cmpFloats refLib (freshResult "t") "0.5" "5e-1" = freshResult "t"
    ∧ cmpFloats refLib (freshResult "t") "0.5" "0.25"
        = (freshResult "t").failedf ("Values for key '" ++ (freshResult "t").Key
            ++ "' don't match. Expected a value of '"
            ++ refLib.FormatFloat 4602678819172646912 ++ "' but got '"
            ++ refLib.FormatFloat 4598175219545276416 ++ "'.")
    ∧ ((cmpFloats refLib (freshResult "t") "-0" "0").failed = false ↔
        ∃ ef tf, refLib.ParseFloat "-0" = some ef ∧ refLib.ParseFloat "0" = some tf
          ∧ float64Eq ef tf = true) :=
  ⟨(cmpFloats_spec refLib (freshResult "t") "x" "1.0").2.1 (by decide),
   (cmpFloats_spec refLib (freshResult "t") "1.0" "y").2.2.1 4607182418800017408
      (by decide) (by decide),
   (cmpFloats_spec refLib (freshResult "t") "0.5" "5e-1").1 4602678819172646912
      4602678819172646912 (by decide) (by decide) (by decide),
   (cmpFloats_spec refLib (freshResult "t") "0.5" "0.25").2.2.2.1 4602678819172646912
      4598175219545276416 (by decide) (by decide) (by decide),
   (cmpFloats_spec refLib (freshResult "t") "-0" "0").2.2.2.2.1 rfl rfl⟩

/-! ## What a comparison returns

A comparison started from `r` returns `r` itself or a failed result. -/

theorem returns_failedf (r r0 : result) (a b : String) (h : 0 < b.length) :
    Returns r (some (r0.failedf (a ++ b))) := by
  intro r' hr
  cases hr
  exact Or.inr (failed_failedf _ _ _ h)

theorem returns_cmpFloats (lib : GoLib) (r : result) (e t : String) :
    Returns r (some (cmpFloats lib r e t)) := by
  intro r' hr
  cases hr
  unfold cmpFloats
  split
  · exact Or.inr (failed_failedf _ _ _ (by decide))
  · split
    · exact Or.inr (failed_failedf _ _ _ (by decide))
    · split
      · exact Or.inr (failed_failedf _ _ _ (by decide))
      · exact Or.inl rfl

theorem returns_cmpJsonArraysEach (lib : GoLib) (r : result) (ea ta : List JSON) :
    Returns r (cmpJsonArraysEach lib r ea ta) := by
  induction ea generalizing ta with
  | nil => intro r' hr; simp [cmpJsonArraysEach] at hr; exact Or.inl hr.symm
  | cons x ea ih =>
    cases ta with
    | nil => intro r' hr; simp [cmpJsonArraysEach] at hr
    | cons y ta =>
      intro r' hr
      simp only [cmpJsonArraysEach] at hr
      cases hx : cmpJson lib r x y with
      | none => simp [hx] at hr
      | some sub =>
        simp only [hx] at hr
        by_cases hs : sub.failed = true
        · simp [hs] at hr; subst hr; exact Or.inr hs
        · simp [hs] at hr; exact ih ta r' hr

theorem returns_cmpJsonMapsEach (lib : GoLib) (r : result) (e t : Table) :
    Returns r (cmpJsonMapsEach lib r e t) := by
  induction e with
  | nil => intro r' hr; simp [cmpJsonMapsEach] at hr; exact Or.inl hr.symm
  | cons kv e ih =>
    obtain ⟨k, v⟩ := kv
    intro r' hr
    simp only [cmpJsonMapsEach] at hr
    cases hx : cmpJson lib (r.kjoin k) v (index t k) with
    | none => simp [hx] at hr
    | some sub =>
      simp only [hx] at hr
      by_cases hs : sub.failed = true
      · simp [hs] at hr; subst hr; exact Or.inr hs
      · simp [hs] at hr; exact ih r' hr

theorem returns_cmpJsonArraysFrom (each : List JSON → Option result) (r : result)
    (ea : List JSON) (t : JSON) (h : ∀ ta, Returns r (each ta)) :
    Returns r (cmpJsonArraysFrom each r ea t) := by
  unfold cmpJsonArraysFrom
  split
  · split
    · exact returns_failedf _ _ _ _ (by decide)
    · exact h _
  · exact returns_failedf _ _ _ _ (by decide)

theorem returns_cmpJsonArrays (lib : GoLib) (r : result) (e t : JSON) :
    Returns r (cmpJsonArrays lib r e t) := by
  cases e with
  | arr ea =>
    simp only [cmpJsonArrays]
    exact returns_cmpJsonArraysFrom _ _ _ _ fun ta => returns_cmpJsonArraysEach lib r ea ta
  | _ => simp only [cmpJsonArrays]; exact returns_failedf _ _ _ _ (by decide)

theorem returns_cmpJsonValues (lib : GoLib) (r : result) (e t : Table) :
    Returns r (cmpJsonValues lib r e t) := by
  unfold cmpJsonValues cmpJsonValuesWith
  split
  · split
    · split
      · exact returns_failedf _ _ _ _ (by decide)
      · split
        · exact returns_cmpJsonArrays _ _ _ _
        · split
          · split
            · split
              · exact returns_cmpFloats _ _ _ _
              · exact returns_failedf _ _ _ _ (by decide)
            · exact returns_failedf _ _ _ _ (by decide)
          · split
            · intro r' hr; cases hr
            · intro r' hr; cases hr; exact Or.inl rfl
            · exact returns_failedf _ _ _ _ (by decide)
    · exact returns_failedf _ _ _ _ (by decide)
  · exact returns_failedf _ _ _ _ (by decide)

theorem returns_cmpJsonMaps (lib : GoLib) (r : result) (e : Table) (test : JSON) :
    Returns r (cmpJsonMaps lib r e test) := by
  cases test with
  | obj t =>
    by_cases he : isValue e = true <;> by_cases ht : isValue t = true
    · rw [cmpJsonMaps_values lib r e t he ht]; exact returns_cmpJsonValues _ _ _ _
    · simp only [cmpJsonMaps, cmpJsonMapsWith, he, ht]
      exact returns_failedf _ _ _ _ (by decide)
    · simp only [cmpJsonMaps, cmpJsonMapsWith, he, ht]
      exact returns_failedf _ _ _ _ (by decide)
    · simp only [cmpJsonMaps, cmpJsonMapsWith, he, ht]
      simp only [Bool.false_and, Bool.not_false, Bool.and_false, Bool.false_eq_true, if_false]
      split
      · exact returns_failedf _ _ _ _ (by decide)
      · split
        · exact returns_failedf _ _ _ _ (by decide)
        · exact returns_cmpJsonMapsEach _ _ _ _
  | _ =>
    simp only [cmpJsonMaps, cmpJsonMapsWith, result.mismatch]
    exact returns_failedf _ _ _ _ (by decide)

theorem returns_cmpJson (lib : GoLib) (r : result) (e t : JSON) :
    Returns r (cmpJson lib r e t) := by
  cases e with
  | obj m => rw [cmpJson_obj]; exact returns_cmpJsonMaps _ _ _ _
  | arr ea => rw [cmpJson_arr]; exact returns_cmpJsonArrays _ _ _ _
  | _ => simp only [cmpJson]; exact returns_failedf _ _ _ _ (by decide)

/-- From a result that has not failed, passing is returning it unchanged. -/
theorem passes_iff_eq (r r' : result) (o : Option result) (h : Returns r o)
    (hr : r.failed = false) (ho : o = some r') : r'.failed = false ↔ r' = r := by
  constructor
  · intro hf
    rcases h r' ho with h1 | h1
    · exact h1
    · rw [hf] at h1; cases h1
  · intro h1; rw [h1]; exact hr

/-! ## Keys and lookups -/

theorem lookup_cons (k k' : String) (v : JSON) (m : Table) :
    List.lookup k ((k', v) :: m) = if k = k' then some v else List.lookup k m := by
  by_cases h : k = k'
  · subst h; simp [List.lookup]
  · have h' : (k == k') = false := by simpa using h
    simp [List.lookup, h, h']

theorem hasKey_iff (m : Table) (k : String) : hasKey m k = true ↔ k ∈ keys m := by
  induction m with
  | nil => simp [hasKey, keys]
  | cons kv m ih =>
    obtain ⟨k', v⟩ := kv
    unfold hasKey at ih ⊢
    rw [lookup_cons]
    by_cases h : k = k'
    · simp [h, keys]
    · simp only [h, if_false, ih]
      simp [keys, h]

theorem hasKey_eq_false_iff (m : Table) (k : String) : hasKey m k = false ↔ k ∉ keys m := by
  rw [← hasKey_iff]; simp

theorem lookup_of_mem (m : Table) (k : String) (v : JSON) (hnd : (keys m).Nodup)
    (h : (k, v) ∈ m) : List.lookup k m = some v := by
  induction m with
  | nil => cases h
  | cons kv m ih =>
    obtain ⟨k', v'⟩ := kv
    rw [lookup_cons]
    simp only [keys, List.map_cons, List.nodup_cons] at hnd
    rcases List.mem_cons.1 h with h1 | h1
    · cases h1; simp
    · have hk : k ∈ keys m := List.mem_map.2 ⟨(k, v), h1, rfl⟩
      have hne : k ≠ k' := by
        intro hh; subst hh; exact hnd.1 hk
      simp only [hne, if_false]
      exact ih hnd.2 h1

theorem mem_of_lookup (m : Table) (k : String) (v : JSON)
    (h : List.lookup k m = some v) : (k, v) ∈ m := by
  induction m with
  | nil => simp [List.lookup] at h
  | cons kv m ih =>
    obtain ⟨k', v'⟩ := kv
    rw [lookup_cons] at h
    by_cases hk : k = k'
    · simp only [hk, if_true, Option.some.injEq] at h
      subst h; subst hk; exact List.mem_cons_self _ _
    · simp only [hk, if_false] at h
      exact List.mem_cons_of_mem _ (ih h)

theorem index_of_mem (m : Table) (k : String) (v : JSON) (hnd : (keys m).Nodup)
    (h : (k, v) ∈ m) : index m k = v := by
  simp [index, lookup_of_mem m k v hnd h]

theorem keys_perm {m m' : Table} (h : m.Perm m') : (keys m).Perm (keys m') :=
  h.map _

theorem hasKey_perm {m m' : Table} (h : m.Perm m') (k : String) :
    hasKey m k = hasKey m' k := by
  rw [Bool.eq_iff_iff, hasKey_iff, hasKey_iff]
  exact (keys_perm h).mem_iff

theorem lookup_perm {m m' : Table} (h : m.Perm m') (hnd : (keys m).Nodup) (k : String) :
    List.lookup k m = List.lookup k m' := by
  have hnd' : (keys m').Nodup := (keys_perm h).nodup_iff.1 hnd
  cases h1 : List.lookup k m with
  | some v =>
    exact (lookup_of_mem m' k v hnd' (h.mem_iff.1 (mem_of_lookup m k v h1))).symm
  | none =>
    cases h2 : List.lookup k m' with
    | none => rfl
    | some v =>
      have := lookup_of_mem m k v hnd (h.mem_iff.2 (mem_of_lookup m' k v h2))
      rw [h1] at this; cases this

theorem index_perm {m m' : Table} (h : m.Perm m') (hnd : (keys m).Nodup) (k : String) :
    index m k = index m' k := by
  simp [index, lookup_perm h hnd k]

theorem isValue_perm {m m' : Table} (h : m.Perm m') : isValue m = isValue m' := by
  simp [isValue, h.length_eq, hasKey_perm h]

theorem missingKey_eq_none (e t : Table) :
    missingKey e t = none ↔ ∀ k ∈ keys e, hasKey t k = true := by
  simp [missingKey, keys]

theorem missingKey_eq_some (e t : Table) (k : String) (h : missingKey e t = some k) :
    k ∈ keys e ∧ hasKey t k = false := by
  simp only [missingKey, Option.map_eq_some'] at h
  obtain ⟨kv, h1, h2⟩ := h
  have := List.find?_some h1
  have hm := List.mem_of_find?_eq_some h1
  subst h2
  exact ⟨List.mem_map.2 ⟨kv, hm, rfl⟩, by simpa using this⟩

/-- When `k` is the only key of `e` that `t` lacks, the loop of lines 48-54
stops at `k`, wherever `range e` meets it. -/
theorem missingKey_unique (e t : Table) (k : String) (hk : k ∈ keys e)
    (hkt : hasKey t k = false) (h : ∀ k' ∈ keys e, k' ≠ k → hasKey t k' = true) :
    missingKey e t = some k := by
  cases hm : missingKey e t with
  | none =>
    have := (missingKey_eq_none e t).1 hm k hk
    rw [hkt] at this; cases this
  | some k' =>
    obtain ⟨h1, h2⟩ := missingKey_eq_some e t k' hm
    by_cases hkk : k' = k
    · rw [hkk]
    · rw [h k' h1 hkk] at h2; cases h2

/-! ## Key sets -/

/-- C3, as amended.  Key-set sensitivity: when `big` is a copy of the table
`base` with one more key `k`, in any enumeration order, and both are Untagged
Tables, comparing them fails with the missing-key message whose path is the
current path extended with `k`: `in parser output` when the expected side has
the key, `in expected output` when the test side has it. -/
theorem cmpJsonMaps_key_added (lib : GoLib) (r : result) (base big : Table)
    (k : String) (v : JSON) (hperm : big.Perm ((k, v) :: base))
    (hk : hasKey base k = false) (hb : isValue base = false) (hB : isValue big = false) :
    cmpJsonMaps lib r big (.obj base)
        = some ((r.kjoin k).failedf ("Could not find key '" ++ (r.kjoin k).Key
            ++ "' in parser output."))
      ∧ cmpJsonMaps lib r base (.obj big)
        = some ((r.kjoin k).failedf ("Could not find key '" ++ (r.kjoin k).Key
            ++ "' in expected output.")) := by
  have hkeys : ∀ k', k' ∈ keys big ↔ k' = k ∨ k' ∈ keys base := by
    intro k'
    rw [(keys_perm hperm).mem_iff]
    simp [keys]
  have h1 : missingKey big base = some k := by
    apply missingKey_unique _ _ _ ((hkeys k).2 (Or.inl rfl)) hk
    intro k' hk' hne
    rcases (hkeys k').1 hk' with h | h
    · exact absurd h hne
    · exact (hasKey_iff base k').2 h
  have h2 : missingKey base big = none := by
    rw [missingKey_eq_none]
    intro k' hk'
    exact (hasKey_iff big k').2 ((hkeys k').2 (Or.inr hk'))
  constructor
  · simp [cmpJsonMaps, cmpJsonMapsWith, hb, hB, h1]
  · simp [cmpJsonMaps, cmpJsonMapsWith, hb, hB, h1, h2]

theorem cmpJsonMaps_key_added_witness :
    cmpJsonMaps refLib ((freshResult "t").kjoin "a")
        [("x", .obj []), ("b", .obj [])] (.obj [("x", .obj [])])
      = some ((((freshResult "t").kjoin "a").kjoin "b").failedf
          "Could not find key 'a.b' in parser output.")
    ∧ cmpJsonMaps refLib ((freshResult "t").kjoin "a")
        [("x", .obj [])] (.obj [("x", .obj []), ("b", .obj [])])
      = some ((((freshResult "t").kjoin "a").kjoin "b").failedf
          "Could not find key 'a.b' in expected output.") :=
  cmpJsonMaps_key_added refLib ((freshResult "t").kjoin "a") [("x", .obj [])]
    [("x", .obj []), ("b", .obj [])] "b" (.obj []) (List.Perm.swap _ _ _)
    (by decide) (by decide) (by decide)

/-- C3, counterexample.  The table with the single key `type` is an Untagged
Table; the copy with the key `value` added is a Tagged Leaf, and the comparison
fails on the classification, not on a missing key. -/
theorem cmpJsonMaps_key_added_counterexample :
    isValue [("type", .str "x")] = false
      ∧ cmpJsonMaps refLib (freshResult "t") [("type", .str "x")]
          (.obj [("type", .str "x"), ("value", .str "y")])
        = some ((freshResult "t").failedf
            "Key '' is supposed to be a table, but the parser reports it as a value.") := by
  decide

/-! ## Scalar leaves -/

/-- Where the comparison of line 137 does not panic, it decides equality. -/
theorem ifaceEq_eq_same (a b : JSON) (h1 : (isArr a && isArr b) = false)
    (h2 : (isTable a && isTable b) = false) : ifaceEq a b = some (a.same b) := by
  cases a <;> cases b <;> simp_all [ifaceEq, JSON.same, isArr, isTable]

theorem ifaceEq_of_scalar (a b : JSON) (h : isScalar a = true) :
    ifaceEq a b = some (a.same b) := by
  cases a <;> cases b <;> simp_all [ifaceEq, JSON.same, isScalar]

/-- C9.  Scalar leaf equality, where line 137 returns: two leaves with the same
`type` string, neither `array` nor `float`, whose `value` fields are not both
Sequences and not both Tables, compare to `r` unchanged when the two values are
equal, and otherwise to the value mismatch that quotes both values, as `%s`
renders them, at the path of the leaf.  On two Sequences and on two Tables the
comparison of line 137 panics, and the claim fails there. -/
theorem cmpJsonValues_scalar (lib : GoLib) (r : result) (e t : Table) (ty : String)
    (he : index e "type" = .str ty) (ht : index t "type" = .str ty)
    (hna : ty ≠ "array") (hnf : ty ≠ "float")
    (h1 : (isArr (index e "value") && isArr (index t "value")) = false)
    (h2 : (isTable (index e "value") && isTable (index t "value")) = false) :
    cmpJsonValues lib r e t
        = some (if (index e "value").same (index t "value") then r
            else r.failedf ("Values for key '" ++ r.Key
              ++ "' don't match. Expected a value of '"
              ++ sprintS lib (index e "value") ++ "' but got '"
              ++ sprintS lib (index t "value") ++ "'."))
      ∧ (r.Err = none → r.Failure = "" → ∀ r', cmpJsonValues lib r e t = some r' →
          (r'.failed = false ↔ (index e "value").same (index t "value") = true)) := by
  have hmain : cmpJsonValues lib r e t
        = some (if (index e "value").same (index t "value") then r
            else r.failedf ("Values for key '" ++ r.Key
              ++ "' don't match. Expected a value of '"
              ++ sprintS lib (index e "value") ++ "' but got '"
              ++ sprintS lib (index t "value") ++ "'.")) := by
    simp only [cmpJsonValues, cmpJsonValuesWith, he, ht, ifaceEq_eq_same _ _ h1 h2]
    cases hs : (index e "value").same (index t "value") <;> simp [hna, hnf]
  refine ⟨hmain, ?_⟩
  intro hE hF r' hr
  rw [hmain] at hr
  cases hs : (index e "value").same (index t "value")
  · simp only [hs, Bool.false_eq_true, if_false, Option.some.injEq] at hr
    subst hr
    simp [failed_failedf _ _ _ (show 0 < "'.".length by decide)]
  · simp only [hs, if_true, Option.some.injEq] at hr
    subst hr
    simp [failed_of_fresh _ hE hF]

theorem cmpJsonValues_scalar_witness :
    cmpJsonValues refLib ((freshResult "t").kjoin "a")
        [("type", .str "integer"), ("value", .str "1")]
        [("type", .str "integer"), ("value", .str "2")]
      = some (((freshResult "t").kjoin "a").failedf
          "Values for key 'a' don't match. Expected a value of '1' but got '2'.")
    ∧ (((freshResult "t").kjoin "a").failed = false
        ↔ (JSON.str "1").same (JSON.str "1") = true) :=
  ⟨(cmpJsonValues_scalar refLib ((freshResult "t").kjoin "a")
      [("type", .str "integer"), ("value", .str "1")]
      [("type", .str "integer"), ("value", .str "2")] "integer" rfl rfl
      (by decide) (by decide) (by decide) (by decide)).1,
   (cmpJsonValues_scalar refLib ((freshResult "t").kjoin "a")
      [("type", .str "integer"), ("value", .str "1")]
      [("type", .str "integer"), ("value", .str "1")] "integer" rfl rfl
      (by decide) (by decide) (by decide) (by decide)).2 rfl rfl
      ((freshResult "t").kjoin "a") (by decide)⟩

/-- C9, failing input.  Two leaves of type `string` whose `value` fields are
both the empty Sequence hold equal values, yet the comparison does not return:
the operator `!=` of line 137 panics on two slices. -/
theorem cmpJsonValues_scalar_counterexample :
    (JSON.arr []).same (JSON.arr []) = true
      ∧ cmpJsonValues refLib (freshResult "t")
          [("type", .str "string"), ("value", .arr [])]
          [("type", .str "string"), ("value", .arr [])] = none := by
  decide

/-! ## Passing -/

theorem passes_some (r' : result) : passes (some r') = !r'.failed := rfl

theorem passes_failedf (r0 : result) (a b : String) (h : 0 < b.length) :
    passes (some (r0.failedf (a ++ b))) = false := by
  simp [passes, failed_failedf _ _ _ h]

/-- A comparison started from a failed result does not pass. -/
theorem passes_of_failed (r : result) (o : Option result) (h : Returns r o)
    (hr : r.failed = true) : passes o = false := by
  cases o with
  | none => rfl
  | some r' =>
    rcases h r' rfl with h1 | h1
    · simp [passes, h1, hr]
    · simp [passes, h1]

theorem passes_iff (r : result) (o : Option result) (h : Returns r o)
    (hr : r.failed = false) : passes o = true ↔ o = some r := by
  cases o with
  | none => simp [passes]
  | some r' =>
    rw [passes_some]
    simp only [Bool.not_eq_true', Option.some.injEq]
    exact passes_iff_eq r r' (some r') h hr rfl

theorem sameKeys_iff (e t : Table) :
    sameKeys e t = true ↔ missingKey e t = none ∧ missingKey t e = none := by
  simp [sameKeys, missingKey_eq_none]

/-- On two Untagged Tables the comparison passes when the key sets agree and
the loop of lines 64-68 passes. -/
theorem passes_cmpJsonMaps_untagged (lib : GoLib) (r : result) (e t : Table)
    (he : isValue e = false) (ht : isValue t = false) :
    passes (cmpJsonMaps lib r e (.obj t))
      = (sameKeys e t && passes (cmpJsonMapsEach lib r e t)) := by
  simp only [cmpJsonMaps, cmpJsonMapsWith, he, ht]
  simp only [Bool.false_and, Bool.not_false, Bool.and_false, Bool.false_eq_true, if_false]
  cases h1 : missingKey e t with
  | some k =>
    have : sameKeys e t = false := by
      rw [Bool.eq_false_iff]; intro h; rw [sameKeys_iff] at h; rw [h.1] at h1; cases h1
    simp [this, passes_failedf _ _ _ (show 0 < "' in parser output.".length by decide)]
  | none =>
    cases h2 : missingKey t e with
    | some k =>
      have : sameKeys e t = false := by
        rw [Bool.eq_false_iff]; intro h; rw [sameKeys_iff] at h; rw [h.2] at h2; cases h2
      simp [this, passes_failedf _ _ _ (show 0 < "' in expected output.".length by decide)]
    | none =>
      have : sameKeys e t = true := (sameKeys_iff e t).2 ⟨h1, h2⟩
      simp [this]

/-- The loop of lines 64-68 passes when every binding passes. -/
theorem passes_cmpJsonMapsEach (lib : GoLib) (r : result) (e t : Table)
    (hr : r.failed = false) :
    passes (cmpJsonMapsEach lib r e t) = true ↔
      ∀ kv ∈ e, passes (cmpJson lib (r.kjoin kv.1) kv.2 (index t kv.1)) = true := by
  induction e with
  | nil => simp [cmpJsonMapsEach, passes, hr]
  | cons kv e ih =>
    obtain ⟨k, v⟩ := kv
    simp only [cmpJsonMapsEach, List.mem_cons, forall_eq_or_imp]
    cases hx : cmpJson lib (r.kjoin k) v (index t k) with
    | none => simp [passes]
    | some sub =>
      cases hs : sub.failed
      · simp only [hs, Bool.false_eq_true, if_false, ih]
        simp [passes, hs]
      · simp [passes, hs]

theorem sameKeys_perm {e e' t t' : Table} (he : e.Perm e') (ht : t.Perm t') :
    sameKeys e t = sameKeys e' t' := by
  rw [Bool.eq_iff_iff]
  simp only [sameKeys, Bool.and_eq_true, List.all_eq_true, hasKey_iff]
  have h1 := fun k => (keys_perm he).mem_iff (a := k)
  have h2 := fun k => (keys_perm ht).mem_iff (a := k)
  simp [h1, h2]

/-- C5.  Table key-order independence: listing the bindings of either table in
another order does not change whether `cmpJsonMaps` passes, and two results
returned for two orders agree on `failed`; a test node that is not a table is
compared to the same result for every order. -/
theorem cmpJsonMaps_order_independent (lib : GoLib) (r : result) (e e' t t' : Table)
    (he : e.Perm e') (ht : t.Perm t') (hne : (keys e).Nodup) (hnt : (keys t).Nodup) :
    passes (cmpJsonMaps lib r e (.obj t)) = passes (cmpJsonMaps lib r e' (.obj t'))
      ∧ (∀ r1 r2, cmpJsonMaps lib r e (.obj t) = some r1 →
          cmpJsonMaps lib r e' (.obj t') = some r2 → r1.failed = r2.failed)
      ∧ (∀ test, isTable test = false →
          cmpJsonMaps lib r e test = cmpJsonMaps lib r e' test) := by
  have hpass : passes (cmpJsonMaps lib r e (.obj t))
      = passes (cmpJsonMaps lib r e' (.obj t')) := by
    have hve := isValue_perm he
    have hvt := isValue_perm ht
    cases h1 : isValue e <;> cases h2 : isValue t
    · -- two Untagged Tables
      rw [passes_cmpJsonMaps_untagged lib r e t h1 h2,
        passes_cmpJsonMaps_untagged lib r e' t' (hve ▸ h1) (hvt ▸ h2),
        sameKeys_perm he ht]
      congr 1
      cases hr : r.failed
      · rw [Bool.eq_iff_iff, passes_cmpJsonMapsEach lib r e t hr,
          passes_cmpJsonMapsEach lib r e' t' hr]
        constructor
        · intro h kv hkv
          rw [← index_perm ht hnt]
          exact h kv (he.mem_iff.2 hkv)
        · intro h kv hkv
          rw [index_perm ht hnt]
          exact h kv (he.mem_iff.1 hkv)
      · rw [passes_of_failed r _ (returns_cmpJsonMapsEach lib r e t) hr,
          passes_of_failed r _ (returns_cmpJsonMapsEach lib r e' t') hr]
    · have h1' : isValue e' = false := hve ▸ h1
      have h2' : isValue t' = true := hvt ▸ h2
      rw [cmpJsonMaps_table_value lib r e t h1 h2,
        cmpJsonMaps_table_value lib r e' t' h1' h2']
    · have h1' : isValue e' = true := hve ▸ h1
      have h2' : isValue t' = false := hvt ▸ h2
      rw [cmpJsonMaps_value_table lib r e t h1 h2,
        cmpJsonMaps_value_table lib r e' t' h1' h2']
    · have h1' : isValue e' = true := hve ▸ h1
      have h2' : isValue t' = true := hvt ▸ h2
      rw [cmpJsonMaps_values lib r e t h1 h2, cmpJsonMaps_values lib r e' t' h1' h2']
      simp only [cmpJsonValues, cmpJsonValuesWith, index_perm he hne, index_perm ht hnt]
  refine ⟨hpass, ?_, ?_⟩
  · intro r1 r2 h1 h2
    rw [h1, h2] at hpass
    simpa [passes] using hpass
  · intro test htest
    cases test with
    | obj m => simp [isTable] at htest
    | _ => simp [cmpJsonMaps, cmpJsonMapsWith]

theorem cmpJsonMaps_order_independent_witness :
    passes (cmpJsonMaps refLib (freshResult "t")
        [("a", .obj []), ("b", .arr [])] (.obj [("a", .obj []), ("b", .arr [])]))
      = passes (cmpJsonMaps refLib (freshResult "t")
        [("b", .arr []), ("a", .obj [])] (.obj [("a", .obj []), ("b", .arr [])])) :=
  (cmpJsonMaps_order_independent refLib (freshResult "t")
    [("a", .obj []), ("b", .arr [])] [("b", .arr []), ("a", .obj [])]
    [("a", .obj []), ("b", .arr [])] [("a", .obj []), ("b", .arr [])]
    (List.Perm.swap _ _ _) (List.Perm.refl _) (by decide) (by decide)).1

/-! ## Passing and structural equivalence -/

theorem passes_cmpJsonArraysFrom (each : List JSON → Option result) (r : result)
    (ea : List JSON) (t : JSON) (h : passes (cmpJsonArraysFrom each r ea t) = true) :
    ∃ ta, t = .arr ta ∧ ea.length = ta.length ∧ passes (each ta) = true := by
  cases t with
  | arr ta =>
    by_cases hl : ea.length = ta.length
    · refine ⟨ta, rfl, hl, ?_⟩
      simpa [cmpJsonArraysFrom, hl] using h
    · simp [cmpJsonArraysFrom, hl,
        passes_failedf _ _ _ (show 0 < ".".length by decide)] at h
  | _ =>
    simp [cmpJsonArraysFrom, passes_failedf _ _ _ (show 0 < ".".length by decide)] at h

/-- What a passing comparison of two leaves has established. -/
theorem passes_cmpJsonValues (lib : GoLib) (r : result) (e t : Table)
    (h : passes (cmpJsonValues lib r e t) = true) :
    ∃ ty, index e "type" = .str ty ∧ index t "type" = .str ty ∧
      (if ty = "array" then
          passes (cmpJsonArrays lib r (index e "value") (index t "value")) = true
        else if ty = "float" then floatsEqual lib (index e "value") (index t "value") = true
        else ifaceEq (index e "value") (index t "value") = some true) := by
  unfold cmpJsonValues cmpJsonValuesWith at h
  cases he : index e "type" with
  | str etype =>
    cases ht : index t "type" with
    | str ttype =>
      simp only [he, ht] at h
      by_cases hne : etype = ttype
      · subst hne
        refine ⟨etype, rfl, rfl, ?_⟩
        simp only [bne_self_eq_false, Bool.false_eq_true, if_false] at h
        by_cases ha : etype = "array"
        · simpa [ha] using h
        · simp only [beq_iff_eq, ha, if_false] at h ⊢
          by_cases hf : etype = "float"
          · simp only [hf, if_true] at h ⊢
            cases hev : index e "value" with
            | str enum =>
              cases htv : index t "value" with
              | str tnum =>
                simp only [hev, htv] at h
                simp only [floatsEqual]
                unfold cmpFloats at h
                cases hpe : lib.ParseFloat enum with
                | none =>
                  simp [hpe, passes_failedf _ _ _ (show 0 < "'.".length by decide)] at h
                | some ef =>
                  cases hpt : lib.ParseFloat tnum with
                  | none =>
                    simp [hpe, hpt,
                      passes_failedf _ _ _ (show 0 < "'.".length by decide)] at h
                  | some tf =>
                    cases hq : float64Eq ef tf
                    · simp [hpe, hpt, hq,
                        passes_failedf _ _ _ (show 0 < "'.".length by decide)] at h
                    · simpa using hq
              | _ =>
                simp [hev, htv, passes_failedf _ _ _ (show 0 < ".".length by decide)] at h
            | _ => simp [hev, passes_failedf _ _ _ (show 0 < ".".length by decide)] at h
          · simp only [hf, if_false] at h ⊢
            cases hq : ifaceEq (index e "value") (index t "value") with
            | none => simp [hq, passes] at h
            | some b =>
              cases b
              · simp [hq, passes_failedf _ _ _ (show 0 < "'.".length by decide)] at h
              · rfl
      · have : (etype != ttype) = true := by simpa using hne
        simp [this, result.valMismatch,
          passes_failedf _ _ _ (show 0 < ".".length by decide)] at h
    | _ => simp [he, ht, passes_failedf _ _ _ (show 0 < ".".length by decide)] at h
  | _ => simp [he, passes_failedf _ _ _ (show 0 < ".".length by decide)] at h

theorem same_of_ifaceEq (a b : JSON) (c : Bool) (h : ifaceEq a b = some c) :
    a.same b = c := by
  cases a <;> cases b <;> simp_all [ifaceEq, JSON.same]

mutual
/-- A passing comparison establishes structural equivalence. -/
theorem specEquiv_of_passes (lib : GoLib) :
    ∀ (e : JSON) (r : result) (t : JSON),
      passes (cmpJson lib r e t) = true → specEquiv lib e t = true
  | .obj m, r, t, h => by
    rw [cmpJson_obj] at h
    cases t with
    | obj tt =>
      cases h1 : isValue m <;> cases h2 : isValue tt
      · rw [passes_cmpJsonMaps_untagged lib r m tt h1 h2] at h
        simp only [Bool.and_eq_true] at h
        have := specEquivMembers_of_passes lib m r tt h.2
        simp [specEquiv, h1, h2, h.1, this]
      · rw [cmpJsonMaps_table_value lib r m tt h1 h2,
          passes_failedf _ _ _ (by decide)] at h
        cases h
      · rw [cmpJsonMaps_value_table lib r m tt h1 h2,
          passes_failedf _ _ _ (by decide)] at h
        cases h
      · rw [cmpJsonMaps_values lib r m tt h1 h2] at h
        obtain ⟨ty, he, ht, hc⟩ := passes_cmpJsonValues lib r m tt h
        simp only [specEquiv, h1, h2, he, ht, Bool.and_self, if_true, beq_self_eq_true,
          Bool.true_and, beq_iff_eq]
        by_cases ha : ty = "array"
        · simp only [ha, if_true] at hc ⊢
          rw [← cmpJsonArraysAt_eq] at hc
          exact specEquivAt_of_passes lib m r _ hc
        · simp only [ha, if_false] at hc ⊢
          by_cases hf : ty = "float"
          · simp only [hf, if_true] at hc ⊢
            exact hc
          · simp only [hf, if_false] at hc ⊢
            exact same_of_ifaceEq _ _ _ hc
    | _ =>
      simp [cmpJsonMaps, cmpJsonMapsWith, result.mismatch,
        passes_failedf _ _ _ (show 0 < ".".length by decide)] at h
  | .arr ea, r, t, h => by
    simp only [cmpJson] at h
    obtain ⟨ta, rfl, hl, hp⟩ := passes_cmpJsonArraysFrom _ r ea t h
    simp only [specEquiv]
    exact specEquivElems_of_passes lib ea r ta hl hp
  | .null, r, t, h => by
    simp [cmpJson, passes_failedf _ _ _ (show 0 < ".".length by decide)] at h
  | .bool _, r, t, h => by
    simp [cmpJson, passes_failedf _ _ _ (show 0 < ".".length by decide)] at h
  | .num _, r, t, h => by
    simp [cmpJson, passes_failedf _ _ _ (show 0 < ".".length by decide)] at h
  | .str _, r, t, h => by
    simp [cmpJson, passes_failedf _ _ _ (show 0 < ".".length by decide)] at h
termination_by structural e => e
/-- A passing call of `cmpJsonArrays` has compared two equivalent Sequences. -/
theorem specEquiv_of_passes_arrays (lib : GoLib) :
    ∀ (e : JSON) (r : result) (t : JSON),
      passes (cmpJsonArrays lib r e t) = true → isArr e = true ∧ specEquiv lib e t = true
  | .arr ea, r, t, h => by
    simp only [cmpJsonArrays] at h
    obtain ⟨ta, rfl, hl, hp⟩ := passes_cmpJsonArraysFrom _ r ea t h
    simp only [specEquiv, isArr, true_and]
    exact specEquivElems_of_passes lib ea r ta hl hp
  | .obj _, r, t, h => by
    simp [cmpJsonArrays, passes_failedf _ _ _ (show 0 < ".".length by decide)] at h
  | .null, r, t, h => by
    simp [cmpJsonArrays, passes_failedf _ _ _ (show 0 < ".".length by decide)] at h
  | .bool _, r, t, h => by
    simp [cmpJsonArrays, passes_failedf _ _ _ (show 0 < ".".length by decide)] at h
  | .num _, r, t, h => by
    simp [cmpJsonArrays, passes_failedf _ _ _ (show 0 < ".".length by decide)] at h
  | .str _, r, t, h => by
    simp [cmpJsonArrays, passes_failedf _ _ _ (show 0 < ".".length by decide)] at h
termination_by structural e => e
/-- A passing loop over two sequences of the same length. -/
theorem specEquivElems_of_passes (lib : GoLib) :
    ∀ (ea : List JSON) (r : result) (ta : List JSON), ea.length = ta.length →
      passes (cmpJsonArraysEach lib r ea ta) = true → specEquivElems lib ea ta = true
  | [], r, ta, hl, h => by
    cases ta with
    | nil => simp [specEquivElems]
    | cons y ta => simp at hl
  | x :: ea, r, ta, hl, h => by
    cases ta with
    | nil => simp at hl
    | cons y ta =>
      simp only [cmpJsonArraysEach] at h
      cases hx : cmpJson lib r x y with
      | none => simp [hx, passes] at h
      | some sub =>
        cases hs : sub.failed
        · simp only [hx, hs, Bool.false_eq_true, if_false] at h
          have h1 := specEquiv_of_passes lib x r y (by simp [hx, passes, hs])
          have h2 := specEquivElems_of_passes lib ea r ta (by simpa using hl) h
          simp [specEquivElems, h1, h2]
        · simp [hx, hs, passes] at h
termination_by structural e => e
/-- A passing call of `cmpJsonArrays` on the `value` field of a leaf. -/
theorem specEquivAt_of_passes (lib : GoLib) :
    ∀ (e : Table) (r : result) (tv : JSON),
      passes (cmpJsonArraysAt lib r e tv) = true → specEquivAt lib e tv = true
  | [], r, tv, h => by
    simp [cmpJsonArraysAt, passes_failedf _ _ _ (show 0 < ".".length by decide)] at h
  | (k, v) :: rest, r, tv, h => by
    simp only [cmpJsonArraysAt] at h
    by_cases hk : k = "value"
    · simp only [hk, beq_self_eq_true, if_true] at h
      have := specEquiv_of_passes_arrays lib v r tv h
      simp [specEquivAt, hk, this.1, this.2]
    · have hk' : (k == "value") = false := by simpa using hk
      simp only [hk', Bool.false_eq_true, if_false] at h
      have := specEquivAt_of_passes lib rest r tv h
      simp [specEquivAt, hk', this]
termination_by structural e => e
/-- A passing loop over the bindings of the expected table. -/
theorem specEquivMembers_of_passes (lib : GoLib) :
    ∀ (e : Table) (r : result) (t : Table),
      passes (cmpJsonMapsEach lib r e t) = true → specEquivMembers lib e t = true
  | [], r, t, h => by simp [specEquivMembers]
  | (k, v) :: rest, r, t, h => by
    simp only [cmpJsonMapsEach] at h
    cases hx : cmpJson lib (r.kjoin k) v (index t k) with
    | none => simp [hx, passes] at h
    | some sub =>
      cases hs : sub.failed
      · simp only [hx, hs, Bool.false_eq_true, if_false] at h
        have h1 := specEquiv_of_passes lib v (r.kjoin k) (index t k)
          (by simp [hx, passes, hs])
        have h2 := specEquivMembers_of_passes lib rest r t h
        simp [specEquivMembers, h1, h2]
      · simp [hx, hs, passes] at h
termination_by structural e => e
end

theorem cmpFloats_of_floatsEqual (lib : GoLib) (r : result) (ev tv : JSON)
    (h : floatsEqual lib ev tv = true) :
    ∃ x y, ev = .str x ∧ tv = .str y ∧ cmpFloats lib r x y = r := by
  cases ev <;> cases tv <;> simp only [floatsEqual] at h <;> try cases h
  rename_i x y
  refine ⟨x, y, rfl, rfl, ?_⟩
  cases hx : lib.ParseFloat x <;> cases hy : lib.ParseFloat y <;> simp [hx, hy] at h
  simp [cmpFloats, hx, hy, h]

mutual
/-- On structurally equivalent trees a comparison that returns, returns the
result it started from. -/
theorem eq_of_specEquiv (lib : GoLib) :
    ∀ (e : JSON) (r : result) (t : JSON) (r' : result), specEquiv lib e t = true →
      r.failed = false → cmpJson lib r e t = some r' → r' = r
  | .obj m, r, t, r', hs, hr, h => by
    rw [cmpJson_obj] at h
    cases t with
    | obj tt =>
      cases h1 : isValue m <;> cases h2 : isValue tt
      · simp only [specEquiv, h1, h2, Bool.and_self, Bool.false_eq_true, if_false,
          Bool.not_false, if_true, Bool.and_eq_true] at hs
        have hp : passes (cmpJsonMaps lib r m (.obj tt)) = true → r' = r := by
          intro hp
          rw [passes_iff r _ (returns_cmpJsonMaps lib r m _) hr, h] at hp
          exact Option.some.inj hp
        apply hp
        rw [passes_cmpJsonMaps_untagged lib r m tt h1 h2, hs.1, Bool.true_and]
        cases hx : cmpJsonMapsEach lib r m tt with
        | none =>
          rw [sameKeys_iff] at hs
          simp [cmpJsonMaps, cmpJsonMapsWith, h1, h2, hs.1.1, hs.1.2, hx] at h
        | some r1 =>
          have := eq_of_specEquivMembers lib m r tt r1 hs.2 hr hx
          simp [passes, this, hr]
      · simp [specEquiv, h1, h2] at hs
      · simp [specEquiv, h1, h2] at hs
      · rw [cmpJsonMaps_values lib r m tt h1 h2] at h
        simp only [specEquiv, h1, h2, Bool.and_self, if_true] at hs
        cases he : index m "type" <;> cases ht : index tt "type" <;>
          simp only [he, ht] at hs <;> try cases hs
        rename_i a b
        simp only [Bool.and_eq_true, beq_iff_eq] at hs
        obtain ⟨hab, hs⟩ := hs
        subst hab
        simp only [cmpJsonValues, cmpJsonValuesWith, he, ht, bne_self_eq_false,
          Bool.false_eq_true, if_false, beq_iff_eq] at h
        by_cases ha : a = "array"
        · simp only [ha, if_true] at h hs
          rw [← cmpJsonArraysAt_eq] at h
          exact eq_of_specEquivAt lib m r _ r' hs hr h
        · simp only [ha, if_false] at h hs
          by_cases hf : a = "float"
          · simp only [hf, if_true] at h hs
            obtain ⟨x, y, hx, hy, hc⟩ := cmpFloats_of_floatsEqual lib r _ _ hs
            simp only [hx, hy, hc, Option.some.injEq] at h
            exact h.symm
          · simp only [hf, if_false] at h hs
            cases hq : ifaceEq (index m "value") (index tt "value") with
            | none => simp [hq] at h
            | some c =>
              have := same_of_ifaceEq _ _ _ hq
              rw [hs] at this
              subst this
              simp only [hq, Option.some.injEq] at h
              exact h.symm
    | _ => simp [specEquiv] at hs
  | .arr ea, r, t, r', hs, hr, h => by
    cases t with
    | arr ta =>
      simp only [specEquiv] at hs
      simp only [cmpJson, cmpJsonArraysFrom] at h
      by_cases hl : ea.length = ta.length
      · simp only [hl, bne_self_eq_false, Bool.false_eq_true, if_false] at h
        exact eq_of_specEquivElems lib ea r ta r' hs hr h
      · exact absurd (length_eq_of_specEquivElems lib ea ta hs) hl
    | _ => simp [specEquiv] at hs
  | .null, r, t, r', hs, hr, h => by simp [specEquiv] at hs
  | .bool _, r, t, r', hs, hr, h => by simp [specEquiv] at hs
  | .num _, r, t, r', hs, hr, h => by simp [specEquiv] at hs
  | .str _, r, t, r', hs, hr, h => by simp [specEquiv] at hs
termination_by structural e => e
/-- Equivalent sequences have the same length. -/
theorem length_eq_of_specEquivElems (lib : GoLib) :
    ∀ (ea ta : List JSON), specEquivElems lib ea ta = true → ea.length = ta.length
  | [], ta, h => by
    cases ta with
    | nil => rfl
    | cons y ta => simp [specEquivElems] at h
  | x :: ea, ta, h => by
    cases ta with
    | nil => simp [specEquivElems] at h
    | cons y ta =>
      simp only [specEquivElems, Bool.and_eq_true] at h
      simp [length_eq_of_specEquivElems lib ea ta h.2]
termination_by structural e => e
/-- The call of `cmpJsonArrays` on two equivalent Sequences. -/
theorem eq_of_specEquiv_arrays (lib : GoLib) :
    ∀ (e : JSON) (r : result) (t : JSON) (r' : result), isArr e = true →
      specEquiv lib e t = true → r.failed = false →
      cmpJsonArrays lib r e t = some r' → r' = r
  | .arr ea, r, t, r', _, hs, hr, h => by
    cases t with
    | arr ta =>
      simp only [specEquiv] at hs
      simp only [cmpJsonArrays, cmpJsonArraysFrom] at h
      by_cases hl : ea.length = ta.length
      · simp only [hl, bne_self_eq_false, Bool.false_eq_true, if_false] at h
        exact eq_of_specEquivElems lib ea r ta r' hs hr h
      · exact absurd (length_eq_of_specEquivElems lib ea ta hs) hl
    | _ => simp [specEquiv] at hs
  | .obj _, r, t, r', ha, hs, hr, h => by simp [isArr] at ha
  | .null, r, t, r', ha, hs, hr, h => by simp [isArr] at ha
  | .bool _, r, t, r', ha, hs, hr, h => by simp [isArr] at ha
  | .num _, r, t, r', ha, hs, hr, h => by simp [isArr] at ha
  | .str _, r, t, r', ha, hs, hr, h => by simp [isArr] at ha
termination_by structural e => e
/-- The loop over two equivalent sequences. -/
theorem eq_of_specEquivElems (lib : GoLib) :
    ∀ (ea : List JSON) (r : result) (ta : List JSON) (r' : result),
      specEquivElems lib ea ta = true → r.failed = false →
      cmpJsonArraysEach lib r ea ta = some r' → r' = r
  | [], r, ta, r', hs, hr, h => by
    simp only [cmpJsonArraysEach, Option.some.injEq] at h
    exact h.symm
  | x :: ea, r, ta, r', hs, hr, h => by
    cases ta with
    | nil => simp [specEquivElems] at hs
    | cons y ta =>
      simp only [specEquivElems, Bool.and_eq_true] at hs
      simp only [cmpJsonArraysEach] at h
      cases hx : cmpJson lib r x y with
      | none => simp [hx] at h
      | some sub =>
        have := eq_of_specEquiv lib x r y sub hs.1 hr hx
        subst this
        simp only [hx, hr, Bool.false_eq_true, if_false] at h
        exact eq_of_specEquivElems lib ea sub ta r' hs.2 hr h
termination_by structural e => e
/-- The call of `cmpJsonArrays` on the `value` field of a leaf. -/
theorem eq_of_specEquivAt (lib : GoLib) :
    ∀ (e : Table) (r : result) (tv : JSON) (r' : result), specEquivAt lib e tv = true →
      r.failed = false → cmpJsonArraysAt lib r e tv = some r' → r' = r
  | [], r, tv, r', hs, hr, h => by simp [specEquivAt] at hs
  | (k, v) :: rest, r, tv, r', hs, hr, h => by
    simp only [cmpJsonArraysAt] at h
    simp only [specEquivAt] at hs
    by_cases hk : k = "value"
    · simp only [hk, beq_self_eq_true, if_true, Bool.and_eq_true] at h hs
      exact eq_of_specEquiv_arrays lib v r tv r' hs.1 hs.2 hr h
    · have hk' : (k == "value") = false := by simpa using hk
      simp only [hk', Bool.false_eq_true, if_false] at h hs
      exact eq_of_specEquivAt lib rest r tv r' hs hr h
termination_by structural e => e
/-- The loop over the bindings of the expected table. -/
theorem eq_of_specEquivMembers (lib : GoLib) :
    ∀ (e : Table) (r : result) (t : Table) (r' : result),
      specEquivMembers lib e t = true → r.failed = false →
      cmpJsonMapsEach lib r e t = some r' → r' = r
  | [], r, t, r', hs, hr, h => by
    simp only [cmpJsonMapsEach, Option.some.injEq] at h
    exact h.symm
  | (k, v) :: rest, r, t, r', hs, hr, h => by
    simp only [specEquivMembers, Bool.and_eq_true] at hs
    simp only [cmpJsonMapsEach] at h
    cases hx : cmpJson lib (r.kjoin k) v (index t k) with
    | none => simp [hx] at h
    | some sub =>
      have hk : (r.kjoin k).failed = false := by rw [kjoin_failed]; exact hr
      have := eq_of_specEquiv lib v (r.kjoin k) (index t k) sub hs.1 hk hx
      subst this
      simp only [hx, hk, Bool.false_eq_true, if_false] at h
      exact eq_of_specEquivMembers lib rest r t r' hs.2 hr h
termination_by structural e => e
end

/-! ## Comparisons that return -/

theorem isSome_cmpJsonArraysFrom (each : List JSON → Option result) (r : result)
    (ea : List JSON) (t : JSON)
    (h : ∀ ta, ea.length = ta.length → (each ta).isSome = true) :
    (cmpJsonArraysFrom each r ea t).isSome = true := by
  cases t with
  | arr ta =>
    by_cases hl : ea.length = ta.length
    · simpa [cmpJsonArraysFrom, hl] using h ta hl
    · simp [cmpJsonArraysFrom, hl]
  | _ => simp [cmpJsonArraysFrom]

theorem isSome_cmpJsonValues (lib : GoLib) (r : result) (e t : Table)
    (h1 : leafComparable e = true)
    (h2 : (cmpJsonArrays lib r (index e "value") (index t "value")).isSome = true) :
    (cmpJsonValues lib r e t).isSome = true := by
  unfold cmpJsonValues cmpJsonValuesWith
  unfold leafComparable at h1
  cases he : index e "type" with
  | str etype =>
    simp only [he] at h1 ⊢
    cases ht : index t "type" with
    | str ttype =>
      simp only
      by_cases hne : etype = ttype
      · subst hne
        simp only [bne_self_eq_false, Bool.false_eq_true, if_false, beq_iff_eq]
        by_cases ha : etype = "array"
        · simpa [ha] using h2
        · simp only [ha, if_false]
          by_cases hf : etype = "float"
          · simp only [hf, if_true]
            cases index e "value" <;> cases index t "value" <;> simp
          · simp only [hf, if_false]
            have hsc : isScalar (index e "value") = true := by simpa [ha, hf] using h1
            rw [ifaceEq_of_scalar _ _ hsc]
            cases (index e "value").same (index t "value") <;> simp
      · have : (etype != ttype) = true := by simpa using hne
        simp [this]
    | _ => simp
  | _ => simp

theorem comparableTree_index (m : Table) (k : String) (h : comparableMembers m = true) :
    comparableTree (index m k) = true := by
  induction m with
  | nil => simp [index, List.lookup, comparableTree]
  | cons kv m ih =>
    obtain ⟨k', v⟩ := kv
    simp only [comparableMembers, Bool.and_eq_true] at h
    unfold index at ih ⊢
    rw [lookup_cons]
    by_cases hk : k = k'
    · simp [hk, h.1]
    · simp only [hk, if_false]; exact ih h.2

mutual
/-- The comparison returns a result when no leaf of the expected tree with a
scalar type tag holds a sequence or a table. -/
theorem isSome_cmpJson (lib : GoLib) :
    ∀ (e : JSON) (r : result) (t : JSON), comparableTree e = true →
      (cmpJson lib r e t).isSome = true
  | .obj m, r, t, hc => by
    simp only [comparableTree, Bool.and_eq_true, Bool.or_eq_true, Bool.not_eq_true'] at hc
    rw [cmpJson_obj]
    cases t with
    | obj tt =>
      cases h1 : isValue m <;> cases h2 : isValue tt
      · simp only [cmpJsonMaps, cmpJsonMapsWith, h1, h2]
        simp only [Bool.false_and, Bool.not_false, Bool.and_false, Bool.false_eq_true,
          if_false]
        cases missingKey m tt with
        | some k => simp
        | none =>
          cases missingKey tt m with
          | some k => simp
          | none => exact isSome_cmpJsonMapsEach lib m r tt hc.2
      · rw [cmpJsonMaps_table_value lib r m tt h1 h2]; rfl
      · rw [cmpJsonMaps_value_table lib r m tt h1 h2]; rfl
      · rw [cmpJsonMaps_values lib r m tt h1 h2]
        have hl : leafComparable m = true := by
          rcases hc.1 with h | h
          · rw [h1] at h; cases h
          · exact h
        apply isSome_cmpJsonValues lib r m tt hl
        rw [← cmpJsonArraysAt_eq]
        exact isSome_cmpJsonArraysAt lib m r _ hc.2
    | _ => simp [cmpJsonMaps, cmpJsonMapsWith]
  | .arr ea, r, t, hc => by
    simp only [comparableTree] at hc
    simp only [cmpJson]
    exact isSome_cmpJsonArraysFrom _ r ea t
      fun ta hl => isSome_cmpJsonArraysEach lib ea r ta hc hl
  | .null, r, t, hc => by simp [cmpJson]
  | .bool _, r, t, hc => by simp [cmpJson]
  | .num _, r, t, hc => by simp [cmpJson]
  | .str _, r, t, hc => by simp [cmpJson]
termination_by structural e => e
/-- The call of `cmpJsonArrays` returns a result. -/
theorem isSome_cmpJsonArrays (lib : GoLib) :
    ∀ (e : JSON) (r : result) (t : JSON), comparableTree e = true →
      (cmpJsonArrays lib r e t).isSome = true
  | .arr ea, r, t, hc => by
    simp only [comparableTree] at hc
    simp only [cmpJsonArrays]
    exact isSome_cmpJsonArraysFrom _ r ea t
      fun ta hl => isSome_cmpJsonArraysEach lib ea r ta hc hl
  | .obj _, r, t, hc => by simp [cmpJsonArrays]
  | .null, r, t, hc => by simp [cmpJsonArrays]
  | .bool _, r, t, hc => by simp [cmpJsonArrays]
  | .num _, r, t, hc => by simp [cmpJsonArrays]
  | .str _, r, t, hc => by simp [cmpJsonArrays]
termination_by structural e => e
/-- The loop over two sequences of the same length returns a result. -/
theorem isSome_cmpJsonArraysEach (lib : GoLib) :
    ∀ (ea : List JSON) (r : result) (ta : List JSON), comparableElems ea = true →
      ea.length = ta.length → (cmpJsonArraysEach lib r ea ta).isSome = true
  | [], r, ta, hc, hl => by simp [cmpJsonArraysEach]
  | x :: ea, r, ta, hc, hl => by
    cases ta with
    | nil => simp at hl
    | cons y ta =>
      simp only [comparableElems, Bool.and_eq_true] at hc
      simp only [cmpJsonArraysEach]
      have h1 := isSome_cmpJson lib x r y hc.1
      cases hx : cmpJson lib r x y with
      | none => rw [hx] at h1; cases h1
      | some sub =>
        cases hs : sub.failed
        · simp only [hs, Bool.false_eq_true, if_false]
          exact isSome_cmpJsonArraysEach lib ea r ta hc.2 (by simpa using hl)
        · simp [hs]
termination_by structural e => e
/-- The call of `cmpJsonArrays` on the `value` field returns a result. -/
theorem isSome_cmpJsonArraysAt (lib : GoLib) :
    ∀ (e : Table) (r : result) (tv : JSON), comparableMembers e = true →
      (cmpJsonArraysAt lib r e tv).isSome = true
  | [], r, tv, hc => by simp [cmpJsonArraysAt]
  | (k, v) :: rest, r, tv, hc => by
    simp only [comparableMembers, Bool.and_eq_true] at hc
    simp only [cmpJsonArraysAt]
    by_cases hk : (k == "value") = true
    · simp only [hk, if_true]
      exact isSome_cmpJsonArrays lib v r tv hc.1
    · simp only [hk, if_false]
      exact isSome_cmpJsonArraysAt lib rest r tv hc.2
termination_by structural e => e
/-- The loop over the bindings returns a result. -/
theorem isSome_cmpJsonMapsEach (lib : GoLib) :
    ∀ (e : Table) (r : result) (t : Table), comparableMembers e = true →
      (cmpJsonMapsEach lib r e t).isSome = true
  | [], r, t, hc => by simp [cmpJsonMapsEach]
  | (k, v) :: rest, r, t, hc => by
    simp only [comparableMembers, Bool.and_eq_true] at hc
    simp only [cmpJsonMapsEach]
    have h1 := isSome_cmpJson lib v (r.kjoin k) (index t k) hc.1
    cases hx : cmpJson lib (r.kjoin k) v (index t k) with
    | none => rw [hx] at h1; cases h1
    | some sub =>
      cases hs : sub.failed
      · simp only [hs, Bool.false_eq_true, if_false]
        exact isSome_cmpJsonMapsEach lib rest r t hc.2
      · simp [hs]
termination_by structural e => e
end

/-! ## Reflexivity -/

theorem float64Eq_self (x : Nat) (h : float64IsNaN x = false) : float64Eq x x = true := by
  simp [float64Eq, h]

theorem missingKey_self (m : Table) : missingKey m m = none := by
  rw [missingKey_eq_none]
  intro k hk
  exact (hasKey_iff m k).2 hk

theorem cmpJsonMapsEach_of_forall (lib : GoLib) (r : result) (m t : Table)
    (hr : r.failed = false)
    (h : ∀ kv ∈ m, cmpJson lib (r.kjoin kv.1) kv.2 (index t kv.1) = some (r.kjoin kv.1)) :
    cmpJsonMapsEach lib r m t = some r := by
  induction m with
  | nil => rfl
  | cons kv m ih =>
    obtain ⟨k, v⟩ := kv
    have h1 := h (k, v) (List.mem_cons_self _ _)
    have hk : (r.kjoin k).failed = false := by rw [kjoin_failed]; exact hr
    simp only [cmpJsonMapsEach, h1, hk, Bool.false_eq_true, if_false]
    exact ih fun kv hkv => h kv (List.mem_cons_of_mem _ hkv)

mutual
/-- A well-formed tree whose float leaves do not hold a NaN compares to itself
without failure. -/
theorem cmpJson_self (lib : GoLib) :
    ∀ (v : JSON) (r : result),
      wellFormedBy lib (fun x => !float64IsNaN x) v = true → r.failed = false →
      cmpJson lib r v v = some r
  | .obj m, r, hw, hr => by
    rw [cmpJson_obj]
    simp only [wellFormedBy, Bool.and_eq_true, decide_eq_true_eq] at hw
    obtain ⟨hnd, hw⟩ := hw
    cases h1 : isValue m
    · simp only [h1, Bool.false_eq_true, if_false] at hw
      simp only [cmpJsonMaps, cmpJsonMapsWith, h1, missingKey_self]
      simp only [Bool.false_and, Bool.not_false, Bool.and_false, Bool.false_eq_true,
        if_false]
      apply cmpJsonMapsEach_of_forall lib r m m hr
      intro kv hkv
      rw [index_of_mem m kv.1 kv.2 hnd hkv]
      exact cmpJson_self_members lib m r hw hr kv hkv
    · simp only [h1, if_true] at hw
      rw [cmpJsonMaps_values lib r m m h1 h1]
      cases he : index m "type" <;> simp only [he] at hw <;> try cases hw
      rename_i ty
      simp only [cmpJsonValues, cmpJsonValuesWith, he, bne_self_eq_false,
        Bool.false_eq_true, if_false, beq_iff_eq]
      by_cases ha : ty = "array"
      · simp only [ha, beq_self_eq_true, if_true] at hw ⊢
        rw [← cmpJsonArraysAt_eq]
        exact cmpJson_self_at lib m r (index m "value") hw hr rfl
      · have ha' : (ty == "array") = false := by simpa using ha
        simp only [ha, ha', if_false, Bool.false_eq_true] at hw ⊢
        by_cases hf : ty = "float"
        · simp only [hf, beq_self_eq_true, if_true] at hw ⊢
          cases hv : index m "value" <;> simp only [hv, floatString] at hw <;> try cases hw
          rename_i s
          cases hp : lib.ParseFloat s <;> simp only [hp] at hw <;> try cases hw
          rename_i x
          simp only [Bool.not_eq_true'] at hw
          simp [cmpFloats, hp, float64Eq_self x hw]
        · have hf' : (ty == "float") = false := by simpa using hf
          simp only [hf, hf', if_false, Bool.false_eq_true] at hw ⊢
          cases hv : index m "value" <;> simp only [hv, isStr] at hw <;> try cases hw
          simp [ifaceEq]
  | .arr xs, r, hw, hr => by
    simp only [wellFormedBy] at hw
    simp only [cmpJson, cmpJsonArraysFrom, bne_self_eq_false, Bool.false_eq_true, if_false]
    exact cmpJson_self_elems lib xs r hw hr
  | .null, r, hw, hr => by simp [wellFormedBy] at hw
  | .bool _, r, hw, hr => by simp [wellFormedBy] at hw
  | .num _, r, hw, hr => by simp [wellFormedBy] at hw
  | .str _, r, hw, hr => by simp [wellFormedBy] at hw
termination_by structural e => e
/-- A Sequence of well-formed leaves compares to itself without failure. -/
theorem cmpJson_self_leafArray (lib : GoLib) :
    ∀ (v : JSON) (r : result),
      wellFormedLeafArray lib (fun x => !float64IsNaN x) v = true → r.failed = false →
      cmpJsonArrays lib r v v = some r
  | .arr xs, r, hw, hr => by
    simp only [wellFormedLeafArray] at hw
    simp only [cmpJsonArrays, cmpJsonArraysFrom, bne_self_eq_false, Bool.false_eq_true,
      if_false]
    exact cmpJson_self_leaves lib xs r hw hr
  | .obj _, r, hw, hr => by simp [wellFormedLeafArray] at hw
  | .null, r, hw, hr => by simp [wellFormedLeafArray] at hw
  | .bool _, r, hw, hr => by simp [wellFormedLeafArray] at hw
  | .num _, r, hw, hr => by simp [wellFormedLeafArray] at hw
  | .str _, r, hw, hr => by simp [wellFormedLeafArray] at hw
termination_by structural e => e
/-- The loop over a sequence of well-formed trees against itself. -/
theorem cmpJson_self_elems (lib : GoLib) :
    ∀ (xs : List JSON) (r : result),
      wellFormedElems lib (fun x => !float64IsNaN x) xs = true → r.failed = false →
      cmpJsonArraysEach lib r xs xs = some r
  | [], r, hw, hr => rfl
  | x :: xs, r, hw, hr => by
    simp only [wellFormedElems, Bool.and_eq_true] at hw
    simp only [cmpJsonArraysEach, cmpJson_self lib x r hw.1 hr, hr, Bool.false_eq_true,
      if_false]
    exact cmpJson_self_elems lib xs r hw.2 hr
termination_by structural e => e
/-- The loop over a sequence of well-formed leaves against itself. -/
theorem cmpJson_self_leaves (lib : GoLib) :
    ∀ (xs : List JSON) (r : result),
      wellFormedLeaves lib (fun x => !float64IsNaN x) xs = true → r.failed = false →
      cmpJsonArraysEach lib r xs xs = some r
  | [], r, hw, hr => rfl
  | x :: xs, r, hw, hr => by
    simp only [wellFormedLeaves, Bool.and_eq_true] at hw
    simp only [cmpJsonArraysEach, cmpJson_self lib x r hw.1.2 hr, hr, Bool.false_eq_true,
      if_false]
    exact cmpJson_self_leaves lib xs r hw.2 hr
termination_by structural e => e
/-- Every binding of a table of well-formed trees compares to itself. -/
theorem cmpJson_self_members (lib : GoLib) :
    ∀ (m : Table) (r : result),
      wellFormedMembers lib (fun x => !float64IsNaN x) m = true → r.failed = false →
      ∀ kv ∈ m, cmpJson lib (r.kjoin kv.1) kv.2 kv.2 = some (r.kjoin kv.1)
  | [], r, hw, hr => by intro kv hkv; cases hkv
  | (k, v) :: rest, r, hw, hr => by
    simp only [wellFormedMembers, Bool.and_eq_true] at hw
    intro kv hkv
    rcases List.mem_cons.1 hkv with h | h
    · subst h
      exact cmpJson_self lib v (r.kjoin k) hw.1 (by rw [kjoin_failed]; exact hr)
    · exact cmpJson_self_members lib rest r hw.2 hr kv h
termination_by structural e => e
/-- The `value` field of an array leaf compares to itself. -/
theorem cmpJson_self_at (lib : GoLib) :
    ∀ (m : Table) (r : result) (tv : JSON),
      wellFormedArrayAt lib (fun x => !float64IsNaN x) m = true → r.failed = false →
      index m "value" = tv → cmpJsonArraysAt lib r m tv = some r
  | [], r, tv, hw, hr => by simp [wellFormedArrayAt] at hw
  | (k, v) :: rest, r, tv, hw, hr => by
    intro hi
    simp only [wellFormedArrayAt] at hw
    simp only [cmpJsonArraysAt]
    unfold index at hi
    rw [lookup_cons] at hi
    by_cases hk : k = "value"
    · simp only [hk, beq_self_eq_true, if_true, Option.getD_some] at hw hi ⊢
      subst hi
      exact cmpJson_self_leafArray lib v r hw hr
    · have hk' : (k == "value") = false := by simpa using hk
      have hk2 : ¬ "value" = k := fun h => hk h.symm
      simp only [hk', Bool.false_eq_true, if_false, hk2] at hw hi ⊢
      exact cmpJson_self_at lib rest r tv hw hr hi
termination_by structural e => e
end

/-! ## Claims on whole trees -/

/-- C1.  From a fresh result, whenever `cmpJson` returns a result, that result
has not failed if and only if the expected and the test tree are structurally
equivalent; and `cmpJson` does return a result when no leaf of the expected
tree with a scalar type tag holds a sequence or a table.  Where such a leaf
meets a leaf with a value of the same shape, line 137 panics, and the claim
fails there. -/
theorem cmpJson_passes_iff_specEquiv (lib : GoLib) (r : result) (e t : JSON)
    (hE : r.Err = none) (hF : r.Failure = "") :
    (∀ r', cmpJson lib r e t = some r' →
        (r'.failed = false ↔ specEquiv lib e t = true))
      ∧ (comparableTree e = true → ∃ r', cmpJson lib r e t = some r') := by
  have hr : r.failed = false := failed_of_fresh r hE hF
  constructor
  · intro r' h
    constructor
    · intro hf
      exact specEquiv_of_passes lib e r t (by simp [h, passes, hf])
    · intro hs
      rw [eq_of_specEquiv lib e r t r' hs hr h]
      exact hr
  · intro hc
    exact Option.isSome_iff_exists.1 (isSome_cmpJson lib e r t hc)

theorem cmpJson_passes_iff_specEquiv_witness :
    ((((freshResult "t").kjoin "a").failedf
        "Values for key 'a' don't match. Expected a value of '1' but got '2'.").failed
          = false
      ↔ specEquiv refLib
          (.obj [("a", .obj [("type", .str "integer"), ("value", .str "1")])])
          (.obj [("a", .obj [("type", .str "integer"), ("value", .str "2")])]) = true)
      ∧ ∃ r', cmpJson refLib (freshResult "t")
          (.obj [("a", .obj [("type", .str "integer"), ("value", .str "1")])])
          (.obj [("a", .obj [("type", .str "integer"), ("value", .str "2")])]) = some r' :=
  ⟨(cmpJson_passes_iff_specEquiv refLib (freshResult "t")
      (.obj [("a", .obj [("type", .str "integer"), ("value", .str "1")])])
      (.obj [("a", .obj [("type", .str "integer"), ("value", .str "2")])])
      rfl rfl).1
      (((freshResult "t").kjoin "a").failedf
        "Values for key 'a' don't match. Expected a value of '1' but got '2'.")
      (by decide),
   (cmpJson_passes_iff_specEquiv refLib (freshResult "t")
      (.obj [("a", .obj [("type", .str "integer"), ("value", .str "1")])])
      (.obj [("a", .obj [("type", .str "integer"), ("value", .str "2")])])
      rfl rfl).2 (by decide)⟩

/-- C1, failing input.  Two leaves of type `string` that both hold the empty
Sequence as `value` are structurally equivalent, their `value` fields being
equal, yet `cmpJson` returns no result for them: line 137 panics. -/
theorem cmpJson_passes_iff_specEquiv_counterexample :
    specEquiv refLib (.obj [("type", .str "string"), ("value", .arr [])])
        (.obj [("type", .str "string"), ("value", .arr [])]) = true
      ∧ cmpJson refLib (freshResult "t")
          (.obj [("type", .str "string"), ("value", .arr [])])
          (.obj [("type", .str "string"), ("value", .arr [])]) = none := by
  decide

/-- C2, as amended.  Reflexivity: a well-formed tree none of whose `float`
leaves holds a string that parses to a NaN compares to itself, from a fresh
result, to that result, which has not failed. -/
theorem cmpJson_reflexive (lib : GoLib) (r : result) (v : JSON)
    (hw : wellFormedBy lib (fun x => !float64IsNaN x) v = true)
    (hE : r.Err = none) (hF : r.Failure = "") :
    cmpJson lib r v v = some r ∧ r.failed = false :=
  ⟨cmpJson_self lib v r hw (failed_of_fresh r hE hF), failed_of_fresh r hE hF⟩

theorem cmpJson_reflexive_witness :
    cmpJson refLib (freshResult "t")
        (.obj [("a", .obj [("type", .str "string"), ("value", .str "x")]),
          ("b", .obj [("type", .str "float"), ("value", .str "1.5")])])
        (.obj [("a", .obj [("type", .str "string"), ("value", .str "x")]),
          ("b", .obj [("type", .str "float"), ("value", .str "1.5")])])
      = some (freshResult "t") :=
  (cmpJson_reflexive refLib (freshResult "t")
    (.obj [("a", .obj [("type", .str "string"), ("value", .str "x")]),
      ("b", .obj [("type", .str "float"), ("value", .str "1.5")])])
    (by decide) rfl rfl).1

/-- C2, counterexample.  The leaf of type `float` holding `NaN` is well-formed,
`NaN` being a string that `ParseFloat` accepts, and the comparison with itself
fails: line 156 compares the two parsed numbers with `!=`, and a NaN differs
from itself. -/
theorem cmpJson_reflexive_counterexample :
    wellFormed refLib (.obj [("type", .str "float"), ("value", .str "NaN")]) = true
      ∧ (cmpJson refLib (freshResult "t")
          (.obj [("type", .str "float"), ("value", .str "NaN")])
          (.obj [("type", .str "float"), ("value", .str "NaN")])).map result.failed
        = some true := by
  decide

/-! ## Order of a sequence -/

theorem specEquivElems_eq_false (lib : GoLib) (i : Nat) (x y : JSON) (s s' : List JSON)
    (hx : s[i]? = some x) (hy : s'[i]? = some y) (h : specEquiv lib x y = false) :
    specEquivElems lib s s' = false := by
  induction s generalizing s' i with
  | nil => simp at hx
  | cons a s ih =>
    cases s' with
    | nil => simp at hy
    | cons b s' =>
      cases i with
      | zero =>
        simp only [List.getElem?_cons_zero, Option.some.injEq] at hx hy
        subst hx; subst hy
        simp [specEquivElems, h]
      | succ i =>
        simp only [List.getElem?_cons_succ] at hx hy
        simp [specEquivElems, ih i s' hx hy]

/-- A permutation of a sequence other than the sequence itself holds, at some
index, an element that the sequence holds at another index. -/
theorem exists_moved_of_perm (s s' : List JSON) (hperm : s'.Perm s) (hne : s' ≠ s) :
    ∃ (i j : Nat) (x y : JSON), i ≠ j ∧ s[i]? = some x ∧ s'[i]? = some y ∧ s[j]? = some y := by
  have hlen : s'.length = s.length := hperm.length_eq
  have hex : ∃ i : Nat, s'[i]? ≠ s[i]? := by
    by_contra hall
    simp only [not_exists, not_not] at hall
    exact hne (List.ext_getElem? hall)
  obtain ⟨i, hi⟩ := hex
  have hlt : i < s.length := by
    by_contra hge
    have h1 : s[i]? = none := List.getElem?_eq_none (by omega)
    have h2 : s'[i]? = none := List.getElem?_eq_none (by omega)
    exact hi (h2.trans h1.symm)
  have hlt' : i < s'.length := by omega
  have hx : s[i]? = some s[i] := List.getElem?_eq_getElem hlt
  have hy : s'[i]? = some s'[i] := List.getElem?_eq_getElem hlt'
  have hmem : s'[i] ∈ s := hperm.mem_iff.1 (List.getElem_mem hlt')
  obtain ⟨j, hj, hjy⟩ := List.getElem_of_mem hmem
  refine ⟨i, j, s[i], s'[i], ?_, hx, hy, ?_⟩
  · intro hij
    subst hij
    apply hi
    rw [hx, hy, hjy]
  · rw [List.getElem?_eq_getElem hj, hjy]

/-- C4, as amended.  Array order sensitivity: when a permutation `s'` of the
sequence `s` holds, at some index, an element that is not structurally
equivalent to the element of `s` at that index, `cmpJsonArrays` on `s` and `s'`
does not pass: every result it returns has failed, and it returns one when no
leaf of `s` with a scalar type tag holds a sequence or a table.  So it is for
every permutation other than `s` itself when the elements of `s` are pairwise
non-equivalent.  Two leaves of type `array` wrapping `s` and `s'` compare to
the same outcome. -/
theorem cmpJsonArrays_order_sensitive (lib : GoLib) (r : result) (s s' : List JSON)
    (hperm : s'.Perm s) :
    ((∃ (i : Nat) (x y : JSON), s[i]? = some x ∧ s'[i]? = some y ∧ specEquiv lib x y = false) →
        (∀ r', cmpJsonArrays lib r (.arr s) (.arr s') = some r' → r'.failed = true)
        ∧ (comparableElems s = true →
            ∃ r', cmpJsonArrays lib r (.arr s) (.arr s') = some r' ∧ r'.failed = true))
      ∧ ((∀ (i j : Nat) (x y : JSON), i ≠ j → s[i]? = some x → s[j]? = some y →
            specEquiv lib x y = false) → s' ≠ s →
          ∃ (i : Nat) (x y : JSON), s[i]? = some x ∧ s'[i]? = some y ∧ specEquiv lib x y = false)
      ∧ (∀ e t : Table, index e "type" = .str "array" → index t "type" = .str "array" →
          index e "value" = .arr s → index t "value" = .arr s' →
          cmpJsonValues lib r e t = cmpJsonArrays lib r (.arr s) (.arr s')) := by
  refine ⟨?_, ?_, ?_⟩
  · rintro ⟨i, x, y, hx, hy, hxy⟩
    have hnp : ∀ r', cmpJsonArrays lib r (.arr s) (.arr s') = some r' →
        r'.failed = true := by
      intro r' h
      by_contra hf
      have hp : passes (cmpJson lib r (.arr s) (.arr s')) = true := by
        rw [cmpJson_arr, h]; simpa [passes] using hf
      have := specEquiv_of_passes lib _ r _ hp
      simp only [specEquiv] at this
      rw [specEquivElems_eq_false lib i x y s s' hx hy hxy] at this
      cases this
    refine ⟨hnp, fun hc => ?_⟩
    have hs := isSome_cmpJsonArrays lib (.arr s) r (.arr s') (by simpa [comparableTree] using hc)
    obtain ⟨r', hr'⟩ := Option.isSome_iff_exists.1 hs
    exact ⟨r', hr', hnp r' hr'⟩
  · intro hdist hne
    obtain ⟨i, j, x, y, hij, hx, hy, hj⟩ := exists_moved_of_perm s s' hperm hne
    exact ⟨i, x, y, hx, hy, hdist i j x y hij hx hj⟩
  · intro e t he ht hev htv
    simp [cmpJsonValues, cmpJsonValuesWith, he, ht, hev, htv]

theorem cmpJsonArrays_order_sensitive_witness :
    (∃ r', cmpJsonArrays refLib (freshResult "t")
        (.arr [.obj [("type", .str "integer"), ("value", .str "1")],
          .obj [("type", .str "integer"), ("value", .str "2")]])
        (.arr [.obj [("type", .str "integer"), ("value", .str "2")],
          .obj [("type", .str "integer"), ("value", .str "1")]]) = some r'
      ∧ r'.failed = true)
    ∧ ∃ (i : Nat) (x y : JSON),
        [JSON.obj [("type", .str "integer"), ("value", .str "1")],
          JSON.obj [("type", .str "integer"), ("value", .str "2")]][i]? = some x
        ∧ [JSON.obj [("type", .str "integer"), ("value", .str "2")],
          JSON.obj [("type", .str "integer"), ("value", .str "1")]][i]? = some y
        ∧ specEquiv refLib x y = false :=
  ⟨((cmpJsonArrays_order_sensitive refLib (freshResult "t")
      [.obj [("type", .str "integer"), ("value", .str "1")],
        .obj [("type", .str "integer"), ("value", .str "2")]]
      [.obj [("type", .str "integer"), ("value", .str "2")],
        .obj [("type", .str "integer"), ("value", .str "1")]]
      (List.Perm.swap _ _ _)).1
      ⟨0, .obj [("type", .str "integer"), ("value", .str "1")],
        .obj [("type", .str "integer"), ("value", .str "2")], rfl, rfl, by decide⟩).2
      (by decide),
   (cmpJsonArrays_order_sensitive refLib (freshResult "t")
      [.obj [("type", .str "integer"), ("value", .str "1")],
        .obj [("type", .str "integer"), ("value", .str "2")]]
      [.obj [("type", .str "integer"), ("value", .str "2")],
        .obj [("type", .str "integer"), ("value", .str "1")]]
      (List.Perm.swap _ _ _)).2.1
      (by
        intro i j x y hij hx hy
        match i, j with
        | 0, 0 => exact absurd rfl hij
        | 0, 1 =>
          simp only [List.getElem?_cons_zero, List.getElem?_cons_succ,
            Option.some.injEq] at hx hy
          subst hx; subst hy; decide
        | 1, 0 =>
          simp only [List.getElem?_cons_zero, List.getElem?_cons_succ,
            Option.some.injEq] at hx hy
          subst hx; subst hy; decide
        | 1, 1 => exact absurd rfl hij
        | (n + 2), _ => simp at hx
        | 0, (n + 2) => simp at hy
        | 1, (n + 2) => simp at hy)
      (by
        intro h
        have := congrArg (fun l : List JSON => l.map fun v =>
          sprintS refLib (index (match v with | .obj m => m | _ => []) "value")) h
        revert this
        decide)⟩

/-- C4, counterexample.  The sequence of the leaves `1`, `2`, `1` has three
elements, not all equal; its reversal is the same sequence, and the comparison
of the two passes. -/
theorem cmpJsonArrays_order_sensitive_counterexample :
    cmpJsonArrays refLib (freshResult "t")
        (.arr [.obj [("type", .str "integer"), ("value", .str "1")],
          .obj [("type", .str "integer"), ("value", .str "2")],
          .obj [("type", .str "integer"), ("value", .str "1")]])
        (.arr (List.reverse [.obj [("type", .str "integer"), ("value", .str "1")],
          .obj [("type", .str "integer"), ("value", .str "2")],
          .obj [("type", .str "integer"), ("value", .str "1")]]))
      = some (freshResult "t") := by
  decide

/-! ## The dispatcher and the classifier -/

/-- C11.  The dispatcher trusts the expected side: an expected node that is
neither a Table nor a Sequence fails at once with the message that names the
current key path and the dynamic type of the expected node, whatever the test
node is; an expected Table is handed to `cmpJsonMaps` and an expected Sequence
to `cmpJsonArrays`, whatever the test node is. -/
theorem cmpJson_dispatch (lib : GoLib) (r : result) (expected test : JSON) :
    (isTable expected = false → isArr expected = false →
      cmpJson lib r expected test
          = some (r.failedf ("Key '" ++ r.Key
              ++ "' in expected output should be a map or a "
              ++ "list of maps, but it's a " ++ typeName expected ++ "."))
        ∧ (r.failedf ("Key '" ++ r.Key
              ++ "' in expected output should be a map or a "
              ++ "list of maps, but it's a " ++ typeName expected ++ ".")).failed = true)
    ∧ (∀ e, expected = .obj e → cmpJson lib r expected test = cmpJsonMaps lib r e test)
    ∧ (∀ ea, expected = .arr ea →
        cmpJson lib r expected test = cmpJsonArrays lib r (.arr ea) test) := by
  refine ⟨?_, ?_, ?_⟩
  · intro h1 h2
    refine ⟨?_, failed_failedf _ _ _ (by decide)⟩
    cases expected <;> simp_all [cmpJson, isTable, isArr]
  · rintro e rfl
    exact cmpJson_obj lib r e test
  · rintro ea rfl
    exact cmpJson_arr lib r ea test

theorem cmpJson_dispatch_witness :
    cmpJson refLib (freshResult "t") (.str "x") (.obj [])
        = some ((freshResult "t").failedf
            "Key '' in expected output should be a map or a list of maps, but it's a string.")
    ∧ cmpJson refLib (freshResult "t") (.obj []) (.str "x")
        = cmpJsonMaps refLib (freshResult "t") [] (.str "x")
    ∧ cmpJson refLib (freshResult "t") (.arr []) (.str "x")
        = cmpJsonArrays refLib (freshResult "t") (.arr []) (.str "x") :=
  ⟨((cmpJson_dispatch refLib (freshResult "t") (.str "x") (.obj [])).1 rfl rfl).1,
   (cmpJson_dispatch refLib (freshResult "t") (.obj []) (.str "x")).2.1 [] rfl,
   (cmpJson_dispatch refLib (freshResult "t") (.arr []) (.str "x")).2.2 [] rfl⟩

theorem keys_eq_of_isValue (m : Table) (h : isValue m = true) :
    keys m = ["type", "value"] ∨ keys m = ["value", "type"] := by
  have hl : m.length = 2 := by
    by_contra hl
    simp [isValue, hl] at h
  have ht : "type" ∈ keys m := by
    rw [← hasKey_iff]
    by_contra hh
    simp [isValue, hl, hh] at h
  have hv : "value" ∈ keys m := by
    rw [← hasKey_iff]
    by_contra hh
    simp [isValue, hl, hh] at h
  match m, hl with
  | [(a, _), (b, _)], _ =>
    simp only [keys, List.map_cons, List.map_nil, List.mem_cons, List.mem_singleton,
      List.not_mem_nil, or_false] at ht hv ⊢
    rcases ht with ht | ht <;> rcases hv with hv | hv
    · rw [← ht] at hv; exact absurd hv (by decide)
    · left; rw [← ht, ← hv]
    · right; rw [← ht, ← hv]
    · rw [← ht] at hv; exact absurd hv (by decide)

theorem isValue_keys (m m' : Table) (hk : keys m' = keys m) : isValue m' = isValue m := by
  have hl : m'.length = m.length := by
    have := congrArg List.length hk
    simpa [keys] using this
  have h1 : ∀ k, hasKey m' k = hasKey m k := by
    intro k
    rw [Bool.eq_iff_iff, hasKey_iff, hasKey_iff, hk]
  simp [isValue, hl, h1]

/-- C12.  The value classifier: `isValue m` holds exactly when `m` has two
entries and its key set is `type` and `value`; two tables with the same keys
are classified alike, whatever values they store. -/
theorem isValue_iff (m : Table) :
    (isValue m = true ↔
        m.length = 2 ∧ ∀ k, k ∈ keys m ↔ (k = "type" ∨ k = "value"))
      ∧ ∀ m' : Table, keys m' = keys m → isValue m' = isValue m := by
  constructor
  · constructor
    · intro h
      have hl : m.length = 2 := by
        by_contra hl
        simp [isValue, hl] at h
      refine ⟨hl, fun k => ?_⟩
      rcases keys_eq_of_isValue m h with hk | hk <;> rw [hk] <;> simp
      exact or_comm
    · rintro ⟨hl, hk⟩
      have h1 : hasKey m "type" = true := (hasKey_iff m _).2 ((hk _).2 (Or.inl rfl))
      have h2 : hasKey m "value" = true := (hasKey_iff m _).2 ((hk _).2 (Or.inr rfl))
      simp [isValue, hl, h1, h2]
  · intro m' hk
    exact isValue_keys m m' hk

theorem isValue_iff_witness :
    isValue [("value", .num 0), ("type", .null)] = true
      ∧ isValue [("type", .str "string"), ("value", .str "x")]
        = isValue [("type", .null), ("value", .arr [])] :=
  ⟨(isValue_iff [("value", .num 0), ("type", .null)]).1.2
      ⟨rfl, fun k => by simp [keys]; exact or_comm⟩,
   (isValue_iff [("type", .null), ("value", .arr [])]).2
      [("type", .str "string"), ("value", .str "x")] rfl⟩

/-! ## A test node that is not a table -/

/-- C18.  The map comparator on a test node that is not a table: the failure is
the type mismatch whose last operand is the variable `t` of line 29, the nil
map that the failed type assertion left there, so that the message names the
type `map[string]interface {}` whatever the test node is. -/
theorem cmpJsonMaps_not_table (lib : GoLib) (r : result) (e : Table) (test : JSON)
    (h : isTable test = false) :
    cmpJsonMaps lib r e test
      = some (r.failedf ("Type mismatch for key '" ++ r.Key
          ++ "'. Expected table but got map[string]interface {}.")) := by
  cases test <;> simp_all [cmpJsonMaps, cmpJsonMapsWith, isTable, result.mismatch,
    typeName, String.append_assoc]

theorem cmpJsonMaps_not_table_witness :
    cmpJsonMaps refLib (freshResult "t") [] (.arr [])
        = some ((freshResult "t").failedf
            "Type mismatch for key ''. Expected table but got map[string]interface {}.")
      ∧ typeName (.arr []) = "[]interface {}" :=
  ⟨cmpJsonMaps_not_table refLib (freshResult "t") [] (.arr []) rfl, rfl⟩

/-! ## The key-set check -/

theorem missingKey_keys (e e' t t' : Table) (he : keys e' = keys e) (ht : keys t' = keys t) :
    missingKey e' t' = missingKey e t := by
  have h1 : ∀ k, hasKey t' k = hasKey t k := by
    intro k
    rw [Bool.eq_iff_iff, hasKey_iff, hasKey_iff, ht]
  have h2 : ∀ m : Table, missingKey m t
      = (keys m).find? (fun k => !hasKey t k) := by
    intro m
    induction m with
    | nil => rfl
    | cons kv m ih =>
      simp only [missingKey, keys, List.find?_cons, List.map_cons] at ih ⊢
      cases hh : !hasKey t kv.1
      · simpa using ih
      · simp
  have h3 : missingKey e' t' = missingKey e' t := by
    simp [missingKey, h1]
  rw [h3, h2 e', h2 e, he]

/-- C19.  The key-set check precedes the comparison of values: two Untagged
Tables whose key sets differ compare to a missing-key failure whose path is the
path of the table extended by `kjoin` with a key that one of the two lacks:
`in parser output` for a key of `e` that `t` lacks, whenever there is one, and
otherwise `in expected output` for a key of `t` that `e` lacks.  The result
depends on the keys alone: two tables with the same keys in the same order give
the same result, whatever their values. -/
theorem cmpJsonMaps_keys_differ (lib : GoLib) (r : result) (e t : Table)
    (he : isValue e = false) (ht : isValue t = false) (hk : sameKeys e t = false) :
    (∃ k,
        (k ∈ keys e ∧ k ∉ keys t
          ∧ cmpJsonMaps lib r e (.obj t)
            = some ((r.kjoin k).failedf ("Could not find key '" ++ (r.kjoin k).Key
                ++ "' in parser output.")))
        ∨ ((∀ k' ∈ keys e, k' ∈ keys t) ∧ k ∈ keys t ∧ k ∉ keys e
          ∧ cmpJsonMaps lib r e (.obj t)
            = some ((r.kjoin k).failedf ("Could not find key '" ++ (r.kjoin k).Key
                ++ "' in expected output."))))
      ∧ (∀ e' t' : Table, keys e' = keys e → keys t' = keys t →
          cmpJsonMaps lib r e' (.obj t') = cmpJsonMaps lib r e (.obj t))
      ∧ cmpJson refLib (freshResult "t")
          (.obj [("a", .obj [("b", .obj [("type", .str "bool"), ("value", .str "true")])])])
          (.obj [("a", .obj [])])
        = some { freshResult "t" with
            Key := "a.b", Failure := "Could not find key 'a.b' in parser output." } := by
  have hmain : ∀ e1 t1 : Table, isValue e1 = false → isValue t1 = false →
      sameKeys e1 t1 = false →
      cmpJsonMaps lib r e1 (.obj t1)
        = match missingKey e1 t1 with
          | some k => some ((r.kjoin k).failedf ("Could not find key '" ++ (r.kjoin k).Key
              ++ "' in parser output."))
          | none =>
            match missingKey t1 e1 with
            | some k => some ((r.kjoin k).failedf ("Could not find key '"
                ++ (r.kjoin k).Key ++ "' in expected output."))
            | none => none := by
    intro e1 t1 h1 h2 h3
    simp only [cmpJsonMaps, cmpJsonMapsWith, h1, h2]
    simp only [Bool.false_and, Bool.not_false, Bool.and_false, Bool.false_eq_true, if_false]
    cases hm1 : missingKey e1 t1 with
    | some k => rfl
    | none =>
      cases hm2 : missingKey t1 e1 with
      | some k => rfl
      | none =>
        have := (sameKeys_iff e1 t1).2 ⟨hm1, hm2⟩
        rw [h3] at this; cases this
  refine ⟨?_, ?_, by decide⟩
  · rw [hmain e t he ht hk]
    cases hm1 : missingKey e t with
    | some k =>
      obtain ⟨h1, h2⟩ := missingKey_eq_some e t k hm1
      exact ⟨k, Or.inl ⟨h1, (hasKey_eq_false_iff t k).1 h2, rfl⟩⟩
    | none =>
      cases hm2 : missingKey t e with
      | some k =>
        obtain ⟨h1, h2⟩ := missingKey_eq_some t e k hm2
        refine ⟨k, Or.inr ⟨?_, h1, (hasKey_eq_false_iff e k).1 h2, rfl⟩⟩
        intro k' hk'
        exact (hasKey_iff t k').1 ((missingKey_eq_none e t).1 hm1 k' hk')
      | none =>
        have := (sameKeys_iff e t).2 ⟨hm1, hm2⟩
        rw [hk] at this; cases this
  · intro e' t' hke hkt
    have he' : isValue e' = false := by rw [isValue_keys e e' hke]; exact he
    have ht' : isValue t' = false := by rw [isValue_keys t t' hkt]; exact ht
    have hk' : sameKeys e' t' = false := by
      rw [Bool.eq_false_iff] at hk ⊢
      intro h
      apply hk
      rw [sameKeys_iff] at h ⊢
      rw [← missingKey_keys e e' t t' hke hkt, ← missingKey_keys t t' e e' hkt hke]
      exact h
    rw [hmain e t he ht hk, hmain e' t' he' ht' hk',
      missingKey_keys e e' t t' hke hkt, missingKey_keys t t' e e' hkt hke]

theorem cmpJsonMaps_keys_differ_witness :
    ∃ k,
      (k ∈ keys [("b", JSON.obj [("type", .str "bool"), ("value", .str "true")])]
        ∧ k ∉ keys ([] : Table)
        ∧ cmpJsonMaps refLib ((freshResult "t").kjoin "a")
            [("b", .obj [("type", .str "bool"), ("value", .str "true")])] (.obj [])
          = some ((((freshResult "t").kjoin "a").kjoin k).failedf
              ("Could not find key '" ++ (((freshResult "t").kjoin "a").kjoin k).Key
                ++ "' in parser output.")))
      ∨ ((∀ k' ∈ keys [("b", JSON.obj [("type", .str "bool"), ("value", .str "true")])],
            k' ∈ keys ([] : Table))
        ∧ k ∈ keys ([] : Table)
        ∧ k ∉ keys [("b", JSON.obj [("type", .str "bool"), ("value", .str "true")])]
        ∧ cmpJsonMaps refLib ((freshResult "t").kjoin "a")
            [("b", .obj [("type", .str "bool"), ("value", .str "true")])] (.obj [])
          = some ((((freshResult "t").kjoin "a").kjoin k).failedf
              ("Could not find key '" ++ (((freshResult "t").kjoin "a").kjoin k).Key
                ++ "' in expected output."))) :=
  (cmpJsonMaps_keys_differ refLib ((freshResult "t").kjoin "a")
    [("b", .obj [("type", .str "bool"), ("value", .str "true")])] []
    (by decide) (by decide) (by decide)).1

/-! ## Comparisons that abort -/

/-- C17.  Totality fails on malformed input: on two leaves with the same `type`
string, neither `array` nor `float`, whose `value` fields are both Sequences or
both Tables, `cmpJsonValues` returns no result; the operator `!=` of line 137
panics on two slices and on two maps.  So does `cmpJson` on the two leaves of
type `bool` holding the empty Table. -/
theorem cmpJsonValues_aborts (lib : GoLib) (r : result) (e t : Table) (ty : String)
    (he : index e "type" = .str ty) (ht : index t "type" = .str ty)
    (hna : ty ≠ "array") (hnf : ty ≠ "float")
    (h : (isArr (index e "value") && isArr (index t "value")) = true
      ∨ (isTable (index e "value") && isTable (index t "value")) = true) :
    cmpJsonValues lib r e t = none
      ∧ cmpJson refLib (freshResult "t")
          (.obj [("type", .str "bool"), ("value", .obj [])])
          (.obj [("type", .str "bool"), ("value", .obj [])]) = none := by
  refine ⟨?_, by decide⟩
  have hq : ifaceEq (index e "value") (index t "value") = none := by
    cases hev : index e "value" <;> cases htv : index t "value" <;>
      simp_all [ifaceEq, isArr, isTable]
  simp [cmpJsonValues, cmpJsonValuesWith, he, ht, hna, hnf, hq]

theorem cmpJsonValues_aborts_witness :
    cmpJsonValues refLib (freshResult "t")
        [("type", .str "integer"), ("value", .arr [.str "1"])]
        [("type", .str "integer"), ("value", .arr [.str "1"])] = none :=
  (cmpJsonValues_aborts refLib (freshResult "t")
    [("type", .str "integer"), ("value", .arr [.str "1"])]
    [("type", .str "integer"), ("value", .arr [.str "1"])] "integer" rfl rfl
    (by decide) (by decide) (Or.inl rfl)).1

/-! ## The path inside a sequence -/

theorem cmpJsonArraysEach_at (lib : GoLib) (r : result) :
    ∀ (s s' : List JSON) (i : Nat) (x y : JSON) (r' : result),
      s[i]? = some x → s'[i]? = some y →
      (∀ (j : Nat) (a b : JSON), j < i → s[j]? = some a → s'[j]? = some b →
        cmpJson lib r a b = some r) →
      r.failed = false → cmpJson lib r x y = some r' → r'.failed = true →
      cmpJsonArraysEach lib r s s' = some r' := by
  intro s
  induction s with
  | nil => intro s' i x y r' hx; simp at hx
  | cons a s ih =>
    intro s' i x y r' hx hy hb hr h hf
    cases s' with
    | nil => simp at hy
    | cons b s' =>
      cases i with
      | zero =>
        simp only [List.getElem?_cons_zero, Option.some.injEq] at hx hy
        subst hx; subst hy
        simp [cmpJsonArraysEach, h, hf]
      | succ i =>
        simp only [List.getElem?_cons_succ] at hx hy
        have h0 := hb 0 a b (Nat.succ_pos i) (by simp) (by simp)
        simp only [cmpJsonArraysEach, h0, hr, Bool.false_eq_true, if_false]
        exact ih s' i x y r' hx hy
          (fun j a' b' hj ha hb' => hb (j + 1) a' b' (Nat.succ_lt_succ hj)
            (by simpa using ha) (by simpa using hb')) hr h hf

/-- C20, as amended.  The path inside a sequence: the comparison of the
elements at index `i` starts from the result `r` that `cmpJsonArrays` was called
on, with the path unchanged.  When the elements before `i` pass and those at
`i` diverge, `cmpJsonArrays` returns what comparing the two elements from `r`
returns: the index is not part of the returned `Key`. -/
theorem cmpJsonArrays_element (lib : GoLib) (r : result) (s s' : List JSON) (i : Nat)
    (x y : JSON) (r' : result) (hlen : s.length = s'.length)
    (hx : s[i]? = some x) (hy : s'[i]? = some y)
    (hb : ∀ (j : Nat) (a b : JSON), j < i → s[j]? = some a → s'[j]? = some b →
      cmpJson lib r a b = some r)
    (hr : r.failed = false) (h : cmpJson lib r x y = some r') (hf : r'.failed = true) :
    cmpJsonArrays lib r (.arr s) (.arr s') = cmpJson lib r x y := by
  rw [h]
  simp only [cmpJsonArrays, cmpJsonArraysFrom, hlen, bne_self_eq_false,
    Bool.false_eq_true, if_false]
  exact cmpJsonArraysEach_at lib r s s' i x y r' hx hy hb hr h hf

theorem cmpJsonArrays_element_witness :
    cmpJsonArrays refLib ((freshResult "t").kjoin "p")
        (.arr [.obj [("type", .str "integer"), ("value", .str "0")],
          .obj [("type", .str "integer"), ("value", .str "1")]])
        (.arr [.obj [("type", .str "integer"), ("value", .str "0")],
          .obj [("type", .str "integer"), ("value", .str "2")]])
      = cmpJson refLib ((freshResult "t").kjoin "p")
          (.obj [("type", .str "integer"), ("value", .str "1")])
          (.obj [("type", .str "integer"), ("value", .str "2")]) :=
  cmpJsonArrays_element refLib ((freshResult "t").kjoin "p")
    [.obj [("type", .str "integer"), ("value", .str "0")],
      .obj [("type", .str "integer"), ("value", .str "1")]]
    [.obj [("type", .str "integer"), ("value", .str "0")],
      .obj [("type", .str "integer"), ("value", .str "2")]]
    1 (.obj [("type", .str "integer"), ("value", .str "1")])
    (.obj [("type", .str "integer"), ("value", .str "2")])
    (((freshResult "t").kjoin "p").failedf
      "Values for key 'p' don't match. Expected a value of '1' but got '2'.")
    rfl rfl rfl
    (by
      intro j a b hj ha hb
      match j, hj with
      | 0, _ =>
        simp only [List.getElem?_cons_zero, Option.some.injEq] at ha hb
        subst ha; subst hb; decide)
    (by decide) (by decide) (by decide)

/-- C20, counterexample.  A divergence at index 0 and the same divergence at
index 1 of a Sequence at path `p` are returned as the same result, with the
path `p`: the `Key` does not tell which element diverged. -/
theorem cmpJsonArrays_element_counterexample :
    cmpJsonArrays refLib ((freshResult "t").kjoin "p")
        (.arr [.obj [("type", .str "integer"), ("value", .str "1")],
          .obj [("type", .str "integer"), ("value", .str "0")]])
        (.arr [.obj [("type", .str "integer"), ("value", .str "2")],
          .obj [("type", .str "integer"), ("value", .str "0")]])
      = some { freshResult "t" with
          Key := "p"
          Failure := "Values for key 'p' don't match. Expected a value of '1' but got '2'." }
    ∧ cmpJsonArrays refLib ((freshResult "t").kjoin "p")
        (.arr [.obj [("type", .str "integer"), ("value", .str "0")],
          .obj [("type", .str "integer"), ("value", .str "1")]])
        (.arr [.obj [("type", .str "integer"), ("value", .str "0")],
          .obj [("type", .str "integer"), ("value", .str "2")]])
      = some { freshResult "t" with
          Key := "p"
          Failure := "Values for key 'p' don't match. Expected a value of '1' but got '2'." } := by
  decide

/-! ## The report -/

theorem fprintfScan_plain (cs : List Char) (h : '%' ∉ cs) : fprintfScan 0 cs = cs := by
  induction cs with
  | nil => rfl
  | cons c cs ih =>
    simp only [List.mem_cons, not_or] at h
    have hc : (c == '%') = false := by
      simpa using fun hh => h.1 hh.symm
    simp [fprintfScan, hc, ih h.2]

/-- Text without a percent sign is written as it is. -/
theorem fprintfRef_plain (s : String) (h : '%' ∉ s.toList) : fprintfRef s = s := by
  show String.mk (fprintfScan 0 s.data) = s
  rw [fprintfScan_plain s.data h]

/-- C16.  Report rendering.  `String` hands the failure text to `Fprintf` as
the format (line 206), so that a percent sign in it is read as a verb: the
failure `100%` is rendered as `100%!(NOVERB)`, and the failure that the
comparator reports for the missing key `50%` is not rendered verbatim either.
The other parts of the report are as specified: the first line and the blank
line, the error text after `Error running test: `, `PASSED.` when there is
neither error nor failure, and the failure text verbatim when it has no
percent sign. -/
theorem result_String_format :
    result.String fprintfRef
        { TestName := "t", Err := none, Valid := true, Failure := "100%", Key := "" }
      = "Test: t (valid)\n\n100%!(NOVERB)"
    ∧ (cmpJson refLib (freshResult "t") (.obj [("50%", .obj [])]) (.obj [])).map
        (result.String fprintfRef)
      = some "Test: t (valid)\n\nCould not find key '50%!'(MISSING) in parser output."
    ∧ (∀ (r : result) (err : String), r.Err = some err →
        result.String fprintfRef r
          = "Test: " ++ r.TestName ++ " (" ++ (if r.Valid then "valid" else "invalid")
            ++ ")\n\n" ++ ("Error running test: " ++ err))
    ∧ (∀ r : result, r.failed = false →
        result.String fprintfRef r
          = "Test: " ++ r.TestName ++ " (" ++ (if r.Valid then "valid" else "invalid")
            ++ ")\n\n" ++ "PASSED.")
    ∧ (∀ r : result, r.Err = none → 0 < r.Failure.length → '%' ∉ r.Failure.toList →
        result.String fprintfRef r
          = "Test: " ++ r.TestName ++ " (" ++ (if r.Valid then "valid" else "invalid")
            ++ ")\n\n" ++ r.Failure) := by
  refine ⟨by decide, by decide, ?_, ?_, ?_⟩
  · intro r err h
    simp [result.String, h]
  · intro r h
    simp only [result.failed, Bool.or_eq_false_iff, decide_eq_false_iff_not] at h
    have h1 : r.Err = none := by
      cases hE : r.Err with
      | none => rfl
      | some e => rw [hE] at h; simp at h
    have h2 : ¬ (0 < r.Failure.length) := h.2
    have h3 : fprintfRef "PASSED." = "PASSED." := by decide
    simp [result.String, h1, h2, h3]
  · intro r h1 h2 h3
    simp [result.String, h1, h2, fprintfRef_plain r.Failure h3]

theorem result_String_format_witness :
    result.String fprintfRef
        { TestName := "t", Err := some "exit status 2", Valid := false, Failure := "",
          Key := "" }
      = "Test: t (invalid)\n\nError running test: exit status 2"
    ∧ result.String fprintfRef (freshResult "t") = "Test: t (valid)\n\nPASSED."
    ∧ result.String fprintfRef ((freshResult "t").failedf "Key 'a' differs.")
      = "Test: t (valid)\n\nKey 'a' differs." :=
  ⟨result_String_format.2.2.1 _ "exit status 2" rfl,
   result_String_format.2.2.2.1 (freshResult "t") (by decide),
   result_String_format.2.2.2.2 ((freshResult "t").failedf "Key 'a' differs.") rfl
     (by decide) (by decide)⟩

/-! ## Key paths -/

theorem kjoin_Key_of_empty (r : result) (k : String) (h : r.Key = "") :
    (r.kjoin k).Key = k := by
  simp [result.kjoin, h]

theorem kjoin_Key_of_ne (r : result) (k : String) (h : r.Key ≠ "") :
    (r.kjoin k).Key = r.Key ++ "." ++ k := by
  have : ¬ r.Key.length = 0 := by
    intro hl
    apply h
    apply String.ext
    exact List.length_eq_zero.1 hl
  simp [result.kjoin, this, String.append_assoc]

theorem append_ne_empty_left (a b : String) (h : a ≠ "") : a ++ b ≠ "" := by
  intro hab
  apply h
  have := congrArg String.length hab
  simp only [String.length_append] at this
  apply String.ext
  apply List.length_eq_zero.1
  have h0 : ("" : String).length = 0 := rfl
  show a.length = 0
  omega

theorem descend_Key_go (ks : List String) (r : result) (h : r.Key ≠ "") :
    (descend r ks).Key = String.intercalate.go r.Key "." ks := by
  induction ks generalizing r with
  | nil => rfl
  | cons k ks ih =>
    have hk := kjoin_Key_of_ne r k h
    have hne : (r.kjoin k).Key ≠ "" := by
      rw [hk, String.append_assoc]
      exact append_ne_empty_left _ _ h
    show (descend (r.kjoin k) ks).Key = String.intercalate.go (r.Key ++ "." ++ k) "." ks
    rw [ih (r.kjoin k) hne, hk]

/-- From the empty path, descending through keys of which the first is not the
empty string yields the keys joined with a dot. -/
theorem descend_Key (ks : List String) (r : result) (h : r.Key = "")
    (hk : ∀ k rest, ks = k :: rest → rest ≠ [] → k ≠ "") :
    (descend r ks).Key = ".".intercalate ks := by
  cases ks with
  | nil => simpa [descend] using h
  | cons k rest =>
    have h1 := kjoin_Key_of_empty r k h
    cases rest with
    | nil => simpa [descend, String.intercalate, String.intercalate.go] using h1
    | cons k' rest =>
      have hne : (r.kjoin k).Key ≠ "" := by
        rw [h1]; exact hk k (k' :: rest) rfl (by simp)
      show (descend (r.kjoin k) (k' :: rest)).Key = String.intercalate.go k "." (k' :: rest)
      rw [descend_Key_go _ _ hne, h1]

theorem intercalate_go_data (ks : List String) (acc : String) :
    (String.intercalate.go acc "." ks).data
      = acc.data ++ dotTail ks := by
  induction ks generalizing acc with
  | nil => simp [String.intercalate.go, dotTail]
  | cons k ks ih =>
    simp only [String.intercalate.go, ih, String.data_append, dotTail,
      List.append_assoc]
    rfl

theorem intercalate_cons_data (k : String) (ks : List String) :
    (".".intercalate (k :: ks)).data = k.data ++ dotTail ks := by
  simp [String.intercalate, intercalate_go_data]

/-- Two texts without a dot, each followed by nothing or by a dot and more,
are equal when the whole texts are. -/
theorem split_at_dot (a b X X' : List Char) (ha : '.' ∉ a) (hb : '.' ∉ b)
    (hX : X = [] ∨ ∃ X0, X = '.' :: X0) (hX' : X' = [] ∨ ∃ X0, X' = '.' :: X0)
    (h : a ++ X = b ++ X') : a = b ∧ X = X' := by
  induction a generalizing b with
  | nil =>
    cases b with
    | nil => exact ⟨rfl, by simpa using h⟩
    | cons c b =>
      exfalso
      rcases hX with hX | ⟨X0, hX⟩
      · rw [hX] at h; simp at h
      · rw [hX] at h
        simp only [List.nil_append, List.cons_append, List.cons.injEq] at h
        exact hb (by rw [← h.1]; exact List.mem_cons_self _ _)
  | cons c a ih =>
    cases b with
    | nil =>
      exfalso
      rcases hX' with hX' | ⟨X0, hX'⟩
      · rw [hX'] at h; simp at h
      · rw [hX'] at h
        simp only [List.nil_append, List.cons_append, List.cons.injEq] at h
        exact ha (by rw [h.1]; exact List.mem_cons_self _ _)
    | cons c' b =>
      simp only [List.cons_append, List.cons.injEq] at h
      have ha' : '.' ∉ a := fun hh => ha (List.mem_cons_of_mem _ hh)
      have hb' : '.' ∉ b := fun hh => hb (List.mem_cons_of_mem _ hh)
      obtain ⟨h1, h2⟩ := ih b ha' hb' h.2
      exact ⟨by rw [h.1, h1], h2⟩

theorem bind_dot_shape (ks : List String) :
    dotTail ks = []
      ∨ ∃ X0, dotTail ks = '.' :: X0 := by
  cases ks with
  | nil => exact Or.inl rfl
  | cons k ks => exact Or.inr ⟨_, rfl⟩

theorem bind_dot_inj (ks ks' : List String) (h1 : ∀ k ∈ ks, dotFree k)
    (h2 : ∀ k ∈ ks', dotFree k)
    (h : dotTail ks = dotTail ks') :
    ks = ks' := by
  induction ks generalizing ks' with
  | nil =>
    cases ks' with
    | nil => rfl
    | cons k' ks' => simp [dotTail] at h
  | cons k ks ih =>
    cases ks' with
    | nil => simp [dotTail] at h
    | cons k' ks' =>
      simp only [dotTail, List.cons_append, List.cons.injEq, true_and] at h
      obtain ⟨hk, hrest⟩ := split_at_dot k.data k'.data _ _
        (h1 k (List.mem_cons_self _ _)) (h2 k' (List.mem_cons_self _ _))
        (bind_dot_shape ks) (bind_dot_shape ks') h
      rw [String.ext hk, ih ks' (fun x hx => h1 x (List.mem_cons_of_mem _ hx))
        (fun x hx => h2 x (List.mem_cons_of_mem _ hx)) hrest]

/-- Joining with dots is injective on lists of non-empty keys without a dot. -/
theorem intercalate_inj (ks ks' : List String) (h1 : ∀ k ∈ ks, k ≠ "" ∧ dotFree k)
    (h2 : ∀ k ∈ ks', k ≠ "" ∧ dotFree k)
    (h : ".".intercalate ks = ".".intercalate ks') : ks = ks' := by
  have hd := congrArg String.data h
  have hne : ∀ (k : String) (l : List String) (X : List Char), k ≠ "" →
      ¬ ([] = k.data ++ X) := by
    intro k l X hk hh
    apply hk
    apply String.ext
    have := congrArg List.length hh
    simp only [List.length_nil, List.length_append] at this
    exact List.length_eq_zero.1 (by omega)
  cases ks with
  | nil =>
    cases ks' with
    | nil => rfl
    | cons k' ks' =>
      rw [intercalate_cons_data] at hd
      exact absurd hd (hne k' ks' _ (h2 k' (List.mem_cons_self _ _)).1)
  | cons k ks =>
    cases ks' with
    | nil =>
      rw [intercalate_cons_data] at hd
      exact absurd hd.symm (hne k ks _ (h1 k (List.mem_cons_self _ _)).1)
    | cons k' ks' =>
      rw [intercalate_cons_data, intercalate_cons_data] at hd
      obtain ⟨hk, hrest⟩ := split_at_dot k.data k'.data _ _
        (h1 k (List.mem_cons_self _ _)).2 (h2 k' (List.mem_cons_self _ _)).2
        (bind_dot_shape ks) (bind_dot_shape ks') hd
      rw [String.ext hk, bind_dot_inj ks ks'
        (fun x hx => (h1 x (List.mem_cons_of_mem _ hx)).2)
        (fun x hx => (h2 x (List.mem_cons_of_mem _ hx)).2) hrest]

theorem index_cons_value (k : String) (v : JSON) (rest : Table) :
    index ((k, v) :: rest) "value" = if k = "value" then v else index rest "value" := by
  unfold index
  rw [lookup_cons]
  by_cases hk : k = "value"
  · simp [hk]
  · have : ¬ "value" = k := fun h => hk h.symm
    simp [hk, this]

/-! ## Attribution of diagnostics -/

theorem not_beginsWith_of_head (p s : String) (a c : Char) (hp : p.data.head? = some a)
    (hs : s.data.head? = some c) (hne : c ≠ a) : ¬ beginsWith p s := by
  intro h
  obtain ⟨t, ht⟩ := h
  cases hpd : p.data with
  | nil => simp [hpd] at hp
  | cons x xs =>
    rw [hpd] at hp ht
    rw [← ht] at hs
    simp at hp hs
    exact hne (hs.symm.trans hp)

theorem not_parserDefect_of_head (s : String) (c : Char)
    (hs : s.data.head? = some c) (hM : c ≠ 'M') : ¬ parserDefect s :=
  not_beginsWith_of_head _ s 'M' c (by decide) hs hM

theorem not_fixtureDefect_of_head (s : String) (c : Char)
    (hs : s.data.head? = some c) (hB : c ≠ 'B') (hK : c ≠ 'K') : ¬ fixtureDefect s := by
  rintro (h | ⟨p, v, h⟩)
  · exact not_beginsWith_of_head _ s 'B' c (by decide) hs hB h
  · rw [h] at hs
    simp [String.data_append] at hs
    exact hK hs.symm

theorem last_two_ne (a b : List Char) (x y c : Char) (h : x ≠ y) :
    a ++ [x, c] ≠ b ++ [y, c] := by
  intro e
  have := congrArg List.reverse e
  simp at this
  exact h this.1

theorem typeName_last (v : JSON) :
    ∃ (l : List Char) (y : Char), (typeName v).data = l ++ [y] ∧ y ≠ 'e' := by
  cases v
  · exact ⟨"<nil".data, '>', rfl, by decide⟩
  · exact ⟨"boo".data, 'l', rfl, by decide⟩
  · exact ⟨"float6".data, '4', rfl, by decide⟩
  · exact ⟨"strin".data, 'g', rfl, by decide⟩
  · exact ⟨"[]interface \x7b".data, '\x7d', rfl, by decide⟩
  · exact ⟨"map[string]interface \x7b".data, '\x7d', rfl, by decide⟩

/-- A text that begins with `K` and ends in `e.` is no fixture defect: the
message for an expected node of another shape ends in the last letter of a type
name and a full stop. -/
theorem not_fixtureDefect_of_ends (s : String) (l : List Char)
    (hs : s.data = l ++ ['e', '.']) (hh : s.data.head? = some 'K') :
    ¬ fixtureDefect s := by
  rintro (h | ⟨p, v, h⟩)
  · exact not_beginsWith_of_head _ s 'B' 'K' (by decide) hh (by decide) h
  · obtain ⟨l2, y, hy, hne⟩ := typeName_last v
    rw [h] at hs
    simp only [String.data_append, hy] at hs
    have h2 : ∀ (a : List Char), a ++ (l2 ++ [y]) ++ ".".data = (a ++ l2) ++ [y, '.'] := by
      intro a
      simp
    rw [h2] at hs
    exact last_two_ne _ _ y 'e' '.' hne hs

theorem supposed_value_not_fixtureDefect (x : String) :
    ¬ fixtureDefect ("Key '" ++ x ++ "' is supposed to be a value, but the "
        ++ "parser reports it as a table.") :=
  not_fixtureDefect_of_ends _
    ("Key '" ++ x ++ "' is supposed to be a value, but the parser reports it as a tabl").data
    (by simp [String.data_append]) (by simp [String.data_append])

theorem supposed_table_not_fixtureDefect (x : String) :
    ¬ fixtureDefect ("Key '" ++ x ++ "' is supposed to be a table, but the "
        ++ "parser reports it as a value.") :=
  not_fixtureDefect_of_ends _
    ("Key '" ++ x ++ "' is supposed to be a table, but the parser reports it as a valu").data
    (by simp [String.data_append]) (by simp [String.data_append])

theorem attributed_of_neither (ge gt : Prop) (s : String) (h1 : ¬ fixtureDefect s)
    (h2 : ¬ parserDefect s) : Attributed ge gt s :=
  ⟨fun _ => h1, fun _ h => absurd h h2⟩

theorem attributed_of_head (ge gt : Prop) (s : String) (c : Char)
    (hs : s.data.head? = some c) (hB : c ≠ 'B') (hK : c ≠ 'K') (hM : c ≠ 'M') :
    Attributed ge gt s :=
  attributed_of_neither ge gt s (not_fixtureDefect_of_head s c hs hB hK)
    (not_parserDefect_of_head s c hs hM)

/-- A text that begins with `B` is attributed rightly when the expected side is
at fault. -/
theorem attributed_of_bug (ge gt : Prop) (s : String) (hs : s.data.head? = some 'B')
    (h : ¬ ge) : Attributed ge gt s :=
  ⟨fun g => absurd g h, fun _ hp => absurd hp (not_parserDefect_of_head s 'B' hs (by decide))⟩

/-- A text that begins with `M` is attributed rightly when the test side is at
fault. -/
theorem attributed_of_malformed (ge gt : Prop) (s : String)
    (hs : s.data.head? = some 'M') (h : ¬ gt) : Attributed ge gt s :=
  ⟨fun _ => not_fixtureDefect_of_head s 'M' hs (by decide) (by decide),
    fun g => absurd g h⟩

theorem not_fixtureDefect_empty : ¬ fixtureDefect "" := by
  rintro (h | ⟨p, v, h⟩)
  · obtain ⟨t, ht⟩ := h
    have := congrArg List.length ht
    simp at this
  · have := congrArg String.data h
    simp [String.data_append] at this

theorem not_parserDefect_empty : ¬ parserDefect "" := by
  rintro ⟨t, ht⟩
  have := congrArg List.length ht
  simp at this

theorem attributed_of_not_expected (ge gt : Prop) (s : String) (h : ¬ ge)
    (hp : ¬ parserDefect s) : Attributed ge gt s :=
  ⟨fun g => absurd g h, fun _ h2 => absurd h2 hp⟩

theorem genericValue_arr (lib : GoLib) (xs : List JSON) :
    genericValue lib (.arr xs) = genericElems lib xs := by
  rw [genericValue]

theorem genericValue_table (lib : GoLib) (m : Table) (h : isValue m = false) :
    genericValue lib (.obj m) = genericMembers lib m := by
  rw [genericValue]
  simp [h]

theorem genericValue_type (lib : GoLib) (m : Table) (h : isValue m = true)
    (g : genericValue lib (.obj m) = true) : ∃ ty, index m "type" = .str ty := by
  rw [genericValue] at g
  simp only [h, if_true] at g
  split at g
  · exact ⟨_, by assumption⟩
  · cases g

theorem genericValue_array (lib : GoLib) (m : Table) (h : isValue m = true)
    (hty : index m "type" = .str "array") (g : genericValue lib (.obj m) = true) :
    genericArrayAt lib m = true := by
  rw [genericValue] at g
  simpa [h, hty] using g

theorem genericValue_float (lib : GoLib) (m : Table) (h : isValue m = true)
    (hty : index m "type" = .str "float") (g : genericValue lib (.obj m) = true) :
    floatString lib (fun _ => true) (index m "value") = true := by
  rw [genericValue] at g
  simpa [h, hty] using g

theorem genericValue_shape (lib : GoLib) (v : JSON) (g : genericValue lib v = true) :
    (∃ xs, v = .arr xs) ∨ ∃ m, v = .obj m := by
  cases v with
  | arr xs => exact Or.inl ⟨xs, rfl⟩
  | obj m => exact Or.inr ⟨m, rfl⟩
  | _ => simp [genericValue] at g

theorem genericLeafArray_shape (lib : GoLib) (v : JSON)
    (g : genericLeafArray lib v = true) : ∃ xs, v = .arr xs := by
  cases v with
  | arr xs => exact ⟨xs, rfl⟩
  | _ => simp [genericLeafArray] at g

theorem genericLeaves_elems (lib : GoLib) (xs : List JSON)
    (g : genericLeaves lib xs = true) : genericElems lib xs = true := by
  induction xs with
  | nil => simp [genericElems]
  | cons x xs ih =>
    simp only [genericLeaves, Bool.and_eq_true] at g
    simp only [genericElems, Bool.and_eq_true]
    exact ⟨g.1.2, ih g.2⟩

theorem genericMembers_index (lib : GoLib) (m : Table) (k : String)
    (g : genericMembers lib m = true) (hk : hasKey m k = true) :
    genericValue lib (index m k) = true := by
  induction m with
  | nil => simp [hasKey] at hk
  | cons kv m ih =>
    obtain ⟨k', v⟩ := kv
    simp only [genericMembers, Bool.and_eq_true] at g
    unfold hasKey at hk ih
    unfold index at ih ⊢
    rw [lookup_cons] at hk ⊢
    by_cases h : k = k'
    · simp only [h, if_true, Option.getD_some]
      exact g.1
    · simp only [h, if_false] at hk ⊢
      exact ih g.2 hk

theorem genericArrayAt_index (lib : GoLib) (m : Table)
    (g : genericArrayAt lib m = true) : genericLeafArray lib (index m "value") = true := by
  induction m with
  | nil => simp [genericArrayAt] at g
  | cons kv m ih =>
    obtain ⟨k, v⟩ := kv
    rw [index_cons_value]
    by_cases h : k = "value"
    · simpa [genericArrayAt, h] using g
    · simp only [h, if_false]
      apply ih
      simpa [genericArrayAt, h] using g

/-- The diagnostic of `cmpFloats` is attributed to the side whose text does not
parse. -/
theorem cmpFloats_attr (lib : GoLib) (r : result) (e t : String) (ge gt : Prop)
    (hge : ge → (lib.ParseFloat e).isSome = true)
    (hgt : gt → (lib.ParseFloat t).isSome = true) :
    (cmpFloats lib r e t).Failure = r.Failure
      ∨ Attributed ge gt (cmpFloats lib r e t).Failure := by
  unfold cmpFloats
  split
  · rename_i h1
    refine Or.inr (attributed_of_bug _ _ _ (by simp [result.failedf, String.data_append]) ?_)
    intro g
    simpa [h1] using hge g
  · split
    · rename_i h2
      refine Or.inr (attributed_of_malformed _ _ _
        (by simp [result.failedf, String.data_append]) ?_)
      intro g
      simpa [h2] using hgt g
    · split
      · exact Or.inr (attributed_of_head _ _ _ 'V'
          (by simp [result.failedf, String.data_append]) (by decide) (by decide) (by decide))
      · exact Or.inl rfl

theorem floatString_isSome (lib : GoLib) (s : String)
    (h : floatString lib (fun _ => true) (.str s) = true) :
    (lib.ParseFloat s).isSome = true := by
  unfold floatString at h
  cases hp : lib.ParseFloat s with
  | none => simp [hp] at h
  | some x => rfl

/-- The diagnostic of a comparison of two leaves is attributed rightly, or it is
what the call of `cmpJsonArrays` on two `array` leaves returns. -/
theorem cmpJsonValuesWith_attr (lib : GoLib) (arrays : JSON → Option result)
    (r : result) (e t : Table) (r' : result)
    (he : isValue e = true) (ht : isValue t = true)
    (h : cmpJsonValuesWith lib arrays r e t = some r') :
    (r'.Failure = r.Failure
        ∨ Attributed (genericValue lib (.obj e) = true) (genericValue lib (.obj t) = true)
            r'.Failure)
      ∨ (index e "type" = .str "array" ∧ index t "type" = .str "array"
          ∧ arrays (index t "value") = some r') := by
  unfold cmpJsonValuesWith at h
  split at h
  · rename_i etype hte
    split at h
    · rename_i ttype htt
      split at h
      · cases h
        exact Or.inl (Or.inr (attributed_of_head _ _ _ 'T'
          (by simp [result.valMismatch, result.failedf, String.data_append])
          (by decide) (by decide) (by decide)))
      · rename_i hne
        have hty : etype = ttype := by simpa using hne
        split at h
        · rename_i ha
          have ha' : etype = "array" := by simpa using ha
          refine Or.inr ⟨by rw [hte, ha'], by rw [htt, ← hty, ha'], h⟩
        · split at h
          · rename_i hf
            have hf' : etype = "float" := by simpa using hf
            split at h
            · rename_i enum hev
              split at h
              · rename_i tnum htv
                cases h
                refine Or.inl (cmpFloats_attr lib r enum tnum _ _ ?_ ?_)
                · intro g
                  have := genericValue_float lib e he (by rw [hte, hf']) g
                  rw [hev] at this
                  exact floatString_isSome lib enum this
                · intro g
                  have := genericValue_float lib t ht (by rw [htt, ← hty, hf']) g
                  rw [htv] at this
                  exact floatString_isSome lib tnum this
              · rename_i tv htv
                cases h
                refine Or.inl (Or.inr (attributed_of_malformed _ _ _
                  (by simp [result.failedf, String.data_append]) ?_))
                intro g
                have := genericValue_float lib t ht (by rw [htt, ← hty, hf']) g
                cases hv : index t "value" with
                | str s => exact htv s hv
                | _ => simp [hv, floatString] at this
            · rename_i ev hev
              cases h
              refine Or.inl (Or.inr (attributed_of_bug _ _ _
                (by simp [result.failedf, String.data_append]) ?_))
              intro g
              have := genericValue_float lib e he (by rw [hte, hf']) g
              cases hv : index e "value" with
              | str s => exact hev s hv
              | _ => simp [hv, floatString] at this
          · split at h
            · cases h
            · cases h
              exact Or.inl (Or.inl rfl)
            · cases h
              exact Or.inl (Or.inr (attributed_of_head _ _ _ 'V'
                (by simp [result.failedf, String.data_append])
                (by decide) (by decide) (by decide)))
    · rename_i ty htt
      cases h
      refine Or.inl (Or.inr (attributed_of_malformed _ _ _
        (by simp [result.failedf, String.data_append]) ?_))
      intro g
      obtain ⟨s, hs⟩ := genericValue_type lib t ht g
      exact htt s hs
  · rename_i ty hte
    cases h
    refine Or.inl (Or.inr (attributed_of_bug _ _ _
      (by simp [result.failedf, String.data_append]) ?_))
    intro g
    obtain ⟨s, hs⟩ := genericValue_type lib e he g
    exact hte s hs

/-- The diagnostic of `cmpJsonArrays` on an expected slice is attributed
rightly, or it is what the loop over the elements returns. -/
theorem cmpJsonArraysFrom_attr (each : List JSON → Option result) (r : result)
    (ea : List JSON) (t : JSON) (r' : result) (ge gt : Prop)
    (hgt : gt → (∃ ta, t = .arr ta) ∨ ∃ m, t = .obj m)
    (h : cmpJsonArraysFrom each r ea t = some r') :
    Attributed ge gt r'.Failure ∨ ∃ ta, t = .arr ta ∧ each ta = some r' := by
  unfold cmpJsonArraysFrom at h
  split at h
  · split at h
    · cases h
      exact Or.inl (attributed_of_head _ _ _ 'A'
        (by simp [result.failedf, String.data_append]) (by decide) (by decide) (by decide))
    · exact Or.inr ⟨_, rfl, h⟩
  · rename_i hna
    cases h
    refine Or.inl ⟨fun _ => not_fixtureDefect_of_head _ 'M'
      (by simp [result.failedf, String.data_append]) (by decide) (by decide), ?_⟩
    intro g _
    rcases hgt g with ⟨ta, rfl⟩ | ⟨m, rfl⟩
    · exact absurd rfl (hna ta)
    · rfl

/-- The diagnostic of `cmpJsonMaps` is attributed rightly, or it is what the
call of `cmpJsonArrays` on two `array` leaves or the loop over the bindings of
two untagged tables returns. -/
theorem cmpJsonMapsWith_attr (lib : GoLib) (arrays : JSON → Option result)
    (each : Table → Option result) (r : result) (e : Table) (test : JSON) (r' : result)
    (h : cmpJsonMapsWith lib arrays each r e test = some r') :
    (r'.Failure = r.Failure
        ∨ Attributed (genericValue lib (.obj e) = true) (genericValue lib test = true)
            r'.Failure)
      ∨ ∃ t, test = .obj t ∧
        ((isValue e = true ∧ isValue t = true ∧ index e "type" = .str "array"
            ∧ index t "type" = .str "array" ∧ arrays (index t "value") = some r')
          ∨ (isValue e = false ∧ isValue t = false ∧ missingKey e t = none
            ∧ each t = some r')) := by
  cases test with
  | obj t =>
    by_cases he : isValue e = true <;> by_cases ht : isValue t = true
    · simp only [cmpJsonMapsWith, he, ht, Bool.not_true, Bool.and_false, Bool.false_and,
        Bool.and_self, Bool.false_eq_true, if_false, if_true] at h
      rcases cmpJsonValuesWith_attr lib arrays r e t r' he ht h with h1 | ⟨h1, h2, h3⟩
      · exact Or.inl h1
      · exact Or.inr ⟨t, rfl, Or.inl ⟨he, ht, h1, h2, h3⟩⟩
    · have ht' : isValue t = false := by simpa using ht
      simp only [cmpJsonMapsWith, he, ht', Bool.not_false, Bool.and_self, if_true,
        Option.some.injEq] at h
      subst h
      exact Or.inl (Or.inr ⟨fun _ => supposed_value_not_fixtureDefect r.Key,
        fun _ hp => absurd hp (not_parserDefect_of_head _ 'K'
          (by simp [result.failedf, String.data_append]) (by decide))⟩)
    · have he' : isValue e = false := by simpa using he
      simp only [cmpJsonMapsWith, he', ht, Bool.not_true, Bool.not_false, Bool.and_false,
        Bool.false_and, Bool.and_self, Bool.false_eq_true, if_false, if_true,
        Option.some.injEq] at h
      subst h
      exact Or.inl (Or.inr ⟨fun _ => supposed_table_not_fixtureDefect r.Key,
        fun _ hp => absurd hp (not_parserDefect_of_head _ 'K'
          (by simp [result.failedf, String.data_append]) (by decide))⟩)
    · have he' : isValue e = false := by simpa using he
      have ht' : isValue t = false := by simpa using ht
      simp only [cmpJsonMapsWith, he', ht', Bool.false_and, Bool.not_false, Bool.and_false,
        Bool.false_eq_true, if_false] at h
      cases h1 : missingKey e t with
      | some k =>
        simp only [h1, Option.some.injEq] at h
        subst h
        exact Or.inl (Or.inr (attributed_of_head _ _ _ 'C'
          (by simp [result.failedf, String.data_append]) (by decide) (by decide) (by decide)))
      | none =>
        cases h2 : missingKey t e with
        | some k =>
          simp only [h1, h2, Option.some.injEq] at h
          subst h
          exact Or.inl (Or.inr (attributed_of_head _ _ _ 'C'
            (by simp [result.failedf, String.data_append])
            (by decide) (by decide) (by decide)))
        | none =>
          simp only [h1, h2] at h
          exact Or.inr ⟨t, rfl, Or.inr ⟨he', ht', h1, h⟩⟩
  | _ =>
    simp only [cmpJsonMapsWith, Option.some.injEq] at h
    subst h
    exact Or.inl (Or.inr (attributed_of_head _ _ _ 'T'
      (by simp [result.mismatch, result.failedf, String.data_append])
      (by decide) (by decide) (by decide)))

mutual
/-- The diagnostic that a comparison adds is attributed rightly: it is no
fixture defect when the expected tree satisfies the contract, and when the test
tree does it is a parser-output defect only as the message of `cmpJsonArrays`
for a table. -/
theorem attr_cmpJson (lib : GoLib) :
    ∀ (e : JSON) (r : result) (t : JSON) (r' : result), cmpJson lib r e t = some r' →
      r'.Failure = r.Failure
        ∨ Attributed (genericValue lib e = true) (genericValue lib t = true) r'.Failure
  | .obj m, r, t, r', h => by
    simp only [cmpJson] at h
    rcases cmpJsonMapsWith_attr lib _ _ r m t r' h with h1 | ⟨tt, rfl, hc⟩
    · exact h1
    · rcases hc with ⟨he, ht, hte, htt, ha⟩ | ⟨he, ht, hk, hl⟩
      · rcases attr_cmpJsonArraysAt lib m r _ r' ha with h1 | h1
        · exact Or.inl h1
        · exact Or.inr ⟨fun g => h1.1 (genericValue_array lib m he hte g),
            fun g => h1.2 (genericArrayAt_index lib tt (genericValue_array lib tt ht htt g))⟩
      · rcases attr_cmpJsonMapsEach lib m r tt r' hl with h1 | h1
        · exact Or.inl h1
        · refine Or.inr ⟨fun g => h1.1 (by rw [← genericValue_table lib m he]; exact g),
            fun g => h1.2 ?_⟩
          intro k hkm
          rw [genericValue_table lib tt ht] at g
          exact genericMembers_index lib tt k g ((missingKey_eq_none m tt).1 hk k hkm)
  | .arr ea, r, t, r', h => by
    simp only [cmpJson] at h
    rcases cmpJsonArraysFrom_attr _ r ea t r' (genericValue lib (.arr ea) = true)
      (genericValue lib t = true) (genericValue_shape lib t) h with h1 | ⟨ta, rfl, he⟩
    · exact Or.inr h1
    · rcases attr_cmpJsonArraysEach lib ea r ta r' he with h1 | h1
      · exact Or.inl h1
      · exact Or.inr ⟨fun g => h1.1 (by rw [← genericValue_arr]; exact g),
          fun g => h1.2 (by rw [← genericValue_arr]; exact g)⟩
  | .null, r, t, r', h => by
    simp only [cmpJson, Option.some.injEq] at h
    subst h
    exact Or.inr (attributed_of_not_expected _ _ _ (by simp [genericValue])
      (not_parserDefect_of_head _ 'K' (by simp [result.failedf, String.data_append])
        (by decide)))
  | .bool _, r, t, r', h => by
    simp only [cmpJson, Option.some.injEq] at h
    subst h
    exact Or.inr (attributed_of_not_expected _ _ _ (by simp [genericValue])
      (not_parserDefect_of_head _ 'K' (by simp [result.failedf, String.data_append])
        (by decide)))
  | .num _, r, t, r', h => by
    simp only [cmpJson, Option.some.injEq] at h
    subst h
    exact Or.inr (attributed_of_not_expected _ _ _ (by simp [genericValue])
      (not_parserDefect_of_head _ 'K' (by simp [result.failedf, String.data_append])
        (by decide)))
  | .str _, r, t, r', h => by
    simp only [cmpJson, Option.some.injEq] at h
    subst h
    exact Or.inr (attributed_of_not_expected _ _ _ (by simp [genericValue])
      (not_parserDefect_of_head _ 'K' (by simp [result.failedf, String.data_append])
        (by decide)))
termination_by structural e => e
/-- The attribution of the diagnostic of `cmpJsonArrays` on the `value` fields
of two `array` leaves. -/
theorem attr_cmpJsonArrays (lib : GoLib) :
    ∀ (e : JSON) (r : result) (t : JSON) (r' : result),
      cmpJsonArrays lib r e t = some r' →
      r'.Failure = r.Failure
        ∨ Attributed (genericLeafArray lib e = true) (genericLeafArray lib t = true)
            r'.Failure
  | .arr ea, r, t, r', h => by
    simp only [cmpJsonArrays] at h
    rcases cmpJsonArraysFrom_attr _ r ea t r' (genericLeafArray lib (.arr ea) = true)
      (genericLeafArray lib t = true)
      (fun g => Or.inl (genericLeafArray_shape lib t g)) h with h1 | ⟨ta, rfl, he⟩
    · exact Or.inr h1
    · rcases attr_cmpJsonArraysEach lib ea r ta r' he with h1 | h1
      · exact Or.inl h1
      · exact Or.inr
          ⟨fun g => h1.1 (genericLeaves_elems lib ea (by simpa [genericLeafArray] using g)),
            fun g => h1.2 (genericLeaves_elems lib ta (by simpa [genericLeafArray] using g))⟩
  | .obj _, r, t, r', h => by
    simp only [cmpJsonArrays, Option.some.injEq] at h
    subst h
    exact Or.inr (attributed_of_bug _ _ _ (by simp [result.failedf, String.data_append])
      (by simp [genericLeafArray]))
  | .null, r, t, r', h => by
    simp only [cmpJsonArrays, Option.some.injEq] at h
    subst h
    exact Or.inr (attributed_of_bug _ _ _ (by simp [result.failedf, String.data_append])
      (by simp [genericLeafArray]))
  | .bool _, r, t, r', h => by
    simp only [cmpJsonArrays, Option.some.injEq] at h
    subst h
    exact Or.inr (attributed_of_bug _ _ _ (by simp [result.failedf, String.data_append])
      (by simp [genericLeafArray]))
  | .num _, r, t, r', h => by
    simp only [cmpJsonArrays, Option.some.injEq] at h
    subst h
    exact Or.inr (attributed_of_bug _ _ _ (by simp [result.failedf, String.data_append])
      (by simp [genericLeafArray]))
  | .str _, r, t, r', h => by
    simp only [cmpJsonArrays, Option.some.injEq] at h
    subst h
    exact Or.inr (attributed_of_bug _ _ _ (by simp [result.failedf, String.data_append])
      (by simp [genericLeafArray]))
termination_by structural e => e
/-- The attribution of the diagnostic of the loop over the elements. -/
theorem attr_cmpJsonArraysEach (lib : GoLib) :
    ∀ (ea : List JSON) (r : result) (ta : List JSON) (r' : result),
      cmpJsonArraysEach lib r ea ta = some r' →
      r'.Failure = r.Failure
        ∨ Attributed (genericElems lib ea = true) (genericElems lib ta = true) r'.Failure
  | [], r, ta, r', h => by
    simp only [cmpJsonArraysEach, Option.some.injEq] at h
    subst h
    exact Or.inl rfl
  | _ :: _, r, [], r', h => by
    simp [cmpJsonArraysEach] at h
  | x :: ea, r, y :: ta, r', h => by
    simp only [cmpJsonArraysEach] at h
    cases hc : cmpJson lib r x y with
    | none => simp [hc] at h
    | some sub =>
      simp only [hc] at h
      by_cases hs : sub.failed = true
      · simp only [hs, if_true, Option.some.injEq] at h
        subst h
        rcases attr_cmpJson lib x r y sub hc with h1 | h1
        · exact Or.inl h1
        · exact Or.inr
            ⟨fun g => h1.1 (by simp only [genericElems, Bool.and_eq_true] at g; exact g.1),
              fun g => h1.2 (by simp only [genericElems, Bool.and_eq_true] at g; exact g.1)⟩
      · have hs' : sub.failed = false := by simpa using hs
        simp only [hs', Bool.false_eq_true, if_false] at h
        rcases attr_cmpJsonArraysEach lib ea r ta r' h with h1 | h1
        · exact Or.inl h1
        · exact Or.inr
            ⟨fun g => h1.1 (by simp only [genericElems, Bool.and_eq_true] at g; exact g.2),
              fun g => h1.2 (by simp only [genericElems, Bool.and_eq_true] at g; exact g.2)⟩
termination_by structural e => e
/-- The attribution of the diagnostic of the call of `cmpJsonArrays` on the
`value` field of the expected leaf. -/
theorem attr_cmpJsonArraysAt (lib : GoLib) :
    ∀ (m : Table) (r : result) (tv : JSON) (r' : result),
      cmpJsonArraysAt lib r m tv = some r' →
      r'.Failure = r.Failure
        ∨ Attributed (genericArrayAt lib m = true) (genericLeafArray lib tv = true)
            r'.Failure
  | [], r, tv, r', h => by
    simp only [cmpJsonArraysAt, Option.some.injEq] at h
    subst h
    exact Or.inr (attributed_of_bug _ _ _ (by simp [result.failedf, String.data_append])
      (by simp [genericArrayAt]))
  | (k, v) :: rest, r, tv, r', h => by
    simp only [cmpJsonArraysAt] at h
    by_cases hk : (k == "value") = true
    · simp only [hk, if_true] at h
      rcases attr_cmpJsonArrays lib v r tv r' h with h1 | h1
      · exact Or.inl h1
      · exact Or.inr ⟨fun g => h1.1 (by simpa [genericArrayAt, hk] using g), h1.2⟩
    · simp only [hk, if_false] at h
      rcases attr_cmpJsonArraysAt lib rest r tv r' h with h1 | h1
      · exact Or.inl h1
      · exact Or.inr ⟨fun g => h1.1 (by simpa [genericArrayAt, hk] using g), h1.2⟩
termination_by structural e => e
/-- The attribution of the diagnostic of the loop over the bindings. -/
theorem attr_cmpJsonMapsEach (lib : GoLib) :
    ∀ (m : Table) (r : result) (tt : Table) (r' : result),
      cmpJsonMapsEach lib r m tt = some r' →
      r'.Failure = r.Failure
        ∨ Attributed (genericMembers lib m = true)
            (∀ k ∈ keys m, genericValue lib (index tt k) = true) r'.Failure
  | [], r, tt, r', h => by
    simp only [cmpJsonMapsEach, Option.some.injEq] at h
    subst h
    exact Or.inl rfl
  | (k, v) :: rest, r, tt, r', h => by
    simp only [cmpJsonMapsEach] at h
    cases hc : cmpJson lib (r.kjoin k) v (index tt k) with
    | none => simp [hc] at h
    | some sub =>
      simp only [hc] at h
      by_cases hs : sub.failed = true
      · simp only [hs, if_true, Option.some.injEq] at h
        subst h
        rcases attr_cmpJson lib v (r.kjoin k) (index tt k) sub hc with h1 | h1
        · exact Or.inl (h1.trans (kjoin_Failure r k))
        · exact Or.inr
            ⟨fun g => h1.1 (by simp only [genericMembers, Bool.and_eq_true] at g; exact g.1),
              fun g => h1.2 (g k (by simp [keys]))⟩
      · have hs' : sub.failed = false := by simpa using hs
        simp only [hs', Bool.false_eq_true, if_false] at h
        rcases attr_cmpJsonMapsEach lib rest r tt r' h with h1 | h1
        · exact Or.inl h1
        · exact Or.inr
            ⟨fun g => h1.1 (by simp only [genericMembers, Bool.and_eq_true] at g; exact g.2),
              fun g => h1.2 (fun k' hk' => g k' (List.mem_cons_of_mem _ hk'))⟩
termination_by structural e => e
end

/-- C13.  Fixture defects are attributable to the expected side: when the
expected tree satisfies the Generic Value contract, whatever the test tree is,
a result that `cmpJson` returns from a result without failure is no
fixture-defect diagnostic: its `Failure` does not begin with `BUG in test case`
and is not the message for an expected node that should be a map or a list of
maps. -/
theorem cmpJson_no_fixture_defect (lib : GoLib) (r : result) (e t : JSON) (r' : result)
    (hr : r.Failure = "") (he : genericValue lib e = true)
    (h : cmpJson lib r e t = some r') : ¬ fixtureDefect r'.Failure := by
  rcases attr_cmpJson lib e r t r' h with h1 | h1
  · rw [h1, hr]
    exact not_fixtureDefect_empty
  · exact h1.1 he

theorem cmpJson_no_fixture_defect_witness :
    genericValue refLib (.obj [("a", .obj [("type", .str "integer"), ("value", .str "1")])])
        = true
      ∧ cmpJson refLib (freshResult "t")
          (.obj [("a", .obj [("type", .str "integer"), ("value", .str "1")])])
          (.obj [("a", .obj [("type", .num 0), ("value", .str "1")])])
        = some { freshResult "t" with
            Key := "a"
            Failure := "Malformed parser output. 'type' should be a string, but it is a float64." }
      ∧ ¬ fixtureDefect
          "Malformed parser output. 'type' should be a string, but it is a float64." :=
  ⟨by decide, by decide,
    cmpJson_no_fixture_defect refLib (freshResult "t")
      (.obj [("a", .obj [("type", .str "integer"), ("value", .str "1")])])
      (.obj [("a", .obj [("type", .num 0), ("value", .str "1")])])
      { freshResult "t" with
        Key := "a"
        Failure := "Malformed parser output. 'type' should be a string, but it is a float64." }
      rfl (by decide) (by decide)⟩

/-- C14, as amended.  Parser-output defects are attributable to the test side,
but for one message: when the test tree satisfies the Generic Value contract,
whatever the expected tree is, the `Failure` of a result that `cmpJson` returns
from a result without failure does not begin with `Malformed parser output`,
unless it is the message of `cmpJsonArrays` for a test node that is a table;
and when the expected tree satisfies the contract too, it is no fixture-defect
diagnostic either. -/
theorem cmpJson_parser_defect (lib : GoLib) (r : result) (e t : JSON) (r' : result)
    (hr : r.Failure = "") (ht : genericValue lib t = true)
    (h : cmpJson lib r e t = some r') :
    (¬ parserDefect r'.Failure ∨ r'.Failure = arraysTableMsg)
      ∧ (genericValue lib e = true → ¬ fixtureDefect r'.Failure) := by
  rcases attr_cmpJson lib e r t r' h with h1 | h1
  · rw [h1, hr]
    exact ⟨Or.inl not_parserDefect_empty, fun _ => not_fixtureDefect_empty⟩
  · refine ⟨?_, h1.1⟩
    by_cases hp : parserDefect r'.Failure
    · exact Or.inr (h1.2 ht hp)
    · exact Or.inl hp

theorem cmpJson_parser_defect_witness :
    genericValue refLib (.arr [.obj [("type", .str "float"), ("value", .str "1.5")]]) = true
      ∧ cmpJson refLib (freshResult "t")
          (.arr [.obj [("type", .str "float"), ("value", .str "x")]])
          (.arr [.obj [("type", .str "float"), ("value", .str "1.5")]])
        = some ((freshResult "t").failedf
            "BUG in test case. Could not read 'x' as a float value for key ''.")
      ∧ (¬ parserDefect "BUG in test case. Could not read 'x' as a float value for key ''."
          ∨ "BUG in test case. Could not read 'x' as a float value for key ''."
            = arraysTableMsg) :=
  ⟨by decide, by decide,
    (cmpJson_parser_defect refLib (freshResult "t")
      (.arr [.obj [("type", .str "float"), ("value", .str "x")]])
      (.arr [.obj [("type", .str "float"), ("value", .str "1.5")]])
      ((freshResult "t").failedf
        "BUG in test case. Could not read 'x' as a float value for key ''.")
      rfl (by decide) (by decide)).1⟩

/-- C14, counterexample.  The expected tree binds `a` to a Sequence of one
table, the test tree binds `a` to a table; both satisfy the contract, and the
failure is the message of `cmpJsonArrays` for a table, which begins with
`Malformed parser output`. -/
theorem cmpJson_parser_defect_counterexample :
    genericValue refLib (.obj [("a", .arr [.obj []])]) = true
      ∧ genericValue refLib (.obj [("a", .obj [])]) = true
      ∧ cmpJson refLib (freshResult "t") (.obj [("a", .arr [.obj []])])
          (.obj [("a", .obj [])])
        = some (((freshResult "t").kjoin "a").failedf arraysTableMsg)
      ∧ parserDefect arraysTableMsg
      ∧ arraysTableMsg.data.take 23 = "Malformed parser output".data :=
  ⟨by decide, by decide, by set_option maxRecDepth 8192 in rfl, ⟨_, rfl⟩, by decide⟩

/-! ## The node of a divergence -/

theorem specEquivAt_eq (lib : GoLib) (m : Table) (tv : JSON) :
    specEquivAt lib m tv
      = (isArr (index m "value") && specEquiv lib (index m "value") tv) := by
  induction m with
  | nil => simp [specEquivAt, index, isArr]
  | cons kv rest ih =>
    obtain ⟨k, v⟩ := kv
    rw [index_cons_value]
    by_cases h : k = "value"
    · simp [specEquivAt, h]
    · simp [specEquivAt, h, ih]

theorem specEquivMembers_mem (lib : GoLib) (m tt : Table) (k : String) (v : JSON)
    (h : specEquivMembers lib m tt = true) (hm : (k, v) ∈ m) :
    specEquiv lib v (index tt k) = true := by
  induction m with
  | nil => cases hm
  | cons kv rest ih =>
    obtain ⟨k', v'⟩ := kv
    simp only [specEquivMembers, Bool.and_eq_true] at h
    rcases List.mem_cons.1 hm with h1 | h1
    · cases h1
      exact h.1
    · exact ih h.2 h1

theorem sameKeys_eq_false (m tt : Table) (k : String)
    (h : (k ∈ keys m ∧ hasKey tt k = false) ∨ (k ∈ keys tt ∧ hasKey m k = false)) :
    sameKeys m tt = false := by
  rw [Bool.eq_false_iff]
  intro hs
  simp only [sameKeys, Bool.and_eq_true, List.all_eq_true] at hs
  rcases h with ⟨h1, h2⟩ | ⟨h1, h2⟩
  · rw [hs.1 k h1] at h2; cases h2
  · rw [hs.2 k h1] at h2; cases h2

/-- Two nodes that diverge in themselves are not structurally equivalent. -/
theorem specEquiv_of_nodeDiverges (lib : GoLib) (e t : JSON)
    (h : nodeDiverges lib e t = true) : specEquiv lib e t = false := by
  cases e with
  | obj m =>
    cases t with
    | obj tt =>
      simp only [nodeDiverges] at h
      by_cases hv : (isValue m && isValue tt) = true
      · simp only [hv, if_true] at h
        simp only [specEquiv, hv, if_true]
        cases hte : index m "type" <;> cases htt : index tt "type" <;>
          simp only [leafDiverges, hte, htt] at h ⊢
        rename_i etype ttype
        by_cases hne : etype = ttype
        · subst hne
          by_cases ha : etype = "array"
          · subst ha
            rw [specEquivAt_eq]
            simp_all
          · by_cases hf : etype = "float"
            · subst hf
              simp_all
            · simp_all
        · simp [hne]
      · have hv' : (isValue m && isValue tt) = false := by simpa using hv
        simp only [hv', Bool.false_eq_true, if_false] at h
        simp only [specEquiv, hv', Bool.false_eq_true, if_false]
        cases h1 : isValue m <;> cases h2 : isValue tt <;> simp_all
    | _ => simp [specEquiv]
  | arr ea =>
    cases t with
    | arr ta =>
      simp only [nodeDiverges, bne_iff_ne, ne_eq] at h
      simp only [specEquiv]
      rw [Bool.eq_false_iff]
      intro hs
      exact h (length_eq_of_specEquivElems lib ea ta hs)
    | _ => simp [specEquiv]
  | _ => simp [specEquiv]

/-- Two trees that diverge at some node are not structurally equivalent. -/
theorem specEquiv_of_divergesAt (lib : GoLib) (e t : JSON) (ks : List String)
    (h : DivergesAt lib e t ks) : specEquiv lib e t = false := by
  induction h with
  | here e t h => exact specEquiv_of_nodeDiverges lib e t h
  | key m tt k hm ht h =>
    simp [specEquiv, hm, ht, sameKeys_eq_false m tt k h]
  | member m tt k v ks hm ht hs h c ih =>
    have : specEquivMembers lib m tt = false := by
      rw [Bool.eq_false_iff]
      intro hh
      rw [specEquivMembers_mem lib m tt k v hh h] at ih
      cases ih
    simp [specEquiv, hm, ht, this]
  | elem xs ys i x y ks hl hx hy c ih =>
    simp only [specEquiv]
    exact specEquivElems_eq_false lib i x y xs ys hx hy ih
  | value m tt xs ks hm ht hte htt hv c ih =>
    simp only [specEquiv, hm, ht, Bool.and_self, if_true, hte, htt, beq_self_eq_true,
      Bool.true_and]
    rw [specEquivAt_eq, hv, ih]
    simp

theorem failedf_failed (r : result) (msg : String) (h : 0 < msg.length) :
    (r.failedf msg).failed = true := by
  simp [result.failed, result.failedf, h]

theorem descend_cons (r : result) (k : String) (ks : List String) :
    descend r (k :: ks) = descend (r.kjoin k) ks := rfl

/-- What `cmpFloats` returns: `r` itself, or a failure on two texts that do not
parse to equal numbers. -/
theorem cmpFloats_cases (lib : GoLib) (r : result) (a b : String) :
    cmpFloats lib r a b = r
      ∨ (floatsEqual lib (.str a) (.str b) = false
          ∧ ∃ msg, cmpFloats lib r a b = r.failedf msg) := by
  cases ha : lib.ParseFloat a with
  | none =>
    refine Or.inr ⟨by simp [floatsEqual, ha], ?_⟩
    simp only [cmpFloats, ha]
    exact ⟨_, rfl⟩
  | some x =>
    cases hb : lib.ParseFloat b with
    | none =>
      refine Or.inr ⟨by simp [floatsEqual, ha, hb], ?_⟩
      simp only [cmpFloats, ha, hb]
      exact ⟨_, rfl⟩
    | some y =>
      cases he : float64Eq x y
      · refine Or.inr ⟨by simp [floatsEqual, ha, hb, he], ?_⟩
        simp only [cmpFloats, ha, hb, he, Bool.not_false, if_true]
        exact ⟨_, rfl⟩
      · exact Or.inl (by simp [cmpFloats, ha, hb, he])

/-- What a comparison of two leaves returns: `r` itself, a failure on two leaves
that differ in themselves, or what the call of `cmpJsonArrays` on two `array`
leaves returns. -/
theorem cmpJsonValuesWith_cases (lib : GoLib) (arrays : JSON → Option result)
    (r : result) (e t : Table) (r' : result)
    (h : cmpJsonValuesWith lib arrays r e t = some r') :
    r' = r
      ∨ (leafDiverges lib e t = true ∧ ∃ msg, r' = r.failedf msg)
      ∨ (index e "type" = .str "array" ∧ index t "type" = .str "array"
          ∧ arrays (index t "value") = some r') := by
  unfold cmpJsonValuesWith at h
  cases hte : index e "type" with
  | str etype =>
    simp only [hte] at h
    cases htt : index t "type" with
    | str ttype =>
      simp only [htt] at h
      by_cases hne : etype = ttype
      · subst hne
        simp only [bne_self_eq_false, Bool.false_eq_true, if_false] at h
        by_cases ha : etype = "array"
        · subst ha
          simp only [beq_self_eq_true, if_true] at h
          exact Or.inr (Or.inr ⟨rfl, rfl, h⟩)
        · have ha' : (etype == "array") = false := by simpa using ha
          simp only [ha', Bool.false_eq_true, if_false] at h
          by_cases hf : etype = "float"
          · subst hf
            simp only [beq_self_eq_true, if_true] at h
            cases hev : index e "value" with
            | str enum =>
              simp only [hev] at h
              cases htv : index t "value" with
              | str tnum =>
                simp only [htv, Option.some.injEq] at h
                subst h
                rcases cmpFloats_cases lib r enum tnum with h1 | ⟨h1, msg, h2⟩
                · exact Or.inl h1
                · exact Or.inr (Or.inl ⟨by simp [leafDiverges, hte, htt, hev, htv, h1],
                    msg, h2⟩)
              | _ =>
                simp only [htv, Option.some.injEq] at h
                subst h
                exact Or.inr (Or.inl ⟨by simp [leafDiverges, hte, htt, hev, htv, floatsEqual],
                  _, rfl⟩)
            | _ =>
              simp only [hev, Option.some.injEq] at h
              subst h
              exact Or.inr (Or.inl ⟨by simp [leafDiverges, hte, htt, hev, floatsEqual],
                _, rfl⟩)
          · have hf' : (etype == "float") = false := by simpa using hf
            simp only [hf', Bool.false_eq_true, if_false] at h
            cases hi : ifaceEq (index e "value") (index t "value") with
            | none => simp [hi] at h
            | some c =>
              have hsame := same_of_ifaceEq _ _ c hi
              cases c
              · simp only [hi, Option.some.injEq] at h
                subst h
                exact Or.inr (Or.inl ⟨by simp [leafDiverges, hte, htt, ha', hf', hsame],
                  _, rfl⟩)
              · simp only [hi, Option.some.injEq] at h
                exact Or.inl h.symm
      · have hne' : (etype != ttype) = true := by simpa using hne
        simp only [hne', if_true, Option.some.injEq] at h
        subst h
        exact Or.inr (Or.inl ⟨by simp [leafDiverges, hte, htt, hne'], _, rfl⟩)
    | _ =>
      simp only [htt, Option.some.injEq] at h
      subst h
      exact Or.inr (Or.inl ⟨by simp [leafDiverges, hte, htt], _, rfl⟩)
  | _ =>
    simp only [hte, Option.some.injEq] at h
    subst h
    exact Or.inr (Or.inl ⟨by simp [leafDiverges, hte], _, rfl⟩)

/-- What `cmpJsonArrays` returns on an expected slice: a failure on two nodes
that differ in themselves, or what the loop over the elements of two slices of
the same length returns. -/
theorem cmpJsonArraysFrom_cases (lib : GoLib) (each : List JSON → Option result)
    (r : result) (ea : List JSON) (t : JSON) (r' : result)
    (h : cmpJsonArraysFrom each r ea t = some r') :
    (nodeDiverges lib (.arr ea) t = true ∧ ∃ msg, r' = r.failedf msg)
      ∨ ∃ ta, t = .arr ta ∧ ea.length = ta.length ∧ each ta = some r' := by
  cases t with
  | arr ta =>
    by_cases hl : ea.length = ta.length
    · simp only [cmpJsonArraysFrom, hl, bne_self_eq_false, Bool.false_eq_true,
        if_false] at h
      exact Or.inr ⟨ta, rfl, hl, h⟩
    · have hl' : (ea.length != ta.length) = true := by simpa using hl
      simp only [cmpJsonArraysFrom, hl', if_true, Option.some.injEq] at h
      exact Or.inl ⟨by simp [nodeDiverges, hl], _, h.symm⟩
  | _ =>
    simp only [cmpJsonArraysFrom, Option.some.injEq] at h
    exact Or.inl ⟨by simp [nodeDiverges], _, h.symm⟩

/-- What `cmpJsonMaps` returns: `r` itself, a failure on two nodes that differ
in themselves, a failure at a key that one of two Untagged Tables lacks, what
the call of `cmpJsonArrays` on two `array` leaves returns, or what the loop
over the bindings of two Untagged Tables with the same key set returns. -/
theorem cmpJsonMapsWith_cases (lib : GoLib) (arrays : JSON → Option result)
    (each : Table → Option result) (r : result) (e : Table) (test : JSON) (r' : result)
    (h : cmpJsonMapsWith lib arrays each r e test = some r') :
    r' = r
      ∨ (nodeDiverges lib (.obj e) test = true ∧ ∃ msg, r' = r.failedf msg)
      ∨ ∃ t, test = .obj t ∧
        ((isValue e = true ∧ isValue t = true ∧ index e "type" = .str "array"
            ∧ index t "type" = .str "array" ∧ arrays (index t "value") = some r')
          ∨ (isValue e = false ∧ isValue t = false ∧
              ∃ k msg, ((k ∈ keys e ∧ hasKey t k = false) ∨ (k ∈ keys t ∧ hasKey e k = false))
                ∧ r' = (r.kjoin k).failedf msg)
          ∨ (isValue e = false ∧ isValue t = false ∧ sameKeys e t = true
              ∧ each t = some r')) := by
  cases test with
  | obj t =>
    by_cases he : isValue e = true <;> by_cases ht : isValue t = true
    · simp only [cmpJsonMapsWith, he, ht, Bool.not_true, Bool.and_false, Bool.false_and,
        Bool.and_self, Bool.false_eq_true, if_false, if_true] at h
      rcases cmpJsonValuesWith_cases lib arrays r e t r' h with h1 | ⟨h1, h2⟩ | ⟨h1, h2, h3⟩
      · exact Or.inl h1
      · exact Or.inr (Or.inl ⟨by simp [nodeDiverges, he, ht, h1], h2⟩)
      · exact Or.inr (Or.inr ⟨t, rfl, Or.inl ⟨he, ht, h1, h2, h3⟩⟩)
    · have ht' : isValue t = false := by simpa using ht
      simp only [cmpJsonMapsWith, he, ht', Bool.not_false, Bool.and_self, if_true,
        Option.some.injEq] at h
      exact Or.inr (Or.inl ⟨by simp [nodeDiverges, he, ht'], _, h.symm⟩)
    · have he' : isValue e = false := by simpa using he
      simp only [cmpJsonMapsWith, he', ht, Bool.not_true, Bool.not_false, Bool.and_false,
        Bool.false_and, Bool.and_self, Bool.false_eq_true, if_false, if_true,
        Option.some.injEq] at h
      exact Or.inr (Or.inl ⟨by simp [nodeDiverges, he', ht], _, h.symm⟩)
    · have he' : isValue e = false := by simpa using he
      have ht' : isValue t = false := by simpa using ht
      simp only [cmpJsonMapsWith, he', ht', Bool.false_and, Bool.not_false, Bool.and_false,
        Bool.false_eq_true, if_false] at h
      cases h1 : missingKey e t with
      | some k =>
        simp only [h1, Option.some.injEq] at h
        exact Or.inr (Or.inr ⟨t, rfl, Or.inr (Or.inl ⟨he', ht', k, _,
          Or.inl (missingKey_eq_some e t k h1), h.symm⟩)⟩)
      | none =>
        cases h2 : missingKey t e with
        | some k =>
          simp only [h1, h2, Option.some.injEq] at h
          exact Or.inr (Or.inr ⟨t, rfl, Or.inr (Or.inl ⟨he', ht', k, _,
            Or.inr (missingKey_eq_some t e k h2), h.symm⟩)⟩)
        | none =>
          simp only [h1, h2] at h
          exact Or.inr (Or.inr ⟨t, rfl, Or.inr (Or.inr ⟨he', ht',
            (sameKeys_iff e t).2 ⟨h1, h2⟩, h⟩)⟩)
  | _ =>
    simp only [cmpJsonMapsWith, Option.some.injEq] at h
    exact Or.inr (Or.inl ⟨by simp [nodeDiverges], _, h.symm⟩)

mutual
/-- A failed result of a comparison that started from a result that had not
failed is the result at the path of a node at which the two trees diverge. -/
theorem divergesAt_cmpJson (lib : GoLib) :
    ∀ (e : JSON) (r : result) (t : JSON) (r' : result), r.failed = false →
      cmpJson lib r e t = some r' → r'.failed = true →
      ∃ ks msg, DivergesAt lib e t ks ∧ r' = (descend r ks).failedf msg
  | .obj m, r, t, r', hr, h, hf => by
    simp only [cmpJson] at h
    rcases cmpJsonMapsWith_cases lib _ _ r m t r' h with h1 | ⟨h1, msg, h2⟩ | ⟨tt, rfl, hc⟩
    · rw [h1, hr] at hf; cases hf
    · exact ⟨[], msg, DivergesAt.here _ _ h1, h2⟩
    · rcases hc with ⟨he, ht, hte, htt, ha⟩ | ⟨he, ht, k, msg, hk, h2⟩ | ⟨he, ht, hs, hl⟩
      · rcases divergesAt_cmpJsonArraysAt lib m r _ r' hr ha hf with
          ⟨h1, msg, h2⟩ | ⟨xs, ks, msg, hv, hc, h2⟩
        · refine ⟨[], msg, DivergesAt.here _ _ ?_, h2⟩
          simp [nodeDiverges, leafDiverges, he, ht, hte, htt, h1]
        · exact ⟨ks, msg, DivergesAt.value m tt xs ks he ht hte htt hv hc, h2⟩
      · exact ⟨[k], msg, DivergesAt.key m tt k he ht hk, h2⟩
      · obtain ⟨k, v, ks, msg, hmem, hc, h2⟩ :=
          divergesAt_cmpJsonMapsEach lib m r tt r' hr hl hf
        exact ⟨k :: ks, msg, DivergesAt.member m tt k v ks he ht hs hmem hc, h2⟩
  | .arr ea, r, t, r', hr, h, hf => by
    simp only [cmpJson] at h
    rcases cmpJsonArraysFrom_cases lib _ r ea t r' h with ⟨h1, msg, h2⟩ | ⟨ta, rfl, hl, he⟩
    · exact ⟨[], msg, DivergesAt.here _ _ h1, h2⟩
    · obtain ⟨i, x, y, ks, msg, hx, hy, hc, h2⟩ :=
        divergesAt_cmpJsonArraysEach lib ea r ta r' hr he hf
      exact ⟨ks, msg, DivergesAt.elem ea ta i x y ks hl hx hy hc, h2⟩
  | .null, r, t, r', hr, h, hf => by
    simp only [cmpJson, Option.some.injEq] at h
    exact ⟨[], _, DivergesAt.here _ _ (by simp [nodeDiverges]), h.symm⟩
  | .bool _, r, t, r', hr, h, hf => by
    simp only [cmpJson, Option.some.injEq] at h
    exact ⟨[], _, DivergesAt.here _ _ (by simp [nodeDiverges]), h.symm⟩
  | .num _, r, t, r', hr, h, hf => by
    simp only [cmpJson, Option.some.injEq] at h
    exact ⟨[], _, DivergesAt.here _ _ (by simp [nodeDiverges]), h.symm⟩
  | .str _, r, t, r', hr, h, hf => by
    simp only [cmpJson, Option.some.injEq] at h
    exact ⟨[], _, DivergesAt.here _ _ (by simp [nodeDiverges]), h.symm⟩
termination_by structural e => e
/-- A failed result of `cmpJsonArrays`: the expected value is no Sequence, or
the result is at the path of a node at which the Sequence and the test value
diverge. -/
theorem divergesAt_cmpJsonArrays (lib : GoLib) :
    ∀ (e : JSON) (r : result) (t : JSON) (r' : result), r.failed = false →
      cmpJsonArrays lib r e t = some r' → r'.failed = true →
      (isArr e = false ∧ ∃ msg, r' = r.failedf msg)
        ∨ ∃ xs ks msg, e = .arr xs ∧ DivergesAt lib (.arr xs) t ks
            ∧ r' = (descend r ks).failedf msg
  | .arr ea, r, t, r', hr, h, hf => by
    simp only [cmpJsonArrays] at h
    rcases cmpJsonArraysFrom_cases lib _ r ea t r' h with ⟨h1, msg, h2⟩ | ⟨ta, rfl, hl, he⟩
    · exact Or.inr ⟨ea, [], msg, rfl, DivergesAt.here _ _ h1, h2⟩
    · obtain ⟨i, x, y, ks, msg, hx, hy, hc, h2⟩ :=
        divergesAt_cmpJsonArraysEach lib ea r ta r' hr he hf
      exact Or.inr ⟨ea, ks, msg, rfl, DivergesAt.elem ea ta i x y ks hl hx hy hc, h2⟩
  | .obj _, r, t, r', hr, h, hf => by
    simp only [cmpJsonArrays, Option.some.injEq] at h
    exact Or.inl ⟨rfl, _, h.symm⟩
  | .null, r, t, r', hr, h, hf => by
    simp only [cmpJsonArrays, Option.some.injEq] at h
    exact Or.inl ⟨rfl, _, h.symm⟩
  | .bool _, r, t, r', hr, h, hf => by
    simp only [cmpJsonArrays, Option.some.injEq] at h
    exact Or.inl ⟨rfl, _, h.symm⟩
  | .num _, r, t, r', hr, h, hf => by
    simp only [cmpJsonArrays, Option.some.injEq] at h
    exact Or.inl ⟨rfl, _, h.symm⟩
  | .str _, r, t, r', hr, h, hf => by
    simp only [cmpJsonArrays, Option.some.injEq] at h
    exact Or.inl ⟨rfl, _, h.symm⟩
termination_by structural e => e
/-- A failed result of the loop over the elements is at the path of a node at
which two elements at the same index diverge. -/
theorem divergesAt_cmpJsonArraysEach (lib : GoLib) :
    ∀ (ea : List JSON) (r : result) (ta : List JSON) (r' : result), r.failed = false →
      cmpJsonArraysEach lib r ea ta = some r' → r'.failed = true →
      ∃ (i : Nat) (x y : JSON) (ks : List String) (msg : String),
        ea[i]? = some x ∧ ta[i]? = some y ∧ DivergesAt lib x y ks
          ∧ r' = (descend r ks).failedf msg
  | [], r, ta, r', hr, h, hf => by
    simp only [cmpJsonArraysEach, Option.some.injEq] at h
    rw [← h, hr] at hf; cases hf
  | _ :: _, r, [], r', hr, h, hf => by
    simp [cmpJsonArraysEach] at h
  | x :: ea, r, y :: ta, r', hr, h, hf => by
    simp only [cmpJsonArraysEach] at h
    cases hc : cmpJson lib r x y with
    | none => simp [hc] at h
    | some sub =>
      simp only [hc] at h
      cases hs : sub.failed
      · simp only [hs, Bool.false_eq_true, if_false] at h
        obtain ⟨i, a, b, ks, msg, ha, hb, hd, h2⟩ :=
          divergesAt_cmpJsonArraysEach lib ea r ta r' hr h hf
        exact ⟨i + 1, a, b, ks, msg, by simpa using ha, by simpa using hb, hd, h2⟩
      · simp only [hs, if_true, Option.some.injEq] at h
        subst h
        obtain ⟨ks, msg, hd, h2⟩ := divergesAt_cmpJson lib x r y sub hr hc hs
        exact ⟨0, x, y, ks, msg, by simp, by simp, hd, h2⟩
termination_by structural e => e
/-- A failed result of the call of `cmpJsonArrays` on the `value` field of the
expected leaf. -/
theorem divergesAt_cmpJsonArraysAt (lib : GoLib) :
    ∀ (m : Table) (r : result) (tv : JSON) (r' : result), r.failed = false →
      cmpJsonArraysAt lib r m tv = some r' → r'.failed = true →
      (isArr (index m "value") = false ∧ ∃ msg, r' = r.failedf msg)
        ∨ ∃ xs ks msg, index m "value" = .arr xs ∧ DivergesAt lib (.arr xs) tv ks
            ∧ r' = (descend r ks).failedf msg
  | [], r, tv, r', hr, h, hf => by
    simp only [cmpJsonArraysAt, Option.some.injEq] at h
    exact Or.inl ⟨rfl, _, h.symm⟩
  | (k, v) :: rest, r, tv, r', hr, h, hf => by
    simp only [cmpJsonArraysAt] at h
    rw [index_cons_value]
    by_cases hk : k = "value"
    · simp only [hk, beq_self_eq_true, if_true] at h ⊢
      exact divergesAt_cmpJsonArrays lib v r tv r' hr h hf
    · have hk' : (k == "value") = false := by simpa using hk
      simp only [hk', Bool.false_eq_true, if_false] at h
      simp only [hk, if_false]
      exact divergesAt_cmpJsonArraysAt lib rest r tv r' hr h hf
termination_by structural e => e
/-- A failed result of the loop over the bindings is at the path of a node at
which the value of a binding and the value under the same key diverge. -/
theorem divergesAt_cmpJsonMapsEach (lib : GoLib) :
    ∀ (m : Table) (r : result) (tt : Table) (r' : result), r.failed = false →
      cmpJsonMapsEach lib r m tt = some r' → r'.failed = true →
      ∃ (k : String) (v : JSON) (ks : List String) (msg : String),
        (k, v) ∈ m ∧ DivergesAt lib v (index tt k) ks
          ∧ r' = (descend r (k :: ks)).failedf msg
  | [], r, tt, r', hr, h, hf => by
    simp only [cmpJsonMapsEach, Option.some.injEq] at h
    rw [← h, hr] at hf; cases hf
  | (k, v) :: rest, r, tt, r', hr, h, hf => by
    simp only [cmpJsonMapsEach] at h
    cases hc : cmpJson lib (r.kjoin k) v (index tt k) with
    | none => simp [hc] at h
    | some sub =>
      simp only [hc] at h
      cases hs : sub.failed
      · simp only [hs, Bool.false_eq_true, if_false] at h
        obtain ⟨k', v', ks, msg, hmem, hd, h2⟩ :=
          divergesAt_cmpJsonMapsEach lib rest r tt r' hr h hf
        exact ⟨k', v', ks, msg, List.mem_cons_of_mem _ hmem, hd, h2⟩
      · simp only [hs, if_true, Option.some.injEq] at h
        subst h
        obtain ⟨ks, msg, hd, h2⟩ := divergesAt_cmpJson lib v (r.kjoin k) (index tt k) sub
          (by rw [kjoin_failed]; exact hr) hc hs
        exact ⟨k, v, ks, msg, List.mem_cons_self _ _, hd, h2⟩
termination_by structural e => e
end

/-- C15, as amended.  The dotted key path: from a result with the empty `Key`,
applying `kjoin` to the keys `k1`, ..., `kn` in turn yields the keys joined with
a dot, provided the first key is not the empty string when there are several;
for keys that are not empty and hold no dot, distinct key sequences yield
distinct paths.  A result that `cmpJson` returns from a result that has not
failed is that result itself, the two trees diverging at no node, or it has
failed and is the result of `kjoin` applied to the keys that lead from the two
roots to a node at which the trees diverge, holding a failure text: a
divergence found at a node is returned with the path of that node as `Key`. -/
theorem descend_Key_join (r : result) :
    (r.Key = "" → ∀ ks : List String,
        (∀ k rest, ks = k :: rest → rest ≠ [] → k ≠ "") →
        (descend r ks).Key = ".".intercalate ks)
    ∧ (r.Key = "" → ∀ ks ks' : List String,
        (∀ k ∈ ks, k ≠ "" ∧ dotFree k) → (∀ k ∈ ks', k ≠ "" ∧ dotFree k) →
        (descend r ks).Key = (descend r ks').Key → ks = ks')
    ∧ (r.failed = false → ∀ (lib : GoLib) (e t : JSON) (r' : result),
        cmpJson lib r e t = some r' →
        (r' = r ∧ ¬ ∃ ks, DivergesAt lib e t ks)
          ∨ (r'.failed = true
              ∧ ∃ ks msg, DivergesAt lib e t ks ∧ r' = (descend r ks).failedf msg)) := by
  refine ⟨fun h ks hk => descend_Key ks r h hk, ?_, ?_⟩
  · intro h ks ks' h1 h2 heq
    have hfirst : ∀ l : List String, (∀ k ∈ l, k ≠ "" ∧ dotFree k) →
        ∀ k rest, l = k :: rest → rest ≠ [] → k ≠ "" := by
      intro l hl k rest hlk _
      exact (hl k (by rw [hlk]; exact List.mem_cons_self _ _)).1
    rw [descend_Key ks r h (hfirst ks h1), descend_Key ks' r h (hfirst ks' h2)] at heq
    exact intercalate_inj ks ks' h1 h2 heq
  · intro hr lib e t r' h
    cases hf : r'.failed
    · refine Or.inl ⟨(passes_iff_eq r r' _ (returns_cmpJson lib r e t) hr h).1 hf, ?_⟩
      rintro ⟨ks, hd⟩
      have hs := specEquiv_of_passes lib e r t (by simp [h, passes, hf])
      rw [specEquiv_of_divergesAt lib e t ks hd] at hs
      cases hs
    · exact Or.inr ⟨rfl, divergesAt_cmpJson lib e r t r' hr h hf⟩

theorem descend_Key_join_witness :
    (descend (freshResult "t") ["a", "b", "c"]).Key = ".".intercalate ["a", "b", "c"]
    ∧ (descend (freshResult "t") ["a", "b"]).Key ≠ (descend (freshResult "t") ["a", "c"]).Key
    ∧ cmpJson refLib (freshResult "t")
        (.obj [("a", .obj [("x", .obj [("type", .str "integer"), ("value", .str "1")])]),
          ("b", .obj [("x", .obj [("type", .str "integer"), ("value", .str "1")])])])
        (.obj [("a", .obj [("x", .obj [("type", .str "integer"), ("value", .str "1")])]),
          ("b", .obj [("x", .obj [("type", .str "integer"), ("value", .str "2")])])])
      = some { freshResult "t" with
          Key := "b.x"
          Failure := "Values for key 'b.x' don't match. Expected a value of '1' but got '2'." }
    ∧ ∃ ks msg, DivergesAt refLib
        (.obj [("a", .obj [("x", .obj [("type", .str "integer"), ("value", .str "1")])]),
          ("b", .obj [("x", .obj [("type", .str "integer"), ("value", .str "1")])])])
        (.obj [("a", .obj [("x", .obj [("type", .str "integer"), ("value", .str "1")])]),
          ("b", .obj [("x", .obj [("type", .str "integer"), ("value", .str "2")])])])
        ks
      ∧ { freshResult "t" with
          Key := "b.x"
          Failure := "Values for key 'b.x' don't match. Expected a value of '1' but got '2'." }
        = (descend (freshResult "t") ks).failedf msg :=
  ⟨(descend_Key_join (freshResult "t")).1 rfl ["a", "b", "c"]
      (by
        intro k rest h _
        simp only [List.cons.injEq] at h
        rw [← h.1]; decide),
   fun h => absurd
    ((descend_Key_join (freshResult "t")).2.1 rfl ["a", "b"] ["a", "c"]
      (by
        intro k hk
        simp only [List.mem_cons, List.mem_singleton, List.not_mem_nil, or_false] at hk
        rcases hk with rfl | rfl <;> exact ⟨by decide, by simp [dotFree]⟩)
      (by
        intro k hk
        simp only [List.mem_cons, List.mem_singleton, List.not_mem_nil, or_false] at hk
        rcases hk with rfl | rfl <;> exact ⟨by decide, by simp [dotFree]⟩) h)
    (by decide),
   by decide,
   (((descend_Key_join (freshResult "t")).2.2 rfl refLib
      (.obj [("a", .obj [("x", .obj [("type", .str "integer"), ("value", .str "1")])]),
        ("b", .obj [("x", .obj [("type", .str "integer"), ("value", .str "1")])])])
      (.obj [("a", .obj [("x", .obj [("type", .str "integer"), ("value", .str "1")])]),
        ("b", .obj [("x", .obj [("type", .str "integer"), ("value", .str "2")])])])
      _ (by decide)).resolve_left (fun h => absurd h.1 (by decide))).2⟩

/-- The trees of the example diverge at the node reached through `b` and `x`,
and not at the node reached through `a` and `x`, where the two leaves agree. -/
theorem divergesAt_example :
    DivergesAt refLib
        (.obj [("a", .obj [("x", .obj [("type", .str "integer"), ("value", .str "1")])]),
          ("b", .obj [("x", .obj [("type", .str "integer"), ("value", .str "1")])])])
        (.obj [("a", .obj [("x", .obj [("type", .str "integer"), ("value", .str "1")])]),
          ("b", .obj [("x", .obj [("type", .str "integer"), ("value", .str "2")])])])
        ["b", "x"]
    ∧ ¬ DivergesAt refLib
        (.obj [("a", .obj [("x", .obj [("type", .str "integer"), ("value", .str "1")])]),
          ("b", .obj [("x", .obj [("type", .str "integer"), ("value", .str "1")])])])
        (.obj [("a", .obj [("x", .obj [("type", .str "integer"), ("value", .str "1")])]),
          ("b", .obj [("x", .obj [("type", .str "integer"), ("value", .str "2")])])])
        ["a", "x"] := by
  constructor
  · refine DivergesAt.member _ _ "b" _ ["x"] (by decide) (by decide) (by decide)
      (List.mem_cons_of_mem _ (List.mem_cons_self _ _)) ?_
    refine DivergesAt.member _ _ "x" _ [] (by decide) (by decide) (by decide)
      (List.mem_cons_self _ _) ?_
    exact DivergesAt.here _ _ (by decide)
  · intro h
    cases h with
    | member _ _ _ v _ _ _ _ hmem c =>
      simp only [List.mem_cons, Prod.mk.injEq, List.mem_singleton, List.not_mem_nil,
        or_false, true_and] at hmem
      rcases hmem with hv | ⟨hv, _⟩
      · subst hv
        cases c with
        | key _ _ _ _ _ hk => revert hk; decide
        | member _ _ _ w _ _ _ _ hmem2 c2 =>
          simp only [List.mem_singleton, Prod.mk.injEq, true_and] at hmem2
          subst hmem2
          cases c2 with
          | here _ _ h0 => revert h0; decide
          | value _ _ _ _ _ _ hte => simp [index, List.lookup] at hte
        | value _ _ _ _ _ _ hte => simp [index, List.lookup] at hte
      · exact absurd hv (by decide)
    | value _ _ _ _ _ _ hte => simp [index, List.lookup] at hte

/-- C15, counterexample.  After the empty key, `kjoin` adds the next key without
a dot: the empty key followed by `b` yields the path `b`, not `.b`; and the key sequences
`a.b` and `a`, `b` yield the same path. -/
theorem descend_Key_join_counterexample :
    (descend (freshResult "t") ["", "b"]).Key = "b"
      ∧ ".".intercalate ["", "b"] = ".b"
      ∧ (descend (freshResult "t") ["a.b"]).Key = (descend (freshResult "t") ["a", "b"]).Key := by
  decide

end TomlTest
